import Mathlib

/-!
# Curvefs CSI driver utilities: tool invoker, mount invoker and config patcher

A shallow embedding of `pkg/curvefs-driver/curvefs_util.go`.

* Go strings are sequences of bytes; they are modelled as `List Char`
  (`Str`).  All separators used by the code (`\n`, `=`, `;`, `:`, `#`) are
  single bytes, so they are modelled as single characters.
* A Go `map[string]string` is an association list with at most one entry per
  key (`GoMap`); the order in which `range` visits the entries is not
  specified by the language and is a parameter (`MapOrder`).
* External effects (process execution, file reads and writes, directory
  creation, background removals) are recorded in a trace of `Event`s; their
  results are supplied by an environment (`Env`) that may make each of them
  fail.
-/

namespace CurveFs

deriving instance DecidableEq for Except

/-- A Go string: a sequence of bytes. -/
abbrev Str := List Char

/-! ## Go maps -/

/-- A Go `map[string]string`. -/
abbrev GoMap := List (Str × Str)

namespace GoMap

/-- The lookup `v, ok := m[k]`: `none` stands for `ok == false`. -/
def get : GoMap → Str → Option Str
  | [], _ => none
  | (k', v') :: rest, k => if k' = k then some v' else get rest k

/-- The assignment `m[k] = v`. -/
def set : GoMap → Str → Str → GoMap
  | [], k, v => [(k, v)]
  | (k', v') :: rest, k, v => if k' = k then (k, v) :: rest else (k', v') :: set rest k v

/-- The builtin `delete(m, k)`. -/
def del : GoMap → Str → GoMap
  | [], _ => []
  | (k', v') :: rest, k => if k' = k then del rest k else (k', v') :: del rest k

/-- The keys of the map. -/
def keys (m : GoMap) : List Str := m.map Prod.fst

end GoMap

/-- The order in which a `for k, v := range m` loop visits the entries of a
map: some permutation of the entries. -/
structure MapOrder where
  iter : GoMap → GoMap
  perm : ∀ m, (iter m).Perm m

/-- The iteration order that visits the entries as they are stored. -/
def MapOrder.stored : MapOrder := ⟨fun m => m, fun _ => List.Perm.refl _⟩

/-- The iteration order that visits the entries in reverse. -/
def MapOrder.reversed : MapOrder := ⟨fun m => m.reverse, fun m => List.reverse_perm m⟩

/-! ## The `strings` package -/

/-- The function `strings.HasPrefix`. -/
def HasPrefix (s p : Str) : Bool := p.isPrefixOf s

/-- The function `strings.Contains` for a one-byte substring. -/
def Contains (s : Str) (c : Char) : Bool := s.elem c

/-- Cut `s` around the first occurrence of `sep`. -/
def cutAt (sep : Char) : Str → Option (Str × Str)
  | [] => none
  | c :: cs =>
    if c = sep then some ([], cs)
    else match cutAt sep cs with
      | some (a, b) => some (c :: a, b)
      | none => none

/-- The call `strings.SplitN(s, sep, 2)` for a one-byte separator. -/
def SplitN2 (s : Str) (sep : Char) : List Str :=
  match cutAt sep s with
  | some (a, b) => [a, b]
  | none => [s]

/-- The function `strings.Split` for a one-byte separator. -/
def Split : Str → Char → List Str
  | [], _ => [[]]
  | c :: cs, sep =>
    if c = sep then [] :: Split cs sep
    else match Split cs sep with
      | h :: t => (c :: h) :: t
      | [] => [[c]]

/-- The function `strings.Join`. -/
def Join : List Str → Str → Str
  | [], _ => []
  | [a], _ => a
  | a :: b :: rest, sep => a ++ sep ++ Join (b :: rest) sep

/-! ## Constants -/

def defaultToolExampleConfPath : Str := "/curvefs/conf/tools.conf".toList
def defaultClientExampleConfPath : Str := "/curvefs/conf/client.conf".toList
def toolPath : Str := "/curvefs/tools/sbin/curvefs_tool".toList
def clientPath : Str := "/curvefs/client/sbin/curve-fuse".toList
def cacheDirPrefix : Str := "/curvefs/client/data/cache/".toList

/-! ## Errors, effects and the environment -/

/-- The gRPC status codes used by the file. -/
inductive Code
  | InvalidArgument
  | Internal
  deriving DecidableEq

/-- A Go `error` value returned by the functions of the file: either a gRPC
status built by `status.Error` / `status.Errorf` (the message text is the
literal or the format string; its formatted operands are not modelled), or an
error of the `os` package handed back unwrapped. -/
inductive GoError
  | status (code : Code) (msg : String)
  | os (msg : String)
  deriving DecidableEq

/-- The status code carried by an error, if it is a gRPC status. -/
def GoError.code? : GoError → Option Code
  | .status c _ => some c
  | .os _ => none

/-- An effect on the outside world. -/
inductive Event
  | exec (path : Str) (args : List Str)
  | readFile (path : Str)
  | writeFile (path : Str) (data : Str)
  | mkdirAll (path : Str)
  | goRemove (path : Str)
  | goRemoveAll (path : Str)
  deriving DecidableEq

/-- What `Cmd.CombinedOutput` returns. -/
structure CmdResult where
  output : Str
  err : Option String

/-- The outside world: the outcome of every external command and file
operation, one field per call site, and the iteration order of maps. -/
structure Env where
  exec : Str → List Str → CmdResult
  readOrig : Str → Except String Str
  writeCopy : Str → Str → Option String
  readCopy : Str → Except String Str
  writeNew : Str → Str → Option String
  mkdirAll : Str → Option String
  order : MapOrder

/-! ## The `strconv` package -/

/-- The errors `strconv.ErrSyntax` and `strconv.ErrRange`. -/
inductive NumError
  | ErrSyntax
  | ErrRange
  deriving DecidableEq

/-- The helper `lower(c)` of `strconv`: `c | ('x' - 'X')`. -/
def lower (c : Char) : Nat := c.toNat ||| 0x20

/-- The helper `underscoreOK` of `strconv`: underscores may only separate
digits (a base prefix counts as a digit).  `loop` is the scan of the number
proper with the variable `saw`. -/
def underscoreOK.loop (hex : Bool) : Char → Str → Bool
  | saw, [] => saw != '_'
  | saw, c :: rest =>
    if ('0'.toNat ≤ c.toNat ∧ c.toNat ≤ '9'.toNat) ∨
        (hex = true ∧ 'a'.toNat ≤ lower c ∧ lower c ≤ 'f'.toNat) then
      underscoreOK.loop hex '0' rest
    else if c = '_' then
      if saw != '0' then false else underscoreOK.loop hex '_' rest
    else if saw = '_' then false
    else underscoreOK.loop hex '!' rest

/-- The helper `underscoreOK` of `strconv`. -/
def underscoreOK (s : Str) : Bool :=
  let s := match s with
    | c :: rest => if c = '-' ∨ c = '+' then rest else s
    | [] => s
  match s with
  | c0 :: c1 :: rest =>
    if c0 = '0' ∧ (lower c1 = 'b'.toNat ∨ lower c1 = 'o'.toNat ∨ lower c1 = 'x'.toNat) then
      underscoreOK.loop (lower c1 = 'x'.toNat) '0' rest
    else underscoreOK.loop false '^' s
  | _ => underscoreOK.loop false '^' s

/-- The digit loop of `strconv.ParseUint` with `bitSize` 64 and `base0` set:
`n` is the value so far, `underscores` records whether an underscore was seen. -/
def ParseUint.loop (base : Nat) : Str → Nat → Bool → Except NumError (Nat × Bool)
  | [], n, underscores => .ok (n, underscores)
  | c :: rest, n, underscores =>
    if c = '_' then ParseUint.loop base rest n true
    else
      let d? : Option Nat :=
        if '0'.toNat ≤ c.toNat ∧ c.toNat ≤ '9'.toNat then some (c.toNat - '0'.toNat)
        else if 'a'.toNat ≤ lower c ∧ lower c ≤ 'z'.toNat then some (lower c - 'a'.toNat + 10)
        else none
      match d? with
      | none => .error .ErrSyntax
      | some d =>
        if d ≥ base then .error .ErrSyntax
        else if n ≥ (2 ^ 64 - 1) / base + 1 then .error .ErrRange
        else
          let n := (n * base) % 2 ^ 64
          let n1 := (n + d) % 2 ^ 64
          if n1 < n ∨ n1 > 2 ^ 64 - 1 then .error .ErrRange
          else ParseUint.loop base rest n1 underscores

/-- The call `strconv.ParseUint(s, 0, 64)`. -/
def ParseUint (s : Str) : Except NumError Nat :=
  match s with
  | [] => .error .ErrSyntax
  | c0 :: tail =>
    let s0 := s
    let (base, digits) : Nat × Str :=
      if c0 = '0' then
        match tail with
        | c1 :: c2 :: more =>
          if lower c1 = 'b'.toNat then (2, c2 :: more)
          else if lower c1 = 'o'.toNat then (8, c2 :: more)
          else if lower c1 = 'x'.toNat then (16, c2 :: more)
          else (8, tail)
        | _ => (8, tail)
      else (10, s)
    match ParseUint.loop base digits 0 false with
    | .error e => .error e
    | .ok (n, underscores) =>
      if underscores ∧ ¬ underscoreOK s0 then .error .ErrSyntax else .ok n

/-- The call `strconv.ParseInt(s, 0, 64)`. -/
def ParseInt (s : Str) : Except NumError Int :=
  match s with
  | [] => .error .ErrSyntax
  | c0 :: tail =>
    let (neg, s) : Bool × Str :=
      if c0 = '+' then (false, tail)
      else if c0 = '-' then (true, tail)
      else (false, s)
    match ParseUint s with
    | .error e => .error e
    | .ok un =>
      let cutoff : Nat := 2 ^ 63
      if ¬ neg ∧ un ≥ cutoff then .error .ErrRange
      else if neg ∧ un > cutoff then .error .ErrRange
      else .ok (if neg then - (un : Int) else (un : Int))

/-! ## The tool invoker -/

/-- The type `curvefsTool`: its only field is the flag mapping `toolParams`. -/
structure curvefsTool where
  toolParams : GoMap

/-- The constructor `NewCurvefsTool`. -/
def NewCurvefsTool : curvefsTool := ⟨[]⟩

/-- The method `curvefsTool.validateCommonParams`: the tool after the call and
the returned error. -/
def validateCommonParams (ct : curvefsTool) (params : GoMap) :
    curvefsTool × Option GoError :=
  match params.get "mdsAddr".toList with
  | none => (ct, some (.status .InvalidArgument "mdsAddr is missing"))
  | some mdsAddr =>
    let ct : curvefsTool := ⟨ct.toolParams.set "mdsAddr".toList mdsAddr⟩
    match params.get "toolConfPath".toList with
    | some confPath => (⟨ct.toolParams.set "confPath".toList confPath⟩, none)
    | none => (⟨ct.toolParams.set "confPath".toList defaultToolExampleConfPath⟩, none)

/-- The method `curvefsTool.validateCreateFsParams`. -/
def validateCreateFsParams (ct : curvefsTool) (params : GoMap) :
    curvefsTool × Option GoError :=
  match params.get "fsType".toList with
  | none => (ct, some (.status .InvalidArgument "fsType is missing"))
  | some fsType =>
    let ct : curvefsTool := ⟨ct.toolParams.set "fsType".toList fsType⟩
    let ct : curvefsTool :=
      match params.get "enableSumInDir".toList with
      | some enableSumInDir => ⟨ct.toolParams.set "enableSumInDir".toList enableSumInDir⟩
      | none => ⟨ct.toolParams.set "enableSumInDir".toList "0".toList⟩
    if fsType = "s3".toList then
      match params.get "s3Endpoint".toList, params.get "s3AccessKey".toList,
          params.get "s3SecretKey".toList, params.get "s3Bucket".toList with
      | some s3Endpoint, some s3AccessKey, some s3SecretKey, some s3Bucket =>
        (⟨(((ct.toolParams.set "s3_endpoint".toList s3Endpoint).set "s3_ak".toList
            s3AccessKey).set "s3_sk".toList s3SecretKey).set "s3_bucket_name".toList
            s3Bucket⟩, none)
      | _, _, _, _ => (ct, some (.status .InvalidArgument "s3Info is incomplete"))
    else if fsType = "volume".toList then
      match params.get "backendVolName".toList with
      | none => (ct, some (.status .InvalidArgument "backendVolName is missing"))
      | some backendVolName =>
        let ct : curvefsTool := ⟨ct.toolParams.set "volumeName".toList backendVolName⟩
        match params.get "backendVolSizeGB".toList with
        | none => (ct, some (.status .InvalidArgument "backendVolSize is missing"))
        | some backendVolSizeGB =>
          match ParseInt backendVolSizeGB with
          | .error _ => (ct, some (.status .InvalidArgument "backendVolSize is not integer"))
          | .ok backendVolSizeGBInt =>
            if backendVolSizeGBInt < 10 then
              (ct, some (.status .InvalidArgument "backendVolSize must larger than 10GB"))
            else (⟨ct.toolParams.set "volumeSize".toList backendVolSizeGB⟩, none)
    else (ct, some (.status .InvalidArgument "unsupported fsType %s"))

/-- What a method of the tool or of the mounter leaves behind: the returned
error (`none` for `nil`), the receiver after the call and the effects
performed, in order. -/
structure Outcome (σ : Type) where
  err : Option GoError
  state : σ
  trace : List Event

/-- The argument `-k=v` (or `--k=v`) built by `fmt.Sprintf`. -/
def flagArg (dashes : Str) (kv : Str × Str) : Str :=
  dashes ++ kv.1 ++ "=".toList ++ kv.2

/-- The method `curvefsTool.CreateFs` (the capacity is not used by the code). -/
def CreateFs (env : Env) (ct : curvefsTool) (volumeID : Str) (params : GoMap) :
    Outcome curvefsTool :=
  match validateCommonParams ct params with
  | (ct, some err) => ⟨some err, ct, []⟩
  | (ct, none) =>
    match validateCreateFsParams ct params with
    | (ct, some err) => ⟨some err, ct, []⟩
    | (ct, none) =>
      let ct : curvefsTool := ⟨ct.toolParams.set "fsName".toList volumeID⟩
      let createFsArgs : List Str :=
        (env.order.iter ct.toolParams).foldl (fun args kv => args ++ [flagArg "-".toList kv])
          ["create-fs".toList]
      match (env.exec toolPath createFsArgs).err with
      | some _ =>
        ⟨some (.status .Internal
            "Curvefs_tool create-fs failed. cmd: %s %v, output: %s, err: %v"),
          ct, [.exec toolPath createFsArgs]⟩
      | none => ⟨none, ct, [.exec toolPath createFsArgs]⟩

/-- The method `curvefsTool.DeleteFs`. -/
def DeleteFs (env : Env) (ct : curvefsTool) (volumeID : Str) (params : GoMap) :
    Outcome curvefsTool :=
  match validateCommonParams ct params with
  | (ct, some err) => ⟨some err, ct, []⟩
  | (ct, none) =>
    let ct : curvefsTool := ⟨ct.toolParams.set "fsName".toList volumeID⟩
    let ct : curvefsTool := ⟨ct.toolParams.set "noconfirm".toList "1".toList⟩
    let deleteFsArgs : List Str :=
      (env.order.iter ct.toolParams).foldl (fun args kv => args ++ [flagArg "-".toList kv])
        ["delete-fs".toList]
    match (env.exec toolPath deleteFsArgs).err with
    | some _ =>
      ⟨some (.status .Internal
          "curvefs_tool delete-fs failed. cmd:%s %v, output: %s, err: %v"),
        ct, [.exec toolPath deleteFsArgs]⟩
    | none => ⟨none, ct, [.exec toolPath deleteFsArgs]⟩

/-! ## The config patcher -/

/-- The guard of both line loops of `applyMountFlags`: a comment line or a
line without `=`. -/
def isVerbatim (line : Str) : Bool :=
  HasPrefix line "#".toList || !Contains line '='

/-- Step 3, first loop, one iteration: record the entry of a `key=value`
line in `configMap`. -/
def readLine (configMap : GoMap) (line : Str) : GoMap :=
  if isVerbatim line then configMap
  else
    let parts := SplitN2 line '='
    configMap.set (parts.getD 0 []) (parts.getD 1 [])

/-- Step 3, second loop, one iteration: record a mount flag in `configMap`
and note whether it enables the disk cache. -/
def applyFlag (st : GoMap × Bool) (flag : Str) : GoMap × Bool :=
  let parts := SplitN2 flag '='
  if parts.length = 2 then
    (st.1.set (parts.getD 0 []) (parts.getD 1 []),
      if parts.getD 0 [] = "diskCache.diskCacheType".toList ∧
          (parts.getD 1 [] = "2".toList ∨ parts.getD 1 [] = "1".toList) then true
      else st.2)
  else st

/-- The body of the loop over `cacheDirs`: one entry with the mount id
inserted. -/
def cacheDirWithUUID (mountUUID : Str) (cacheDir : Str) : Str :=
  let cacheDirParts := SplitN2 cacheDir ':'
  if cacheDirParts.length = 2 then
    cacheDirParts.getD 0 [] ++ "/".toList ++ mountUUID ++ ":".toList ++ cacheDirParts.getD 1 []
  else cacheDirParts.getD 0 [] ++ "/".toList ++ mountUUID

/-- The rewrite of the value of `disk_cache.cache_dir` in step 4. -/
def rewriteCacheDirs (mountUUID : Str) (newValue : Str) : Str :=
  Join ((Split newValue ';').map (cacheDirWithUUID mountUUID)) ";".toList

/-- Step 4, one iteration of the loop over the lines: the text appended to
`newData` and the `configMap` after the iteration. -/
def writeLine (mountUUID : Str) (st : Str × GoMap) (line : Str) : Str × GoMap :=
  if isVerbatim line then (st.1 ++ (line ++ "\n".toList), st.2)
  else
    let parts := SplitN2 line '='
    match st.2.get (parts.getD 0 []) with
    | some newValue =>
      let newValue :=
        if parts.getD 0 [] = "disk_cache.cache_dir".toList then
          rewriteCacheDirs mountUUID newValue
        else newValue
      (st.1 ++ (parts.getD 0 [] ++ "=".toList ++ newValue ++ "\n".toList),
        st.2.del (parts.getD 0 []))
    | none => (st.1 ++ (line ++ "\n".toList), st.2)

/-- Steps 3 and 4 of `applyMountFlags` without the file operations: from the
content read back, the mount flags and the mount id to the content written
(`newData.String()`) and the flag `cacheEnabled`. -/
def patchConfig (order : MapOrder) (data : Str) (mountFlags : List Str) (mountUUID : Str) :
    Str × Bool :=
  let lines := Split data '\n'
  let configMap : GoMap := lines.foldl readLine []
  let (configMap, cacheEnabled) := mountFlags.foldl applyFlag (configMap, false)
  let (newData, configMap) := lines.foldl (writeLine mountUUID) ([], configMap)
  let newData := (order.iter configMap).foldl
    (fun newData kv => newData ++ (kv.1 ++ "=".toList ++ kv.2 ++ "\n".toList)) newData
  (newData, cacheEnabled)

/-- What `applyMountFlags` returns, with the effects it performed. -/
structure ApplyResult where
  confPath : Str
  err : Option GoError
  trace : List Event

/-- The method `curvefsMounter.applyMountFlags`. -/
def applyMountFlags (env : Env) (origConfPath : Str) (mountFlags : List Str)
    (mountUUID : Str) : ApplyResult :=
  let confPath := defaultClientExampleConfPath ++ ".".toList ++ mountUUID
  match env.readOrig origConfPath with
  | .error _ =>
    ⟨[], some (.status .Internal "applyMountFlag: failed to read conf %v"),
      [.readFile origConfPath]⟩
  | .ok data =>
    match env.writeCopy confPath data with
    | some _ =>
      ⟨[], some (.status .Internal "applyMountFlag: failed to write new conf %v"),
        [.readFile origConfPath, .writeFile confPath data]⟩
    | none =>
      match env.readCopy confPath with
      | .error _ =>
        ⟨[], some (.status .Internal "applyMountFlag: failed to read new conf %v"),
          [.readFile origConfPath, .writeFile confPath data, .readFile confPath]⟩
      | .ok data' =>
        let (newData, cacheEnabled) := patchConfig env.order data' mountFlags mountUUID
        let trace : List Event :=
          [.readFile origConfPath, .writeFile confPath data, .readFile confPath,
            .writeFile confPath newData]
        match env.writeNew confPath newData with
        | some _ =>
          ⟨[], some (.status .Internal "applyMountFlag: failed to write updated conf %v"),
            trace⟩
        | none =>
          if cacheEnabled then
            let cacheDir := cacheDirPrefix ++ mountUUID
            match env.mkdirAll cacheDir with
            | some err => ⟨[], some (.os err), trace ++ [.mkdirAll cacheDir]⟩
            | none => ⟨confPath, none, trace ++ [.mkdirAll cacheDir]⟩
          else ⟨confPath, none, trace⟩

/-! ## The mount invoker -/

/-- The type `curvefsMounter`: its only field is the mapping `mounterParams`. -/
structure curvefsMounter where
  mounterParams : GoMap

/-- The constructor `NewCurvefsMounter`. -/
def NewCurvefsMounter : curvefsMounter := ⟨[]⟩

/-- The method `curvefsMounter.validateMountFsParams`. -/
def validateMountFsParams (cm : curvefsMounter) (params : GoMap) :
    curvefsMounter × Option GoError :=
  match params.get "mdsAddr".toList with
  | none => (cm, some (.status .InvalidArgument "mdsAddr is missing"))
  | some mdsAddr =>
    let cm : curvefsMounter := ⟨cm.mounterParams.set "mdsaddr".toList mdsAddr⟩
    let cm : curvefsMounter :=
      match params.get "clientConfPath".toList with
      | some confPath => ⟨cm.mounterParams.set "conf".toList confPath⟩
      | none => ⟨cm.mounterParams.set "conf".toList defaultClientExampleConfPath⟩
    match params.get "fsType".toList with
    | some fsType => (⟨cm.mounterParams.set "fstype".toList fsType⟩, none)
    | none => (cm, some (.status .InvalidArgument "fsType is missing"))

/-- The argument list built by `MountFs` from `mounterParams`, the mount path
last. -/
def mountFsArgs (order : MapOrder) (mounterParams : GoMap) (mountPath : Str) : List Str :=
  let doubleDashArgs : GoMap := [("mdsaddr".toList, [])]
  let extraPara : List Str := ["default_permissions".toList, "allow_other".toList]
  let args : List Str := extraPara.foldl (fun args para => args ++ ["-o".toList] ++ [para]) []
  let args : List Str := (order.iter mounterParams).foldl
    (fun args kv =>
      if (doubleDashArgs.get kv.1).isSome then args ++ [flagArg "--".toList kv]
      else args ++ ["-o".toList] ++ [flagArg [] kv]) args
  args ++ [mountPath]

/-- The method `curvefsMounter.MountFs`; `mountOption` is `none` for a nil
pointer and otherwise holds the field `MountFlags`. -/
def MountFs (env : Env) (cm : curvefsMounter) (fsname mountPath : Str) (params : GoMap)
    (mountOption : Option (List Str)) (mountUUID : Str) : Outcome curvefsMounter :=
  match validateMountFsParams cm params with
  | (cm, some err) => ⟨some err, cm, []⟩
  | (cm, none) =>
    let applied : ApplyResult :=
      match mountOption with
      | some mountFlags =>
        applyMountFlags env ((cm.mounterParams.get "conf".toList).getD []) mountFlags mountUUID
      | none => ⟨(cm.mounterParams.get "conf".toList).getD [], none, []⟩
    match applied.err with
    | some err => ⟨some err, cm, applied.trace⟩
    | none =>
      let cm : curvefsMounter :=
        match mountOption with
        | some _ => ⟨cm.mounterParams.set "conf".toList applied.confPath⟩
        | none => cm
      let cm : curvefsMounter := ⟨cm.mounterParams.set "fsname".toList fsname⟩
      let args := mountFsArgs env.order cm.mounterParams mountPath
      match (env.exec clientPath args).err with
      | some _ =>
        ⟨some (.status .Internal "curve-fuse mount failed. cmd: %s %v, output: %s, err: %v"),
          cm, applied.trace ++ [.exec clientPath args]⟩
      | none => ⟨none, cm, applied.trace ++ [.exec clientPath args]⟩

/-- The method `curvefsMounter.UmountFs`; the two removals are started in
goroutines and not awaited. -/
def UmountFs (env : Env) (cm : curvefsMounter) (targetPath : Str) (mountUUID : Str) :
    Outcome curvefsMounter :=
  match (env.exec "umount".toList [targetPath]).err with
  | some _ =>
    ⟨some (.status .Internal "umount %s failed. output: %s, err: %v"), cm,
      [.exec "umount".toList [targetPath]]⟩
  | none =>
    if mountUUID ≠ [] then
      let confPath := defaultClientExampleConfPath ++ ".".toList ++ mountUUID
      let cacheDir := cacheDirPrefix ++ mountUUID
      ⟨none, cm, [.exec "umount".toList [targetPath], .goRemove confPath, .goRemoveAll cacheDir]⟩
    else ⟨none, cm, [.exec "umount".toList [targetPath]]⟩

/-- An environment in which every command and file operation succeeds: reads
return `data`, maps are visited as stored. -/
def Env.allOk (data : Str) : Env :=
  { exec := fun _ _ => ⟨[], none⟩
    readOrig := fun _ => .ok data
    writeCopy := fun _ _ => none
    readCopy := fun _ => .ok data
    writeNew := fun _ _ => none
    mkdirAll := fun _ => none
    order := MapOrder.stored }

/-! ## Vocabulary of the statements -/

/-- A flag enables the disk cache when it splits into the key
`diskCache.diskCacheType` and the value `1` or `2`. -/
def enablesCache (flag : Str) : Prop :=
  SplitN2 flag '=' = ["diskCache.diskCacheType".toList, "1".toList] ∨
  SplitN2 flag '=' = ["diskCache.diskCacheType".toList, "2".toList]

instance (flag : Str) : Decidable (enablesCache flag) := by
  unfold enablesCache; exact inferInstance

/-- An environment in which everything succeeds except the creation of the
cache directory. -/
def Env.mkdirFails (data : Str) : Env :=
  { Env.allOk data with mkdirAll := fun _ => some "mkdir: permission denied" }

/-- The error is a gRPC status with code `InvalidArgument` or `Internal`. -/
def GoError.inTaxonomy (e : GoError) : Prop :=
  e.code? = some .InvalidArgument ∨ e.code? = some .Internal

instance (e : GoError) : Decidable e.inTaxonomy := by
  unfold GoError.inTaxonomy; exact inferInstance

/-- The entry of a `key=value` line, cut at its first `=`; `none` for a
comment line and for a line without `=`. -/
def lineEntry (line : Str) : Option (Str × Str) :=
  if isVerbatim line then none else cutAt '=' line

/-- The key of a `key=value` line. -/
def lineKey (line : Str) : Option Str := (lineEntry line).map Prod.fst

/-- The entry of a mount flag, cut at its first `=`; `none` for a flag
without `=`. -/
def flagEntry (flag : Str) : Option (Str × Str) := cutAt '=' flag

/-- The text `key=value` of an entry. -/
def kvLine (kv : Str × Str) : Str := kv.1 ++ "=".toList ++ kv.2

/-- The text that step 4 writes for `line` (without the newline) when the
mapping is `m`. -/
def outLine (mountUUID : Str) (m : GoMap) (line : Str) : Str :=
  match lineEntry line with
  | none => line
  | some (k, _) =>
    match m.get k with
    | some w =>
      kvLine (k, if k = "disk_cache.cache_dir".toList then rewriteCacheDirs mountUUID w else w)
    | none => line

/-- The mapping after step 4 has handled `line`. -/
def outMap (m : GoMap) (line : Str) : GoMap :=
  match lineEntry line with
  | none => m
  | some (k, _) =>
    match m.get k with
    | some _ => m.del k
    | none => m

/-- The texts that step 4 writes for the lines, in order. -/
def outLines (mountUUID : Str) : GoMap → List Str → List Str
  | _, [] => []
  | m, line :: rest => outLine mountUUID m line :: outLines mountUUID (outMap m line) rest

/-- The lines, each followed by a newline, concatenated. -/
def terminate : List Str → Str
  | [] => []
  | line :: rest => line ++ '\n' :: terminate rest

/-- The mapping `configMap` at the end of step 3. -/
def configMapOf (data : Str) (mountFlags : List Str) : GoMap :=
  (mountFlags.foldl applyFlag ((Split data '\n').foldl readLine [], false)).1

/-- The lines of the patched content: the content split on newline. -/
def patchedLines (order : MapOrder) (data : Str) (mountFlags : List Str) (mountUUID : Str) :
    List Str :=
  Split (patchConfig order data mountFlags mountUUID).1 '\n'

/-- The value of the last entry with key `k` in a list of entries. -/
def lastValue : List (Str × Str) → Str → Option Str
  | [], _ => none
  | e :: rest, k =>
    match lastValue rest k with
    | some v => some v
    | none => if e.1 = k then some e.2 else none

/-- The entries of the `key=value` lines of a file content, in order. -/
def baseEntries (data : Str) : List (Str × Str) := (Split data '\n').filterMap lineEntry

/-- The keys of the `key=value` lines of a file content, in order. -/
def baseKeys (data : Str) : List Str := (Split data '\n').filterMap lineKey

/-- The entries of the mount flags that contain `=`, in order. -/
def flagEntries (mountFlags : List Str) : List (Str × Str) := mountFlags.filterMap flagEntry

/-- The mapping left when step 4 has handled every line: the entries that
are appended. -/
def restMapOf (data : Str) (mountFlags : List Str) : GoMap :=
  (Split data '\n').foldl outMap (configMapOf data mountFlags)

/-- The text before the first `=` of a line, if it has one. -/
def textKey (line : Str) : Option Str := (flagEntry line).map Prod.fst

/-- The rewrite of one cache directory entry as the specification words it:
an entry `p:extra`, split at its first `:`, becomes `p/u:extra`, and an entry
`p` without a colon becomes `p/u`. -/
def namespacedEntry (u : Str) (entry : Str) : Str :=
  match cutAt ':' entry with
  | some (p, extra) => p ++ "/".toList ++ u ++ ":".toList ++ extra
  | none => entry ++ "/".toList ++ u

/-- The rewrite of a cache directory list as the specification words it:
split on `;`, rewrite every entry, join with `;`. -/
def namespacedDirs (u : Str) (value : Str) : Str :=
  Join ((Split value ';').map (namespacedEntry u)) ";".toList

/-- The arguments that the loop of `MountFs` appends for one entry of
`mounterParams`: `--k=v` for the key `mdsaddr`, and `-o`, `k=v` otherwise. -/
def mountBlock (kv : Str × Str) : List Str :=
  if (GoMap.get [("mdsaddr".toList, [])] kv.1).isSome then [flagArg "--".toList kv]
  else ["-o".toList, flagArg [] kv]

/-- The value held for the key `k` when step 4 starts: the value of the last
mount flag with that key, and without such a flag the value of the last
`key=value` line of the base with that key. -/
def heldValue (data : Str) (mountFlags : List Str) (k : Str) : Option Str :=
  match lastValue (flagEntries mountFlags) k with
  | some v => some v
  | none => lastValue (baseEntries data) k

/-! # Theorems -/

/-! ## Facts about Go maps -/

theorem GoMap.get_set (m : GoMap) (k v k' : Str) :
    (m.set k v).get k' = if k = k' then some v else m.get k' := by
  induction m with
  | nil => simp [GoMap.set, GoMap.get]
  | cons e rest ih =>
    obtain ⟨a, b⟩ := e
    by_cases h : a = k
    · subst h
      by_cases h' : a = k' <;> simp [GoMap.set, GoMap.get, h']
    · by_cases h' : a = k'
      · subst h'
        have : ¬ k = a := fun e => h e.symm
        simp [GoMap.set, GoMap.get, h, this]
      · simp [GoMap.set, GoMap.get, h, h', ih]

theorem GoMap.get_set_self (m : GoMap) (k v : Str) : (m.set k v).get k = some v := by
  simp [GoMap.get_set]

theorem GoMap.get_del (m : GoMap) (k k' : Str) :
    (m.del k).get k' = if k = k' then none else m.get k' := by
  induction m with
  | nil => simp [GoMap.del, GoMap.get]
  | cons e rest ih =>
    obtain ⟨a, b⟩ := e
    by_cases h : a = k
    · subst h
      by_cases h' : a = k'
      · subst h'
        simpa [GoMap.del] using ih
      · simp [GoMap.del, GoMap.get, h', ih]
    · by_cases h' : a = k'
      · subst h'
        have : ¬ k = a := fun e => h e.symm
        simp [GoMap.del, GoMap.get, h, this]
      · simp [GoMap.del, GoMap.get, h, h', ih]

/-! ## Parameter validation -/

/-- C1: when the parameter mapping has no key `mdsAddr`, `CreateFs`,
`DeleteFs` and `MountFs` each return an `InvalidArgument` status and perform
no effect at all: no command is run and no file is read or written. -/
theorem missing_mdsAddr_rejected_before_effects (env : Env) (ct : curvefsTool)
    (cm : curvefsMounter) (volumeID fsname mountPath mountUUID : Str) (params : GoMap)
    (mountOption : Option (List Str))
    (h : params.get "mdsAddr".toList = none) :
    ((∃ msg, (CreateFs env ct volumeID params).err = some (.status .InvalidArgument msg)) ∧
      (CreateFs env ct volumeID params).trace = []) ∧
    ((∃ msg, (DeleteFs env ct volumeID params).err = some (.status .InvalidArgument msg)) ∧
      (DeleteFs env ct volumeID params).trace = []) ∧
    ((∃ msg, (MountFs env cm fsname mountPath params mountOption mountUUID).err =
        some (.status .InvalidArgument msg)) ∧
      (MountFs env cm fsname mountPath params mountOption mountUUID).trace = []) := by
  have hc : validateCommonParams ct params =
      (ct, some (.status .InvalidArgument "mdsAddr is missing")) := by
    unfold validateCommonParams; rw [h]
  have hm : validateMountFsParams cm params =
      (cm, some (.status .InvalidArgument "mdsAddr is missing")) := by
    unfold validateMountFsParams; rw [h]
  refine ⟨?_, ?_, ?_⟩
  · unfold CreateFs; rw [hc]; exact ⟨⟨_, rfl⟩, rfl⟩
  · unfold DeleteFs; rw [hc]; exact ⟨⟨_, rfl⟩, rfl⟩
  · unfold MountFs; rw [hm]; exact ⟨⟨_, rfl⟩, rfl⟩

theorem missing_mdsAddr_rejected_before_effects_witness :
    GoMap.get [("fsType".toList, "s3".toList)] "mdsAddr".toList = none ∧
    (CreateFs (Env.allOk []) NewCurvefsTool "vol".toList
        [("fsType".toList, "s3".toList)]).trace = [] ∧
    (MountFs (Env.allOk []) NewCurvefsMounter "fs".toList "/mnt".toList
        [("fsType".toList, "s3".toList)] (some []) "u".toList).trace = [] :=
  have h : GoMap.get [("fsType".toList, "s3".toList)] "mdsAddr".toList = none := by decide
  ⟨h,
    (missing_mdsAddr_rejected_before_effects (Env.allOk []) NewCurvefsTool NewCurvefsMounter
      "vol".toList "fs".toList "/mnt".toList "u".toList [("fsType".toList, "s3".toList)]
      (some []) h).1.2,
    (missing_mdsAddr_rejected_before_effects (Env.allOk []) NewCurvefsTool NewCurvefsMounter
      "vol".toList "fs".toList "/mnt".toList "u".toList [("fsType".toList, "s3".toList)]
      (some []) h).2.2.2⟩

/-- C7: with `fsType` equal to `s3`, `validateCreateFsParams` fails, and then
with `InvalidArgument`, exactly when one of `s3Endpoint`, `s3AccessKey`,
`s3SecretKey`, `s3Bucket` is absent; when all four are present (whatever
their values) it succeeds and the tool flags `s3_endpoint`, `s3_ak`, `s3_sk`,
`s3_bucket_name` hold the supplied values. -/
theorem s3_validation_iff_all_four_present (ct : curvefsTool) (params : GoMap)
    (hfs : params.get "fsType".toList = some "s3".toList) :
    (((validateCreateFsParams ct params).2 ≠ none ↔
        (params.get "s3Endpoint".toList = none ∨ params.get "s3AccessKey".toList = none ∨
          params.get "s3SecretKey".toList = none ∨ params.get "s3Bucket".toList = none)) ∧
      ((validateCreateFsParams ct params).2 ≠ none →
        ∃ msg, (validateCreateFsParams ct params).2 = some (.status .InvalidArgument msg))) ∧
    (∀ e a s b, params.get "s3Endpoint".toList = some e →
      params.get "s3AccessKey".toList = some a →
      params.get "s3SecretKey".toList = some s →
      params.get "s3Bucket".toList = some b →
      (validateCreateFsParams ct params).2 = none ∧
      (validateCreateFsParams ct params).1.toolParams.get "s3_endpoint".toList = some e ∧
      (validateCreateFsParams ct params).1.toolParams.get "s3_ak".toList = some a ∧
      (validateCreateFsParams ct params).1.toolParams.get "s3_sk".toList = some s ∧
      (validateCreateFsParams ct params).1.toolParams.get "s3_bucket_name".toList = some b) := by
  unfold validateCreateFsParams
  rw [hfs]
  simp only [if_true]
  cases h1 : params.get "s3Endpoint".toList <;> cases h2 : params.get "s3AccessKey".toList <;>
    cases h3 : params.get "s3SecretKey".toList <;> cases h4 : params.get "s3Bucket".toList <;>
    simp [GoMap.get_set]
  intro e a s b q1 q2 q3 q4
  exact ⟨q1, q2, q3, q4⟩

theorem s3_validation_iff_all_four_present_witness :
    (validateCreateFsParams NewCurvefsTool
        [("mdsAddr".toList, "1.1.1.1:6700".toList), ("fsType".toList, "s3".toList),
          ("s3Endpoint".toList, "http://s3".toList), ("s3AccessKey".toList, []),
          ("s3SecretKey".toList, "sk".toList), ("s3Bucket".toList, "b".toList)]).2 = none ∧
    (validateCreateFsParams NewCurvefsTool
        [("mdsAddr".toList, "1.1.1.1:6700".toList), ("fsType".toList, "s3".toList),
          ("s3Endpoint".toList, "http://s3".toList), ("s3AccessKey".toList, []),
          ("s3SecretKey".toList, "sk".toList),
          ("s3Bucket".toList, "b".toList)]).1.toolParams.get "s3_ak".toList = some [] :=
  have h := (s3_validation_iff_all_four_present NewCurvefsTool
    [("mdsAddr".toList, "1.1.1.1:6700".toList), ("fsType".toList, "s3".toList),
      ("s3Endpoint".toList, "http://s3".toList), ("s3AccessKey".toList, []),
      ("s3SecretKey".toList, "sk".toList), ("s3Bucket".toList, "b".toList)]
    (by decide)).2 "http://s3".toList [] "sk".toList "b".toList
    (by decide) (by decide) (by decide) (by decide)
  ⟨h.1, h.2.2.1⟩

/-- C8: with `fsType` equal to `volume` and `backendVolName` present,
`validateCreateFsParams` succeeds exactly when `backendVolSizeGB` is present,
`strconv.ParseInt(_, 0, 64)` accepts it and the parsed value is at least 10;
every failure is an `InvalidArgument` status; on success the flag
`volumeSize` holds the supplied string unchanged.  In particular `10` is
accepted, `9` and `abc` are rejected. -/
theorem volume_size_validation (ct : curvefsTool) (params : GoMap) (name : Str)
    (hfs : params.get "fsType".toList = some "volume".toList)
    (hname : params.get "backendVolName".toList = some name) :
    ((validateCreateFsParams ct params).2 = none ↔
      ∃ sz n, params.get "backendVolSizeGB".toList = some sz ∧ ParseInt sz = .ok n ∧ 10 ≤ n) ∧
    ((validateCreateFsParams ct params).2 ≠ none →
      ∃ msg, (validateCreateFsParams ct params).2 = some (.status .InvalidArgument msg)) ∧
    (∀ sz, params.get "backendVolSizeGB".toList = some sz →
      (validateCreateFsParams ct params).2 = none →
      (validateCreateFsParams ct params).1.toolParams.get "volumeSize".toList = some sz) ∧
    ParseInt "10".toList = .ok 10 ∧ ParseInt "9".toList = .ok 9 ∧
    ParseInt "abc".toList = .error .ErrSyntax := by
  refine ⟨?_, ?_, ?_, by decide, by decide, by decide⟩
  all_goals
    unfold validateCreateFsParams
    rw [hfs]
    have hne : ¬ ("volume".toList = "s3".toList) := by decide
    simp only [if_neg hne, if_true]
    rw [hname]
    cases hsz : params.get "backendVolSizeGB".toList with
    | none => simp
    | some sz =>
      cases hp : ParseInt sz with
      | error e => simp [hp]
      | ok n =>
        by_cases hn : n < 10
        · simp [hp, hn]
        · simp [hp, hn, GoMap.get_set]
          try omega

theorem volume_size_validation_witness :
    (validateCreateFsParams NewCurvefsTool
        [("fsType".toList, "volume".toList), ("backendVolName".toList, "vol0".toList),
          ("backendVolSizeGB".toList, "10".toList)]).2 = none ∧
    (validateCreateFsParams NewCurvefsTool
        [("fsType".toList, "volume".toList), ("backendVolName".toList, "vol0".toList),
          ("backendVolSizeGB".toList, "9".toList)]).2 ≠ none :=
  ⟨(volume_size_validation NewCurvefsTool
      [("fsType".toList, "volume".toList), ("backendVolName".toList, "vol0".toList),
        ("backendVolSizeGB".toList, "10".toList)] "vol0".toList (by decide) (by decide)).1.2
      ⟨"10".toList, 10, by decide, by decide, by decide⟩,
    fun h =>
      absurd ((volume_size_validation NewCurvefsTool
        [("fsType".toList, "volume".toList), ("backendVolName".toList, "vol0".toList),
          ("backendVolSizeGB".toList, "9".toList)] "vol0".toList (by decide) (by decide)).1.1 h)
        (by
          rintro ⟨sz, n, h1, h2, h3⟩
          have e : sz = "9".toList := by
            have h1' : some "9".toList = some sz := h1
            exact (Option.some.inj h1').symm
          subst e
          have e2 : n = 9 := by
            have h2' : (Except.ok 9 : Except NumError Int) = Except.ok n := h2
            exact (Except.ok.inj h2').symm
          omega)⟩

/-! ## The cache directory side effect -/

theorem SplitN2_length_two (s : Str) (sep : Char) :
    (SplitN2 s sep).length = 2 ↔ ∃ a b, cutAt sep s = some (a, b) := by
  unfold SplitN2
  cases h : cutAt sep s with
  | none => simp
  | some p => obtain ⟨a, b⟩ := p; simp

theorem applyFlag_snd (st : GoMap × Bool) (flag : Str) :
    (applyFlag st flag).2 = true ↔ st.2 = true ∨ enablesCache flag := by
  unfold applyFlag enablesCache SplitN2
  cases h : cutAt '=' flag with
  | none => simp
  | some p =>
    obtain ⟨a, b⟩ := p
    by_cases hk : a = "diskCache.diskCacheType".toList
    · by_cases h1 : b = "1".toList
      · simp [hk, h1]
      · by_cases h2 : b = "2".toList
        · simp [hk, h2]
        · have h1' : ¬ b = ['1'] := h1
          have h2' : ¬ b = ['2'] := h2
          simp [hk, h1', h2']
    · have hk' : ¬ a = ['d', 'i', 's', 'k', 'C', 'a', 'c', 'h', 'e', '.', 'd', 'i', 's', 'k',
          'C', 'a', 'c', 'h', 'e', 'T', 'y', 'p', 'e'] := hk
      simp [hk']

theorem foldl_applyFlag_snd (flags : List Str) (st : GoMap × Bool) :
    (flags.foldl applyFlag st).2 = true ↔ st.2 = true ∨ ∃ flag ∈ flags, enablesCache flag := by
  induction flags generalizing st with
  | nil => simp
  | cons f rest ih =>
    rw [List.foldl_cons, ih, applyFlag_snd]
    simp only [List.mem_cons, exists_eq_or_imp]
    tauto

theorem patchConfig_snd (order : MapOrder) (data : Str) (mountFlags : List Str)
    (mountUUID : Str) :
    (patchConfig order data mountFlags mountUUID).2 =
      (mountFlags.foldl applyFlag ((Split data '\n').foldl readLine [], false)).2 := by
  rfl

theorem patchConfig_cacheEnabled (order : MapOrder) (data : Str) (mountFlags : List Str)
    (mountUUID : Str) :
    (patchConfig order data mountFlags mountUUID).2 = true ↔
      ∃ flag ∈ mountFlags, enablesCache flag := by
  rw [patchConfig_snd, foldl_applyFlag_snd]
  simp

/-- C10: when the two reads and the two writes of `applyMountFlags` succeed,
the creation of the directory `/curvefs/client/data/cache/` + mount id is
requested exactly when some mount flag, split at its first `=`, has key
`diskCache.diskCacheType` and value `1` or `2` (whatever later flags say), and
no other directory is ever requested. -/
theorem cache_dir_requested_iff (env : Env) (origConfPath : Str) (mountFlags : List Str)
    (mountUUID data data' : Str)
    (h1 : env.readOrig origConfPath = .ok data)
    (h2 : env.writeCopy (defaultClientExampleConfPath ++ ".".toList ++ mountUUID) data = none)
    (h3 : env.readCopy (defaultClientExampleConfPath ++ ".".toList ++ mountUUID) = .ok data')
    (h4 : env.writeNew (defaultClientExampleConfPath ++ ".".toList ++ mountUUID)
      (patchConfig env.order data' mountFlags mountUUID).1 = none) :
    (Event.mkdirAll (cacheDirPrefix ++ mountUUID) ∈
        (applyMountFlags env origConfPath mountFlags mountUUID).trace ↔
      ∃ flag ∈ mountFlags,
        SplitN2 flag '=' = ["diskCache.diskCacheType".toList, "1".toList] ∨
        SplitN2 flag '=' = ["diskCache.diskCacheType".toList, "2".toList]) ∧
    (∀ p, Event.mkdirAll p ∈ (applyMountFlags env origConfPath mountFlags mountUUID).trace →
      p = cacheDirPrefix ++ mountUUID) := by
  have hc := patchConfig_cacheEnabled env.order data' mountFlags mountUUID
  unfold enablesCache at hc
  rw [← hc]
  unfold applyMountFlags
  simp only [h1, h2, h3]
  generalize patchConfig env.order data' mountFlags mountUUID = r at h4 ⊢
  obtain ⟨newData, cacheEnabled⟩ := r
  simp only [] at h4 ⊢
  rw [h4]
  cases cacheEnabled
  · simp
  · cases env.mkdirAll (cacheDirPrefix ++ mountUUID) <;> simp

theorem cache_dir_requested_iff_witness :
    Event.mkdirAll "/curvefs/client/data/cache/u1".toList ∈
      (applyMountFlags (Env.allOk "a=1".toList) "/etc/client.conf".toList
        ["diskCache.diskCacheType=1".toList, "diskCache.diskCacheType=0".toList]
        "u1".toList).trace :=
  (cache_dir_requested_iff (Env.allOk "a=1".toList) "/etc/client.conf".toList
    ["diskCache.diskCacheType=1".toList, "diskCache.diskCacheType=0".toList] "u1".toList
    "a=1".toList "a=1".toList rfl rfl rfl rfl).1.2
    ⟨"diskCache.diskCacheType=1".toList, by decide, Or.inl (by decide)⟩

/-! ## The errors returned -/

theorem validateCommonParams_err (ct : curvefsTool) (params : GoMap) (e : GoError)
    (h : (validateCommonParams ct params).2 = some e) : e.code? = some .InvalidArgument := by
  unfold validateCommonParams at h
  cases h1 : params.get "mdsAddr".toList <;> rw [h1] at h
  · simp at h; subst h; rfl
  · cases h2 : params.get "toolConfPath".toList <;> rw [h2] at h <;> simp at h

theorem validateCreateFsParams_err (ct : curvefsTool) (params : GoMap) (e : GoError)
    (h : (validateCreateFsParams ct params).2 = some e) : e.code? = some .InvalidArgument := by
  unfold validateCreateFsParams at h
  cases h1 : params.get "fsType".toList with
  | none => rw [h1] at h; simp at h; subst h; rfl
  | some fsType =>
    rw [h1] at h
    simp only [] at h
    split at h
    · split at h
      · simp at h
      · simp at h; subst h; rfl
    · split at h
      · split at h
        · simp at h; subst h; rfl
        · split at h
          · simp at h; subst h; rfl
          · split at h
            · simp at h; subst h; rfl
            · split at h
              · simp at h; subst h; rfl
              · simp at h
      · simp at h; subst h; rfl

theorem validateMountFsParams_err (cm : curvefsMounter) (params : GoMap) (e : GoError)
    (h : (validateMountFsParams cm params).2 = some e) : e.code? = some .InvalidArgument := by
  unfold validateMountFsParams at h
  cases h1 : params.get "mdsAddr".toList with
  | none => rw [h1] at h; simp at h; subst h; rfl
  | some mdsAddr =>
    rw [h1] at h
    cases h2 : params.get "fsType".toList with
    | none => rw [h2] at h; simp at h; subst h; rfl
    | some fsType => rw [h2] at h; simp at h

/-- Every error of `CreateFs` is an `InvalidArgument` status returned before
any effect, or an `Internal` status. -/
theorem CreateFs_errors (env : Env) (ct : curvefsTool) (volumeID : Str) (params : GoMap)
    (e : GoError) (h : (CreateFs env ct volumeID params).err = some e) :
    (e.code? = some .InvalidArgument ∧ (CreateFs env ct volumeID params).trace = []) ∨
      e.code? = some .Internal := by
  unfold CreateFs at h ⊢
  have hc := validateCommonParams_err ct params
  generalize validateCommonParams ct params = r1 at h hc ⊢
  obtain ⟨ct1, _ | e1⟩ := r1
  · have hv := validateCreateFsParams_err ct1 params
    simp only [] at h ⊢
    generalize validateCreateFsParams ct1 params = r2 at h hv ⊢
    obtain ⟨ct2, _ | e2⟩ := r2
    · simp only [] at h ⊢
      split at h
      · simp at h; subst h; exact Or.inr rfl
      · simp at h
    · simp at h; subst h; exact Or.inl ⟨hv _ rfl, rfl⟩
  · simp at h; subst h; exact Or.inl ⟨hc _ rfl, rfl⟩

/-- Every error of `DeleteFs` is an `InvalidArgument` status returned before
any effect, or an `Internal` status. -/
theorem DeleteFs_errors (env : Env) (ct : curvefsTool) (volumeID : Str) (params : GoMap)
    (e : GoError) (h : (DeleteFs env ct volumeID params).err = some e) :
    (e.code? = some .InvalidArgument ∧ (DeleteFs env ct volumeID params).trace = []) ∨
      e.code? = some .Internal := by
  unfold DeleteFs at h ⊢
  have hc := validateCommonParams_err ct params
  generalize validateCommonParams ct params = r1 at h hc ⊢
  obtain ⟨ct1, _ | e1⟩ := r1
  · simp only [] at h ⊢
    split at h
    · simp at h; subst h; exact Or.inr rfl
    · simp at h
  · simp at h; subst h; exact Or.inl ⟨hc _ rfl, rfl⟩

/-- Every error of `UmountFs` is an `Internal` status. -/
theorem UmountFs_errors (env : Env) (cm : curvefsMounter) (targetPath mountUUID : Str)
    (e : GoError) (h : (UmountFs env cm targetPath mountUUID).err = some e) :
    e.code? = some .Internal := by
  unfold UmountFs at h
  split at h
  · simp at h; subst h; rfl
  · split at h <;> simp at h

/-- Every error of `applyMountFlags` is an `Internal` status, except the
error of `os.MkdirAll`, which is handed back as it is. -/
theorem applyMountFlags_errors (env : Env) (origConfPath : Str) (mountFlags : List Str)
    (mountUUID : Str) (e : GoError)
    (h : (applyMountFlags env origConfPath mountFlags mountUUID).err = some e) :
    e.code? = some .Internal ∨
      ∃ msg, env.mkdirAll (cacheDirPrefix ++ mountUUID) = some msg ∧ e = .os msg := by
  unfold applyMountFlags at h
  cases h1 : env.readOrig origConfPath with
  | error msg => simp only [h1] at h; simp at h; subst h; exact Or.inl rfl
  | ok data =>
    cases h2 : env.writeCopy (defaultClientExampleConfPath ++ ".".toList ++ mountUUID) data with
    | some msg => simp only [h1, h2] at h; simp at h; subst h; exact Or.inl rfl
    | none =>
      cases h3 : env.readCopy (defaultClientExampleConfPath ++ ".".toList ++ mountUUID) with
      | error msg => simp only [h1, h2, h3] at h; simp at h; subst h; exact Or.inl rfl
      | ok data' =>
        simp only [h1, h2, h3] at h
        generalize patchConfig env.order data' mountFlags mountUUID = r at h
        obtain ⟨newData, cacheEnabled⟩ := r
        simp only [] at h
        cases h4 : env.writeNew (defaultClientExampleConfPath ++ ".".toList ++ mountUUID)
            newData with
        | some msg => simp only [h4] at h; simp at h; subst h; exact Or.inl rfl
        | none =>
          simp only [h4] at h
          cases cacheEnabled with
          | false => simp at h
          | true =>
            cases h5 : env.mkdirAll (cacheDirPrefix ++ mountUUID) with
            | none => simp [h5] at h
            | some msg => simp [h5] at h; subst h; exact Or.inr ⟨msg, rfl, rfl⟩

/-- Every error of `MountFs` is an `InvalidArgument` status returned before
any effect, an `Internal` status, or the unwrapped error of `os.MkdirAll`. -/
theorem MountFs_errors (env : Env) (cm : curvefsMounter) (fsname mountPath : Str)
    (params : GoMap) (mountOption : Option (List Str)) (mountUUID : Str) (e : GoError)
    (h : (MountFs env cm fsname mountPath params mountOption mountUUID).err = some e) :
    (e.code? = some .InvalidArgument ∧
        (MountFs env cm fsname mountPath params mountOption mountUUID).trace = []) ∨
      e.code? = some .Internal ∨
      ∃ msg, env.mkdirAll (cacheDirPrefix ++ mountUUID) = some msg ∧ e = .os msg := by
  unfold MountFs at h ⊢
  have hc := validateMountFsParams_err cm params
  generalize validateMountFsParams cm params = r1 at h hc ⊢
  obtain ⟨cm1, _ | e1⟩ := r1
  · simp only [] at h ⊢
    cases mountOption with
    | none =>
      simp only [] at h
      split at h
      · simp at h; subst h; exact Or.inr (Or.inl rfl)
      · simp at h
    | some mountFlags =>
      simp only [] at h
      have ha := applyMountFlags_errors env ((cm1.mounterParams.get "conf".toList).getD [])
        mountFlags mountUUID
      generalize applyMountFlags env ((cm1.mounterParams.get "conf".toList).getD [])
        mountFlags mountUUID = r at h ha
      obtain ⟨cp, _ | e2, tr⟩ := r
      · simp only [] at h
        split at h
        · simp at h; subst h; exact Or.inr (Or.inl rfl)
        · simp at h
      · simp at h; subst h; exact Or.inr (ha _ rfl)
  · simp at h; subst h; exact Or.inl ⟨hc _ rfl, rfl⟩

/-- C9 (failing input): a mount whose flags enable the disk cache, in an
environment where only `os.MkdirAll` fails, returns the error of the `os`
package as it is; it is not a gRPC status, so it carries neither
`InvalidArgument` nor `Internal`. -/
theorem MountFs_mkdir_failure_outside_taxonomy :
    (MountFs (Env.mkdirFails "a=1".toList) NewCurvefsMounter "fs".toList "/mnt".toList
        [("mdsAddr".toList, "1.1.1.1:6700".toList), ("fsType".toList, "s3".toList)]
        (some ["diskCache.diskCacheType=2".toList]) "u1".toList).err =
      some (.os "mkdir: permission denied") ∧
    ¬ (GoError.os "mkdir: permission denied").inTaxonomy := by
  decide

/-! ## Facts about the `strings` functions -/

theorem Contains_iff (s : Str) (c : Char) : Contains s c = true ↔ c ∈ s := by
  unfold Contains
  simp [List.elem_eq_mem]

theorem cutAt_none (sep : Char) (s : Str) : cutAt sep s = none ↔ sep ∉ s := by
  induction s with
  | nil => simp [cutAt]
  | cons c cs ih =>
    unfold cutAt
    by_cases h : c = sep
    · simp [h]
    · have h' : ¬ sep = c := fun e => h e.symm
      cases hc : cutAt sep cs with
      | none => simp [h, h', hc, ← ih]
      | some p =>
        have : ¬ sep ∉ cs := fun hn => by rw [← ih, hc] at hn; cases hn
        simp [h, this]

theorem cutAt_some (sep : Char) (s a b : Str) :
    cutAt sep s = some (a, b) ↔ s = a ++ sep :: b ∧ sep ∉ a := by
  induction s generalizing a with
  | nil => simp [cutAt]
  | cons c cs ih =>
    unfold cutAt
    by_cases h : c = sep
    · subst h
      cases a with
      | nil => simp
      | cons x xs =>
        simp only [if_true, Option.some.injEq, Prod.mk.injEq, List.cons_append, List.cons.injEq,
          List.mem_cons, not_or]
        constructor
        · intro hh; cases hh.1
        · rintro ⟨⟨rfl, _⟩, hne, _⟩; exact absurd rfl hne
    · have h' : ¬ sep = c := fun e => h e.symm
      cases hc : cutAt sep cs with
      | none =>
        have hn := (cutAt_none sep cs).1 hc
        simp only [if_neg h]
        constructor
        · intro hh; cases hh
        · rintro ⟨he, hna⟩
          exfalso
          cases a with
          | nil => simp at he; exact h he.1
          | cons x xs =>
            simp at he
            apply hn
            rw [he.2]
            simp
      | some p =>
        obtain ⟨a', b'⟩ := p
        have := (ih a').1
        simp only [if_neg h]
        constructor
        · intro hh
          simp at hh
          obtain ⟨rfl, rfl⟩ := hh
          have := (ih a').1 hc
          simp [this.1, this.2, h']
        · rintro ⟨he, hna⟩
          cases a with
          | nil => simp at he; exact absurd he.1 h
          | cons x xs =>
            simp at he hna
            obtain ⟨rfl, he2⟩ := he
            have := (ih xs).2 ⟨he2, hna.2⟩
            rw [hc] at this
            simp at this
            simp [this.1, this.2]

theorem Split_ne_nil (s : Str) (sep : Char) : Split s sep ≠ [] := by
  induction s with
  | nil => simp [Split]
  | cons c cs ih =>
    unfold Split
    by_cases h : c = sep
    · simp [h]
    · cases hs : Split cs sep <;> simp [h]

theorem Split_of_not_mem (s : Str) (sep : Char) (h : sep ∉ s) : Split s sep = [s] := by
  induction s with
  | nil => simp [Split]
  | cons c cs ih =>
    simp only [List.mem_cons, not_or] at h
    have h' : ¬ c = sep := fun e => h.1 e.symm
    unfold Split
    simp [h', ih h.2]

theorem Split_append_sep (l rest : Str) (sep : Char) (h : sep ∉ l) :
    Split (l ++ sep :: rest) sep = l :: Split rest sep := by
  induction l with
  | nil => simp [Split]
  | cons c cs ih =>
    simp only [List.mem_cons, not_or] at h
    have h' : ¬ c = sep := fun e => h.1 e.symm
    simp only [List.cons_append]
    conv_lhs => unfold Split
    simp [h', ih h.2]

theorem Split_no_sep (s : Str) (sep : Char) : ∀ l ∈ Split s sep, sep ∉ l := by
  induction s with
  | nil => simp [Split]
  | cons c cs ih =>
    unfold Split
    by_cases h : c = sep
    · simp only [if_pos h]
      intro l hl
      simp only [List.mem_cons] at hl
      rcases hl with rfl | hl
      · simp
      · exact ih l hl
    · simp only [if_neg h]
      cases hs : Split cs sep with
      | nil => exact absurd hs (Split_ne_nil cs sep)
      | cons x xs =>
        rw [hs] at ih
        intro l hl
        simp only [List.mem_cons] at hl
        rcases hl with rfl | hl
        · have := ih x (by simp)
          simp only [List.mem_cons, not_or]
          exact ⟨fun e => h e.symm, this⟩
        · exact ih l (by simp [hl])

/-! ## The config patcher, line by line -/

theorem isVerbatim_false_cut (line : Str) (h : isVerbatim line = false) :
    ∃ k v, cutAt '=' line = some (k, v) := by
  unfold isVerbatim at h
  simp only [Bool.or_eq_false_iff, Bool.not_eq_false'] at h
  have hc := (Contains_iff line '=').1 h.2
  cases hcut : cutAt '=' line with
  | none => exact absurd hc ((cutAt_none '=' line).1 hcut)
  | some p => exact ⟨p.1, p.2, rfl⟩

theorem lineEntry_none (line : Str) : lineEntry line = none ↔ isVerbatim line = true := by
  unfold lineEntry
  cases h : isVerbatim line
  · obtain ⟨k, v, hkv⟩ := isVerbatim_false_cut line h
    simp [hkv]
  · simp

theorem lineEntry_some (line k v : Str) (h : lineEntry line = some (k, v)) :
    isVerbatim line = false ∧ cutAt '=' line = some (k, v) := by
  unfold lineEntry at h
  cases hv : isVerbatim line
  · simpa [hv] using h
  · simp [hv] at h

theorem readLine_eq (m : GoMap) (line : Str) :
    readLine m line = match lineEntry line with
      | none => m
      | some kv => m.set kv.1 kv.2 := by
  unfold readLine lineEntry
  cases hv : isVerbatim line
  · obtain ⟨k, v, hkv⟩ := isVerbatim_false_cut line hv
    simp [SplitN2, hkv]
  · simp

theorem applyFlag_fst (st : GoMap × Bool) (flag : Str) :
    (applyFlag st flag).1 = match flagEntry flag with
      | none => st.1
      | some kv => st.1.set kv.1 kv.2 := by
  unfold applyFlag flagEntry SplitN2
  cases h : cutAt '=' flag with
  | none => simp
  | some p => simp

theorem writeLine_eq (mountUUID : Str) (newData : Str) (m : GoMap) (line : Str) :
    writeLine mountUUID (newData, m) line =
      (newData ++ (outLine mountUUID m line ++ "\n".toList), outMap m line) := by
  unfold writeLine outLine outMap lineEntry
  cases hv : isVerbatim line
  · obtain ⟨k, v, hkv⟩ := isVerbatim_false_cut line hv
    cases hg : m.get k <;> simp [SplitN2, hkv, hg, kvLine]
  · simp

theorem foldl_writeLine (mountUUID : Str) (lines : List Str) (newData : Str) (m : GoMap) :
    lines.foldl (writeLine mountUUID) (newData, m) =
      (newData ++ terminate (outLines mountUUID m lines), lines.foldl outMap m) := by
  induction lines generalizing newData m with
  | nil => simp [outLines, terminate]
  | cons l ls ih =>
    rw [List.foldl_cons, writeLine_eq, ih]
    simp [outLines, terminate]

theorem terminate_append (xs ys : List Str) :
    terminate (xs ++ ys) = terminate xs ++ terminate ys := by
  induction xs with
  | nil => simp [terminate]
  | cons x xs ih => simp [terminate, ih]

theorem foldl_kv (es : GoMap) (newData : Str) :
    es.foldl (fun newData kv => newData ++ (kv.1 ++ "=".toList ++ kv.2 ++ "\n".toList)) newData =
      newData ++ terminate (es.map kvLine) := by
  induction es generalizing newData with
  | nil => simp [terminate]
  | cons e es ih =>
    rw [List.foldl_cons, ih]
    simp [terminate, kvLine]

/-- The content written by the patch: the lines of step 4, then one line per
entry left in the mapping, every line followed by a newline. -/
theorem patchConfig_fst (order : MapOrder) (data : Str) (mountFlags : List Str)
    (mountUUID : Str) :
    (patchConfig order data mountFlags mountUUID).1 =
      terminate (outLines mountUUID (configMapOf data mountFlags) (Split data '\n') ++
        (order.iter ((Split data '\n').foldl outMap (configMapOf data mountFlags))).map
          kvLine) := by
  unfold patchConfig configMapOf
  generalize hfl : mountFlags.foldl applyFlag ((Split data '\n').foldl readLine [], false) = r
  obtain ⟨m, b⟩ := r
  simp only []
  rw [foldl_writeLine]
  simp only []
  rw [foldl_kv, terminate_append, hfl]
  simp

theorem Split_terminate (ls : List Str) (h : ∀ l ∈ ls, '\n' ∉ l) :
    Split (terminate ls) '\n' = ls ++ [[]] := by
  induction ls with
  | nil => simp [terminate, Split]
  | cons l rest ih =>
    simp only [terminate]
    rw [Split_append_sep l _ '\n' (h l (by simp))]
    rw [ih (fun x hx => h x (by simp [hx]))]
    simp

/-! ## The mapping built by step 3 -/

theorem lastValue_append (xs ys : List (Str × Str)) (k : Str) :
    lastValue (xs ++ ys) k = match lastValue ys k with
      | some v => some v
      | none => lastValue xs k := by
  induction xs with
  | nil => cases h : lastValue ys k <;> simp [lastValue, h]
  | cons x xs ih =>
    rw [List.cons_append, lastValue, ih]
    cases h : lastValue ys k with
    | some w => rfl
    | none => simp only [lastValue]

theorem lastValue_mem (es : List (Str × Str)) (k v : Str) (h : lastValue es k = some v) :
    (k, v) ∈ es := by
  induction es with
  | nil => simp [lastValue] at h
  | cons e rest ih =>
    simp only [lastValue] at h
    cases hr : lastValue rest k with
    | some w =>
      rw [hr] at h
      simp only [Option.some.injEq] at h
      subst h
      exact List.mem_cons_of_mem _ (ih hr)
    | none =>
      rw [hr] at h
      by_cases hk : e.1 = k
      · simp only [hk, if_true, Option.some.injEq] at h
        have : e = (k, v) := by
          cases e; simp only [Prod.mk.injEq]; exact ⟨hk, h⟩
        simp [this]
      · simp [hk] at h

theorem lastValue_none (es : List (Str × Str)) (k : Str) :
    lastValue es k = none ↔ ∀ e ∈ es, e.1 ≠ k := by
  induction es with
  | nil => simp [lastValue]
  | cons e rest ih =>
    rw [lastValue]
    cases hr : lastValue rest k with
    | some w =>
      constructor
      · intro h; cases h
      · intro h
        have : lastValue rest k = none := ih.2 (fun e he => h e (List.mem_cons_of_mem _ he))
        rw [hr] at this; cases this
    | none =>
      have hrest := ih.1 hr
      by_cases hk : e.1 = k
      · constructor
        · intro h; simp [hk] at h
        · intro h; exact absurd hk (h e (List.mem_cons_self _ _))
      · constructor
        · intro _ x hx
          rcases List.mem_cons.1 hx with rfl | hx
          · exact hk
          · exact hrest x hx
        · intro _; simp [hk]

/-- Recording entries one after the other: the last entry of a key wins, and
keys without an entry keep their value. -/
theorem get_foldl_set (es : List (Str × Str)) (m : GoMap) (k : Str) :
    (es.foldl (fun m e => m.set e.1 e.2) m).get k = match lastValue es k with
      | some v => some v
      | none => m.get k := by
  induction es generalizing m with
  | nil => simp [lastValue]
  | cons e rest ih =>
    rw [List.foldl_cons, ih]
    simp only [lastValue]
    cases hr : lastValue rest k with
    | some w => rfl
    | none =>
      simp only [GoMap.get_set]
      by_cases hk : e.1 = k <;> simp [hk]

theorem foldl_readLine (lines : List Str) (m : GoMap) :
    lines.foldl readLine m = (lines.filterMap lineEntry).foldl (fun m e => m.set e.1 e.2) m := by
  induction lines generalizing m with
  | nil => simp
  | cons l ls ih =>
    rw [List.foldl_cons, ih, readLine_eq]
    cases h : lineEntry l <;> simp [List.filterMap_cons, h]

theorem foldl_applyFlag_fst (flags : List Str) (st : GoMap × Bool) :
    (flags.foldl applyFlag st).1 =
      (flags.filterMap flagEntry).foldl (fun m e => m.set e.1 e.2) st.1 := by
  induction flags generalizing st with
  | nil => simp
  | cons f fs ih =>
    rw [List.foldl_cons, ih, applyFlag_fst]
    cases h : flagEntry f <;> simp [List.filterMap_cons, h]

/-- The mapping at the end of step 3: the last flag with key `k` gives the
value; without such a flag the last `key=value` line with key `k` does. -/
theorem configMapOf_get (data : Str) (mountFlags : List Str) (k : Str) :
    (configMapOf data mountFlags).get k = match lastValue (flagEntries mountFlags) k with
      | some v => some v
      | none => lastValue (baseEntries data) k := by
  unfold configMapOf flagEntries baseEntries
  rw [foldl_applyFlag_fst, get_foldl_set, foldl_readLine, get_foldl_set]
  cases h : lastValue (List.filterMap lineEntry (Split data '\n')) k <;> simp [GoMap.get]

/-! ## Entries and keys of a Go map -/

theorem GoMap.mem_of_get (m : GoMap) (k v : Str) (h : m.get k = some v) : (k, v) ∈ m := by
  induction m with
  | nil => simp [GoMap.get] at h
  | cons e rest ih =>
    obtain ⟨a, b⟩ := e
    simp only [GoMap.get] at h
    by_cases hk : a = k
    · simp only [hk, if_true, Option.some.injEq] at h
      simp [hk, h]
    · simp only [hk, if_false] at h
      exact List.mem_cons_of_mem _ (ih h)

theorem GoMap.get_none_iff (m : GoMap) (k : Str) : m.get k = none ↔ k ∉ m.keys := by
  induction m with
  | nil => simp [GoMap.get, GoMap.keys]
  | cons e rest ih =>
    obtain ⟨a, b⟩ := e
    simp only [GoMap.get, GoMap.keys, List.map_cons, List.mem_cons, not_or]
    by_cases hk : a = k
    · simp [hk]
    · have hk' : ¬ k = a := fun e => hk e.symm
      simp only [hk, if_false, hk', not_false_eq_true, true_and]
      exact ih

theorem GoMap.get_of_mem (m : GoMap) (k v : Str) (hn : m.keys.Nodup) (h : (k, v) ∈ m) :
    m.get k = some v := by
  induction m with
  | nil => simp at h
  | cons e rest ih =>
    obtain ⟨a, b⟩ := e
    simp only [GoMap.keys, List.map_cons, List.nodup_cons] at hn
    rcases List.mem_cons.1 h with he | he
    · simp only [Prod.mk.injEq] at he
      simp [GoMap.get, he.1, he.2]
    · have hak : a ≠ k := by
        rintro rfl
        exact hn.1 (List.mem_map.2 ⟨(a, v), he, rfl⟩)
      simp only [GoMap.get, hak, if_false]
      exact ih hn.2 he

theorem GoMap.mem_set (m : GoMap) (k v : Str) (e : Str × Str) (h : e ∈ m.set k v) :
    e = (k, v) ∨ e ∈ m := by
  induction m with
  | nil => simpa [GoMap.set] using h
  | cons x rest ih =>
    obtain ⟨a, b⟩ := x
    simp only [GoMap.set] at h
    by_cases hk : a = k
    · simp only [hk, if_true, List.mem_cons] at h
      rcases h with h | h
      · exact Or.inl h
      · exact Or.inr (List.mem_cons_of_mem _ h)
    · simp only [hk, if_false, List.mem_cons] at h
      rcases h with h | h
      · exact Or.inr (by simp [h])
      · rcases ih h with h | h
        · exact Or.inl h
        · exact Or.inr (List.mem_cons_of_mem _ h)

theorem GoMap.mem_del (m : GoMap) (k : Str) (e : Str × Str) (h : e ∈ m.del k) : e ∈ m := by
  induction m with
  | nil => simp [GoMap.del] at h
  | cons x rest ih =>
    obtain ⟨a, b⟩ := x
    simp only [GoMap.del] at h
    by_cases hk : a = k
    · simp only [hk, if_true] at h
      exact List.mem_cons_of_mem _ (ih h)
    · simp only [hk, if_false, List.mem_cons] at h
      rcases h with h | h
      · simp [h]
      · exact List.mem_cons_of_mem _ (ih h)

theorem GoMap.keys_set (m : GoMap) (k v x : Str) (h : x ∈ (m.set k v).keys) :
    x = k ∨ x ∈ m.keys := by
  obtain ⟨e, he, rfl⟩ := List.mem_map.1 h
  rcases GoMap.mem_set m k v e he with rfl | h'
  · exact Or.inl rfl
  · exact Or.inr (List.mem_map.2 ⟨e, h', rfl⟩)

theorem GoMap.nodup_set (m : GoMap) (k v : Str) (hn : m.keys.Nodup) :
    (m.set k v).keys.Nodup := by
  induction m with
  | nil => simp [GoMap.set, GoMap.keys]
  | cons x rest ih =>
    obtain ⟨a, b⟩ := x
    simp only [GoMap.keys, List.map_cons, List.nodup_cons] at hn
    simp only [GoMap.set]
    by_cases hk : a = k
    · simp only [hk, if_true, GoMap.keys, List.map_cons, List.nodup_cons]
      exact ⟨hk ▸ hn.1, hn.2⟩
    · simp only [hk, if_false, GoMap.keys, List.map_cons, List.nodup_cons]
      refine ⟨fun hmem => ?_, ih hn.2⟩
      rcases GoMap.keys_set rest k v a hmem with h | h
      · exact hk h
      · exact hn.1 h

theorem GoMap.nodup_del (m : GoMap) (k : Str) (hn : m.keys.Nodup) : (m.del k).keys.Nodup := by
  induction m with
  | nil => simp [GoMap.del, GoMap.keys]
  | cons x rest ih =>
    obtain ⟨a, b⟩ := x
    simp only [GoMap.keys, List.map_cons, List.nodup_cons] at hn
    simp only [GoMap.del]
    by_cases hk : a = k
    · simp only [hk, if_true]; exact ih hn.2
    · simp only [hk, if_false, GoMap.keys, List.map_cons, List.nodup_cons]
      refine ⟨fun hmem => ?_, ih hn.2⟩
      obtain ⟨e, he, hea⟩ := List.mem_map.1 hmem
      exact hn.1 (List.mem_map.2 ⟨e, GoMap.mem_del rest k e he, hea⟩)

theorem nodup_foldl_set (es : List (Str × Str)) (m : GoMap) (hn : m.keys.Nodup) :
    (es.foldl (fun m e => m.set e.1 e.2) m).keys.Nodup := by
  induction es generalizing m with
  | nil => simpa using hn
  | cons e rest ih => exact ih _ (GoMap.nodup_set m e.1 e.2 hn)

theorem mem_foldl_set (es : List (Str × Str)) (m : GoMap) (x : Str × Str)
    (h : x ∈ es.foldl (fun m e => m.set e.1 e.2) m) : x ∈ es ∨ x ∈ m := by
  induction es generalizing m with
  | nil => exact Or.inr (by simpa using h)
  | cons e rest ih =>
    rcases ih _ h with h' | h'
    · exact Or.inl (List.mem_cons_of_mem _ h')
    · rcases GoMap.mem_set m e.1 e.2 x h' with h'' | h''
      · exact Or.inl (by simp [h''])
      · exact Or.inr h''

theorem configMapOf_nodup (data : Str) (mountFlags : List Str) :
    (configMapOf data mountFlags).keys.Nodup := by
  unfold configMapOf
  rw [foldl_applyFlag_fst, foldl_readLine]
  exact nodup_foldl_set _ _ (nodup_foldl_set _ _ (by simp [GoMap.keys]))

theorem configMapOf_mem (data : Str) (mountFlags : List Str) (x : Str × Str)
    (h : x ∈ configMapOf data mountFlags) : x ∈ flagEntries mountFlags ∨ x ∈ baseEntries data := by
  unfold configMapOf at h
  rw [foldl_applyFlag_fst, foldl_readLine] at h
  rcases mem_foldl_set _ _ x h with h' | h'
  · exact Or.inl h'
  · rcases mem_foldl_set _ _ x h' with h'' | h''
    · exact Or.inr h''
    · simp at h''

/-! ## The mapping during step 4 -/

theorem outMap_get (m : GoMap) (line : Str) (k : Str) :
    (outMap m line).get k = if lineKey line = some k then none else m.get k := by
  unfold outMap lineKey
  cases h : lineEntry line with
  | none => simp
  | some p =>
    obtain ⟨a, b⟩ := p
    simp only [Option.map_some', Option.some.injEq]
    cases hg : m.get a with
    | none =>
      by_cases hk : a = k
      · subst hk; simp [hg]
      · simp [hk]
    | some w => simp only [GoMap.get_del]

theorem foldl_outMap_get (lines : List Str) (m : GoMap) (k : Str) :
    (lines.foldl outMap m).get k =
      if k ∈ lines.filterMap lineKey then none else m.get k := by
  induction lines generalizing m with
  | nil => simp
  | cons l ls ih =>
    rw [List.foldl_cons, ih, outMap_get, List.filterMap_cons]
    cases hl : lineKey l with
    | none => simp
    | some a =>
      by_cases ha : a = k
      · subst ha; simp
      · have ha' : ¬ k = a := fun e => ha e.symm
        simp [ha, ha']

theorem outMap_mem (m : GoMap) (line : Str) (x : Str × Str) (h : x ∈ outMap m line) :
    x ∈ m := by
  unfold outMap at h
  cases hl : lineEntry line with
  | none => simpa [hl] using h
  | some p =>
    obtain ⟨a, b⟩ := p
    rw [hl] at h
    simp only [] at h
    cases hg : m.get a with
    | none => simpa [hg] using h
    | some w => rw [hg] at h; exact GoMap.mem_del m a x h

theorem outMap_nodup (m : GoMap) (line : Str) (hn : m.keys.Nodup) :
    (outMap m line).keys.Nodup := by
  unfold outMap
  cases hl : lineEntry line with
  | none => simpa using hn
  | some p =>
    obtain ⟨a, b⟩ := p
    simp only []
    cases hg : m.get a with
    | none => simpa using hn
    | some w => exact GoMap.nodup_del m a hn

theorem foldl_outMap_mem (lines : List Str) (m : GoMap) (x : Str × Str)
    (h : x ∈ lines.foldl outMap m) : x ∈ m := by
  induction lines generalizing m with
  | nil => simpa using h
  | cons l ls ih => exact outMap_mem m l x (ih _ h)

theorem foldl_outMap_nodup (lines : List Str) (m : GoMap) (hn : m.keys.Nodup) :
    (lines.foldl outMap m).keys.Nodup := by
  induction lines generalizing m with
  | nil => simpa using hn
  | cons l ls ih => exact ih _ (outMap_nodup m l hn)

theorem outLines_append (mountUUID : Str) (xs ys : List Str) (m : GoMap) :
    outLines mountUUID m (xs ++ ys) =
      outLines mountUUID m xs ++ outLines mountUUID (xs.foldl outMap m) ys := by
  induction xs generalizing m with
  | nil => simp [outLines]
  | cons x xs ih => simp [outLines, ih]

theorem outLines_length (mountUUID : Str) (lines : List Str) (m : GoMap) :
    (outLines mountUUID m lines).length = lines.length := by
  induction lines generalizing m with
  | nil => simp [outLines]
  | cons x xs ih => simp [outLines, ih]

/-- The text written for the line at index `i`: the mapping has lost the keys
of the lines before it. -/
theorem outLines_getElem? (mountUUID : Str) (lines : List Str) (m : GoMap) (i : Nat)
    (line : Str) (h : lines[i]? = some line) :
    (outLines mountUUID m lines)[i]? =
      some (outLine mountUUID ((lines.take i).foldl outMap m) line) := by
  induction lines generalizing m i with
  | nil => simp at h
  | cons x xs ih =>
    cases i with
    | zero =>
      simp only [List.getElem?_cons_zero, Option.some.injEq] at h
      simp [outLines, h]
    | succ j =>
      simp only [List.getElem?_cons_succ] at h
      simp [outLines, ih _ j h]

/-! ## Newlines in the written lines -/

theorem mem_kvLine (c : Char) (k v : Str) : c ∈ kvLine (k, v) ↔ c ∈ k ∨ c = '=' ∨ c ∈ v := by
  simp [kvLine]

theorem Join_not_mem (c : Char) (sep : Str) (xs : List Str) (hsep : c ∉ sep)
    (hx : ∀ x ∈ xs, c ∉ x) : c ∉ Join xs sep := by
  induction xs with
  | nil => simp [Join]
  | cons a rest ih =>
    cases rest with
    | nil => simpa [Join] using hx a (by simp)
    | cons b rest' =>
      simp only [Join, List.mem_append, not_or]
      exact ⟨⟨hx a (by simp), hsep⟩, ih (fun x h => hx x (List.mem_cons_of_mem _ h))⟩

theorem Split_subset (s : Str) (sep : Char) : ∀ l ∈ Split s sep, ∀ c ∈ l, c ∈ s := by
  induction s with
  | nil => simp [Split]
  | cons x xs ih =>
    unfold Split
    by_cases h : x = sep
    · simp only [if_pos h, List.mem_cons]
      rintro l (rfl | hl) c hc
      · simp at hc
      · exact Or.inr (ih l hl c hc)
    · simp only [if_neg h]
      cases hs : Split xs sep with
      | nil => exact absurd hs (Split_ne_nil xs sep)
      | cons y ys =>
        rw [hs] at ih
        simp only [List.mem_cons]
        rintro l (rfl | hl) c hc
        · rcases List.mem_cons.1 hc with rfl | hc
          · exact Or.inl rfl
          · exact Or.inr (ih y (by simp) c hc)
        · exact Or.inr (ih l (by simp [hl]) c hc)

theorem cacheDirWithUUID_not_mem (c : Char) (mountUUID cacheDir : Str) (hu : c ∉ mountUUID)
    (hd : c ∉ cacheDir) (h1 : c ≠ '/') (h2 : c ≠ ':') : c ∉ cacheDirWithUUID mountUUID cacheDir := by
  unfold cacheDirWithUUID SplitN2
  cases h : cutAt ':' cacheDir with
  | none => simp [hu, hd, h1]
  | some p =>
    obtain ⟨a, b⟩ := p
    have := ((cutAt_some ':' cacheDir a b).1 h).1
    subst this
    simp only [List.mem_append, List.mem_cons, not_or] at hd
    simp [hu, hd.1, hd.2.2, h1, h2]

theorem rewriteCacheDirs_not_mem (c : Char) (mountUUID newValue : Str) (hu : c ∉ mountUUID)
    (hv : c ∉ newValue) (h1 : c ≠ '/') (h2 : c ≠ ':') (h3 : c ≠ ';') :
    c ∉ rewriteCacheDirs mountUUID newValue := by
  unfold rewriteCacheDirs
  apply Join_not_mem
  · simp [h3]
  · intro x hx
    obtain ⟨e, he, rfl⟩ := List.mem_map.1 hx
    exact cacheDirWithUUID_not_mem c mountUUID e hu
      (fun hc => hv (Split_subset newValue ';' e he c hc)) h1 h2

theorem flagEntries_mem (mountFlags : List Str) (k v : Str)
    (h : (k, v) ∈ flagEntries mountFlags) :
    ∃ f ∈ mountFlags, flagEntry f = some (k, v) ∧ f = k ++ '=' :: v ∧ '=' ∉ k := by
  unfold flagEntries at h
  obtain ⟨f, hf, he⟩ := List.mem_filterMap.1 h
  have := (cutAt_some '=' f k v).1 he
  exact ⟨f, hf, he, this.1, this.2⟩

theorem lineEntry_eq (line k v : Str) (h : lineEntry line = some (k, v)) :
    line = k ++ '=' :: v ∧ '=' ∉ k ∧ HasPrefix k "#".toList = false := by
  obtain ⟨hv, hc⟩ := lineEntry_some line k v h
  obtain ⟨he, hk⟩ := (cutAt_some '=' line k v).1 hc
  refine ⟨he, hk, ?_⟩
  unfold isVerbatim at hv
  simp only [Bool.or_eq_false_iff] at hv
  have h1 := hv.1
  subst he
  unfold HasPrefix at h1 ⊢
  cases k with
  | nil => rfl
  | cons x xs =>
    simp only [String.toList, List.cons_append] at h1 ⊢
    simpa [List.isPrefixOf] using h1

theorem baseEntries_mem (data : Str) (k v : Str) (h : (k, v) ∈ baseEntries data) :
    ∃ l ∈ Split data '\n', lineEntry l = some (k, v) := by
  unfold baseEntries at h
  obtain ⟨l, hl, he⟩ := List.mem_filterMap.1 h
  exact ⟨l, hl, he⟩

theorem configMapOf_no_newline (data : Str) (mountFlags : List Str)
    (hfl : ∀ f ∈ mountFlags, '\n' ∉ f) (k v : Str) (h : (k, v) ∈ configMapOf data mountFlags) :
    '\n' ∉ k ∧ '\n' ∉ v := by
  rcases configMapOf_mem data mountFlags (k, v) h with h' | h'
  · obtain ⟨f, hf, _, he, _⟩ := flagEntries_mem mountFlags k v h'
    have := hfl f hf
    rw [he] at this
    simp only [List.mem_append, List.mem_cons, not_or] at this
    exact ⟨this.1, this.2.2⟩
  · obtain ⟨l, hl, he⟩ := baseEntries_mem data k v h'
    have := Split_no_sep data '\n' l hl
    rw [(lineEntry_eq l k v he).1] at this
    simp only [List.mem_append, List.mem_cons, not_or] at this
    exact ⟨this.1, this.2.2⟩

theorem outLine_no_newline (mountUUID : Str) (m : GoMap) (line : Str) (hl : '\n' ∉ line)
    (hm : ∀ k v, m.get k = some v → '\n' ∉ v)
    (hu : lineKey line = some "disk_cache.cache_dir".toList → '\n' ∉ mountUUID) :
    '\n' ∉ outLine mountUUID m line := by
  unfold outLine
  cases he : lineEntry line with
  | none => simpa using hl
  | some p =>
    obtain ⟨k, v⟩ := p
    simp only []
    cases hg : m.get k with
    | none => simpa using hl
    | some w =>
      simp only []
      have hk : '\n' ∉ k := by
        have := hl
        rw [(lineEntry_eq line k v he).1] at this
        simp only [List.mem_append, not_or] at this
        exact this.1
      have hw := hm k w hg
      rw [mem_kvLine]
      by_cases hcd : k = "disk_cache.cache_dir".toList
      · have hu' : '\n' ∉ mountUUID := hu (by simp [lineKey, he, hcd])
        have := rewriteCacheDirs_not_mem '\n' mountUUID w hu' hw (by decide) (by decide)
          (by decide)
        simp [hcd, this]
      · simp only [hcd, if_false, not_or]
        exact ⟨hk, by decide, hw⟩

theorem outLines_no_newline (mountUUID : Str) (lines : List Str) (m : GoMap)
    (hl : ∀ l ∈ lines, '\n' ∉ l) (hm : ∀ k v, m.get k = some v → '\n' ∉ v)
    (hu : "disk_cache.cache_dir".toList ∈ lines.filterMap lineKey → '\n' ∉ mountUUID) :
    ∀ l ∈ outLines mountUUID m lines, '\n' ∉ l := by
  induction lines generalizing m with
  | nil => simp [outLines]
  | cons x xs ih =>
    intro l hmem
    simp only [outLines, List.mem_cons] at hmem
    rcases hmem with rfl | hmem
    · apply outLine_no_newline mountUUID m x (hl x (by simp)) hm
      intro hk
      exact hu (by simp [List.filterMap_cons, hk])
    · apply ih (outMap m x) (fun l h => hl l (List.mem_cons_of_mem _ h)) _ _ l hmem
      · intro k v hg
        rw [outMap_get] at hg
        by_cases hk : lineKey x = some k
        · simp [hk] at hg
        · simp only [hk, if_false] at hg
          exact hm k v hg
      · intro hk
        apply hu
        rw [List.filterMap_cons]
        cases lineKey x with
        | none => exact hk
        | some a => exact List.mem_cons_of_mem _ hk

/-- The lines of the patched content when neither a flag nor (where it is
inserted) the mount id contains a newline: one line per line of the base, one
line per entry left in the mapping, and the empty remainder after the last
newline. -/
theorem patchedLines_eq (order : MapOrder) (data : Str) (mountFlags : List Str)
    (mountUUID : Str) (hfl : ∀ f ∈ mountFlags, '\n' ∉ f)
    (hu : "disk_cache.cache_dir".toList ∈ baseKeys data → '\n' ∉ mountUUID) :
    patchedLines order data mountFlags mountUUID =
      outLines mountUUID (configMapOf data mountFlags) (Split data '\n') ++
        (order.iter ((Split data '\n').foldl outMap (configMapOf data mountFlags))).map kvLine ++
        [[]] := by
  unfold patchedLines
  rw [patchConfig_fst]
  apply Split_terminate
  intro l hl
  rcases List.mem_append.1 hl with h | h
  · refine outLines_no_newline mountUUID _ _ (Split_no_sep data '\n') ?_ hu l h
    intro k v hg
    exact (configMapOf_no_newline data mountFlags hfl k v (GoMap.mem_of_get _ k v hg)).2
  · obtain ⟨e, he, rfl⟩ := List.mem_map.1 h
    have he' := foldl_outMap_mem _ _ e (((order.perm _).mem_iff).1 he)
    have := configMapOf_no_newline data mountFlags hfl e.1 e.2 he'
    rw [show e = (e.1, e.2) from rfl, mem_kvLine]
    simp only [not_or]
    exact ⟨this.1, by decide, this.2⟩

/-! ## Lines kept and lines updated -/

theorem split_at_index (lines : List Str) (i : Nat) (line : Str) (h : lines[i]? = some line) :
    lines = lines.take i ++ line :: lines.drop (i + 1) := by
  induction lines generalizing i with
  | nil => simp at h
  | cons x xs ih =>
    cases i with
    | zero => simp at h; simp [h]
    | succ j =>
      simp only [List.getElem?_cons_succ] at h
      simp only [List.take_succ_cons, List.drop_succ_cons, List.cons_append, List.cons.injEq,
        true_and]
      exact ih j h

theorem mem_drop_index (lines : List Str) (i : Nat) (l : Str) (h : l ∈ lines.drop (i + 1)) :
    ∃ j, i < j ∧ lines[j]? = some l := by
  obtain ⟨n, hn⟩ := List.mem_iff_getElem?.1 h
  refine ⟨i + 1 + n, by omega, ?_⟩
  rw [List.getElem?_drop] at hn
  exact hn

theorem outLine_entry_none (mountUUID : Str) (m : GoMap) (line : Str)
    (h : lineEntry line = none) : outLine mountUUID m line = line := by
  unfold outLine; rw [h]

theorem outLine_get_none (mountUUID : Str) (m : GoMap) (line k v : Str)
    (h : lineEntry line = some (k, v)) (hg : m.get k = none) :
    outLine mountUUID m line = line := by
  unfold outLine; rw [h]; simp only []; rw [hg]

theorem outLine_get_some (mountUUID : Str) (m : GoMap) (line k v w : Str)
    (h : lineEntry line = some (k, v)) (hk : k ≠ "disk_cache.cache_dir".toList)
    (hg : m.get k = some w) : outLine mountUUID m line = kvLine (k, w) := by
  unfold outLine; rw [h]; simp only []; rw [hg]; simp only [hk, if_false]

theorem kvLine_of_lineEntry (line k v : Str) (h : lineEntry line = some (k, v)) :
    kvLine (k, v) = line := by
  rw [(lineEntry_eq line k v h).1]
  simp [kvLine]

theorem patchedLines_base_index (order : MapOrder) (data : Str) (mountFlags : List Str)
    (mountUUID : Str) (i : Nat) (line : Str) (hfl : ∀ f ∈ mountFlags, '\n' ∉ f)
    (hu : '\n' ∉ mountUUID) (hi : (Split data '\n')[i]? = some line) :
    (patchedLines order data mountFlags mountUUID)[i]? =
      some (outLine mountUUID
        (((Split data '\n').take i).foldl outMap (configMapOf data mountFlags)) line) := by
  rw [patchedLines_eq order data mountFlags mountUUID hfl (fun _ => hu)]
  have hlt : i < (Split data '\n').length := by
    by_contra hge
    rw [List.getElem?_eq_none (by omega)] at hi
    cases hi
  rw [List.append_assoc, List.getElem?_append_left (by rw [outLines_length]; exact hlt)]
  exact outLines_getElem? mountUUID _ _ i line hi

/-- C3 (amended): when neither the mount id nor a mount flag contains a
newline, every line of the base that is a comment, has no `=`, or is a
`key=value` line whose key is not `disk_cache.cache_dir`, is the key of no
mount flag and is not the key of a later line, is found unchanged at the
same line index of the patched content. -/
theorem unmentioned_line_preserved (order : MapOrder) (data : Str) (mountFlags : List Str)
    (mountUUID : Str) (i : Nat) (line : Str)
    (hfl : ∀ f ∈ mountFlags, '\n' ∉ f) (hu : '\n' ∉ mountUUID)
    (hi : (Split data '\n')[i]? = some line)
    (hline : lineEntry line = none ∨
      ∃ k v, lineEntry line = some (k, v) ∧ k ≠ "disk_cache.cache_dir".toList ∧
        (∀ e ∈ flagEntries mountFlags, e.1 ≠ k) ∧
        (∀ j l, i < j → (Split data '\n')[j]? = some l → lineKey l ≠ some k)) :
    (patchedLines order data mountFlags mountUUID)[i]? = some line := by
  rw [patchedLines_base_index order data mountFlags mountUUID i line hfl hu hi]
  congr 1
  rcases hline with h | ⟨k, v, he, hk, hflag, hlater⟩
  · exact outLine_entry_none _ _ _ h
  · cases hg : (((Split data '\n').take i).foldl outMap (configMapOf data mountFlags)).get k with
    | none => exact outLine_get_none _ _ _ k v he hg
    | some w =>
      rw [outLine_get_some _ _ _ k v w he hk hg]
      rw [foldl_outMap_get] at hg
      split at hg
      · cases hg
      · rw [configMapOf_get, (lastValue_none _ k).2 hflag] at hg
        simp only [] at hg
        have hsplit := split_at_index _ i line hi
        unfold baseEntries at hg
        rw [hsplit, List.filterMap_append, List.filterMap_cons, he, lastValue_append,
          lastValue] at hg
        have hnone : lastValue (List.filterMap lineEntry ((Split data '\n').drop (i + 1))) k
            = none := by
          rw [lastValue_none]
          intro e hmem hek
          obtain ⟨l, hl, hle⟩ := List.mem_filterMap.1 hmem
          obtain ⟨j, hj, hjl⟩ := mem_drop_index _ i l hl
          exact hlater j l hj hjl (by simp [lineKey, hle, hek])
        rw [hnone] at hg
        simp only [if_true, Option.some.injEq] at hg
        rw [← hg]
        exact kvLine_of_lineEntry line k v he

theorem unmentioned_line_preserved_witness :
    (patchedLines MapOrder.stored "a=1\n#c\nb=2".toList ["a=7".toList] "u1".toList)[2]? =
      some "b=2".toList :=
  unmentioned_line_preserved MapOrder.stored "a=1\n#c\nb=2".toList ["a=7".toList] "u1".toList 2
    "b=2".toList (by decide) (by decide) (by decide)
    (Or.inr ⟨"b".toList, "2".toList, by decide, by decide, by decide, by
      intro j l hj hjl
      have hlen : j < (Split "a=1\n#c\nb=2".toList '\n').length := by
        by_contra hge
        rw [List.getElem?_eq_none (by omega)] at hjl
        cases hjl
      have : (Split "a=1\n#c\nb=2".toList '\n').length = 3 := by decide
      omega⟩)

/-- C3 (as stated) fails: a `disk_cache.cache_dir` line is rewritten with the
mount id although no mount flag mentions its key. -/
theorem unmentioned_cache_dir_line_changed :
    (Split "disk_cache.cache_dir=/d".toList '\n')[0]? = some "disk_cache.cache_dir=/d".toList ∧
    flagEntries [] = [] ∧
    (patchedLines MapOrder.stored "disk_cache.cache_dir=/d".toList [] "abc".toList)[0]? =
      some "disk_cache.cache_dir=/d/abc".toList ∧
    (patchedLines MapOrder.stored "disk_cache.cache_dir=/d".toList [] "abc".toList)[0]? ≠
      (Split "disk_cache.cache_dir=/d".toList '\n')[0]? := by
  decide

/-- C5 (amended): when neither the mount id nor a mount flag contains a
newline and the keys of the `key=value` lines of the base are pairwise
distinct, a line with key `k` other than `disk_cache.cache_dir`, for which
the last mount flag with key `k` has value `v`, is replaced at the same line
index by `k=v`. -/
theorem override_updates_in_place (order : MapOrder) (data : Str) (mountFlags : List Str)
    (mountUUID : Str) (i : Nat) (line k v0 v : Str)
    (hfl : ∀ f ∈ mountFlags, '\n' ∉ f) (hu : '\n' ∉ mountUUID)
    (hd : (baseKeys data).Nodup)
    (hi : (Split data '\n')[i]? = some line)
    (he : lineEntry line = some (k, v0)) (hk : k ≠ "disk_cache.cache_dir".toList)
    (hv : lastValue (flagEntries mountFlags) k = some v) :
    (patchedLines order data mountFlags mountUUID)[i]? = some (kvLine (k, v)) := by
  rw [patchedLines_base_index order data mountFlags mountUUID i line hfl hu hi]
  congr 1
  apply outLine_get_some _ _ _ k v0 v he hk
  rw [foldl_outMap_get]
  have hsplit := split_at_index _ i line hi
  unfold baseKeys at hd
  rw [hsplit, List.filterMap_append, List.filterMap_cons] at hd
  have hkey : lineKey line = some k := by simp [lineKey, he]
  rw [hkey] at hd
  have hnot : k ∉ List.filterMap lineKey ((Split data '\n').take i) := by
    intro hmem
    have := (List.nodup_append.1 hd).2.2
    exact this hmem (by simp)
  rw [if_neg hnot, configMapOf_get, hv]

theorem override_updates_in_place_witness :
    (patchedLines MapOrder.stored "a=1\n#c\nb=2".toList ["b=7".toList, "b=8".toList]
      "u1".toList)[2]? = some "b=8".toList :=
  override_updates_in_place MapOrder.stored "a=1\n#c\nb=2".toList
    ["b=7".toList, "b=8".toList] "u1".toList 2 "b=2".toList "b".toList "2".toList "8".toList
    (by decide) (by decide) (by decide) (by decide) (by decide) (by decide) (by decide)

/-- C5 (as stated) fails: a mount flag whose value contains a newline is
written over two lines, so the line at the index of the overridden entry is
not `k=v`. -/
theorem override_with_newline_not_in_place :
    (baseKeys "a=1".toList).Nodup ∧
    (Split "a=1".toList '\n')[0]? = some "a=1".toList ∧
    lineEntry "a=1".toList = some ("a".toList, "1".toList) ∧
    lastValue (flagEntries ["a=x\ny".toList]) "a".toList = some "x\ny".toList ∧
    (patchedLines MapOrder.stored "a=1".toList ["a=x\ny".toList] "u1".toList)[0]? =
      some "a=x".toList ∧
    "a=x".toList ≠ kvLine ("a".toList, "x\ny".toList) := by
  decide

/-! ## The appended lines -/

theorem lineEntry_kvLine (k v : Str) (h1 : '=' ∉ k) (h2 : HasPrefix k "#".toList = false) :
    lineEntry (kvLine (k, v)) = some (k, v) := by
  have hcut : cutAt '=' (kvLine (k, v)) = some (k, v) := by
    rw [cutAt_some]; exact ⟨by simp [kvLine], h1⟩
  unfold lineEntry
  have hv : isVerbatim (kvLine (k, v)) = false := by
    unfold isVerbatim
    simp only [Bool.or_eq_false_iff, Bool.not_eq_false']
    refine ⟨?_, ?_⟩
    · unfold HasPrefix at h2 ⊢
      cases k with
      | nil => simp [kvLine, List.isPrefixOf]
      | cons x xs =>
        simp only [String.toList, kvLine, List.cons_append] at h2 ⊢
        simpa [List.isPrefixOf] using h2
    · rw [Contains_iff]; simp [kvLine]
  rw [hv]; simpa using hcut

theorem flagEntry_kvLine (k v : Str) (h1 : '=' ∉ k) : flagEntry (kvLine (k, v)) = some (k, v) := by
  unfold flagEntry
  rw [cutAt_some]; exact ⟨by simp [kvLine], h1⟩

theorem lineKey_outLine (mountUUID : Str) (m : GoMap) (line : Str) :
    lineKey (outLine mountUUID m line) = lineKey line := by
  unfold outLine
  cases he : lineEntry line with
  | none => simp [he]
  | some p =>
    obtain ⟨k, v⟩ := p
    simp only []
    cases hg : m.get k with
    | none => simp
    | some w =>
      simp only []
      obtain ⟨_, h1, h2⟩ := lineEntry_eq line k v he
      simp [lineKey, lineEntry_kvLine k _ h1 h2, he]

theorem filterMap_lineKey_outLines (mountUUID : Str) (lines : List Str) (m : GoMap) :
    (outLines mountUUID m lines).filterMap lineKey = lines.filterMap lineKey := by
  induction lines generalizing m with
  | nil => simp [outLines]
  | cons x xs ih => simp [outLines, List.filterMap_cons, lineKey_outLine, ih]

theorem configMapOf_key_no_eq (data : Str) (mountFlags : List Str) (e : Str × Str)
    (h : e ∈ configMapOf data mountFlags) : '=' ∉ e.1 := by
  rcases configMapOf_mem data mountFlags e h with h' | h'
  · obtain ⟨f, _, _, _, hk⟩ := flagEntries_mem mountFlags e.1 e.2 h'
    exact hk
  · obtain ⟨l, _, he⟩ := baseEntries_mem data e.1 e.2 h'
    exact (lineEntry_eq l e.1 e.2 he).2.1

theorem lineKey_kvLine (e : Str × Str) (h : '=' ∉ e.1) :
    lineKey (kvLine e) = none ∨ lineKey (kvLine e) = some e.1 := by
  unfold lineKey
  cases h' : lineEntry (kvLine e) with
  | none => exact Or.inl rfl
  | some p =>
    obtain ⟨k, v⟩ := p
    have h4 := flagEntry_kvLine e.1 e.2 h
    unfold flagEntry at h4
    rw [(lineEntry_some _ _ _ h').2] at h4
    simp only [Option.some.injEq, Prod.mk.injEq] at h4
    exact Or.inr (by simp [h4.1])

theorem filterMap_lineKey_kvLine_sublist (es : List (Str × Str)) (h : ∀ e ∈ es, '=' ∉ e.1) :
    ((es.map kvLine).filterMap lineKey).Sublist (es.map Prod.fst) := by
  induction es with
  | nil => simp
  | cons e rest ih =>
    have ih' := ih (fun x hx => h x (List.mem_cons_of_mem _ hx))
    simp only [List.map_cons, List.filterMap_cons]
    rcases lineKey_kvLine e (h e (by simp)) with h' | h'
    · rw [h']; exact List.Sublist.cons _ ih'
    · rw [h']; exact List.Sublist.cons₂ _ ih'

theorem filter_key_of_get (m : GoMap) (k v : Str) (hn : m.keys.Nodup) (hg : m.get k = some v) :
    m.filter (fun e => decide (e.1 = k)) = [(k, v)] := by
  induction m with
  | nil => simp [GoMap.get] at hg
  | cons x rest ih =>
    obtain ⟨a, b⟩ := x
    simp only [GoMap.keys, List.map_cons, List.nodup_cons] at hn
    simp only [GoMap.get] at hg
    by_cases hk : a = k
    · subst hk
      simp only [if_true, Option.some.injEq] at hg
      subst hg
      have : rest.filter (fun e => decide (e.1 = a)) = [] := by
        rw [List.filter_eq_nil_iff]
        intro e he
        simp only [decide_eq_true_eq]
        intro hea
        exact hn.1 (List.mem_map.2 ⟨e, he, hea⟩)
      simp [List.filter_cons, this]
    · simp only [hk, if_false] at hg
      simp [List.filter_cons, hk, ih hn.2 hg]

theorem filter_key_of_get_none (m : GoMap) (k : Str) (hg : m.get k = none) :
    m.filter (fun e => decide (e.1 = k)) = [] := by
  rw [List.filter_eq_nil_iff]
  intro e he
  simp only [decide_eq_true_eq]
  intro hek
  exact (GoMap.get_none_iff m k).1 hg (List.mem_map.2 ⟨e, he, hek⟩)

/-- The appended lines whose text before the first `=` is `k`, for entries
whose keys contain no `=`. -/
theorem filter_kvLine (es : List (Str × Str)) (k : Str) (h : ∀ e ∈ es, '=' ∉ e.1) :
    (es.map kvLine).filter (fun l => decide ((flagEntry l).map Prod.fst = some k)) =
      (es.filter (fun e => decide (e.1 = k))).map kvLine := by
  induction es with
  | nil => simp
  | cons e rest ih =>
    have ih' := ih (fun x hx => h x (List.mem_cons_of_mem _ hx))
    have he := flagEntry_kvLine e.1 e.2 (h e (by simp))
    simp only [List.map_cons, List.filter_cons, ih']
    rw [show kvLine e = kvLine (e.1, e.2) from rfl, he]
    by_cases hk : e.1 = k
    · subst hk; simp
    · simp [hk]

theorem restMapOf_get (data : Str) (mountFlags : List Str) (k : Str) :
    (restMapOf data mountFlags).get k =
      if k ∈ baseKeys data then none else (configMapOf data mountFlags).get k := by
  unfold restMapOf baseKeys
  exact foldl_outMap_get _ _ k

theorem restMapOf_nodup (data : Str) (mountFlags : List Str) :
    (restMapOf data mountFlags).keys.Nodup :=
  foldl_outMap_nodup _ _ (configMapOf_nodup data mountFlags)

theorem restMapOf_key_no_eq (order : MapOrder) (data : Str) (mountFlags : List Str) :
    ∀ e ∈ order.iter (restMapOf data mountFlags), '=' ∉ e.1 := by
  intro e he
  have h1 := ((order.perm _).mem_iff).1 he
  exact configMapOf_key_no_eq data mountFlags e (foldl_outMap_mem _ _ e h1)

theorem countP_key_eq_zero (ks : List Str) (k : Str) (h : k ∉ ks) :
    ks.countP (fun x => decide (x = k)) = 0 := by
  rw [List.countP_eq_zero]
  intro x hx
  simp only [decide_eq_true_eq]
  rintro rfl
  exact h hx

theorem countP_key_le_one (ks : List Str) (k : Str) (hn : ks.Nodup) :
    ks.countP (fun x => decide (x = k)) ≤ 1 := by
  induction ks with
  | nil => simp
  | cons a rest ih =>
    rw [List.nodup_cons] at hn
    rw [List.countP_cons]
    by_cases hk : a = k
    · subst hk
      rw [countP_key_eq_zero rest a hn.1]
      simp
    · have := ih hn.2
      simp only [hk, decide_False, Bool.false_eq_true, if_false]
      omega

/-- C6 (amended): when neither the mount id nor a mount flag contains a
newline, the lines of the patched content are one line per line of the base,
then the appended lines, then the empty remainder after the last newline.
For a flag key `k` with last value `v` that is the key of no line of the
base, exactly one appended line has `k` before its first `=`, and it is
`k=v`; for a key of a line of the base there is no such appended line; and
when the keys of the base are pairwise distinct, no key is the key of more
than one line of the patched content. -/
theorem unmatched_overrides_appended (order : MapOrder) (data : Str) (mountFlags : List Str)
    (mountUUID : Str) (hfl : ∀ f ∈ mountFlags, '\n' ∉ f) (hu : '\n' ∉ mountUUID) :
    ∃ baseOut appended,
      patchedLines order data mountFlags mountUUID = baseOut ++ appended ++ [[]] ∧
      baseOut.length = (Split data '\n').length ∧
      (∀ k v, lastValue (flagEntries mountFlags) k = some v → k ∉ baseKeys data →
        appended.filter (fun l => decide (textKey l = some k)) = [kvLine (k, v)]) ∧
      (∀ k ∈ baseKeys data, appended.filter (fun l => decide (textKey l = some k)) = []) ∧
      ((baseKeys data).Nodup →
        ∀ k, ((patchedLines order data mountFlags mountUUID).filterMap lineKey).countP
          (fun x => decide (x = k)) ≤ 1) := by
  have hnoeq := restMapOf_key_no_eq order data mountFlags
  have hperm := order.perm (restMapOf data mountFlags)
  refine ⟨outLines mountUUID (configMapOf data mountFlags) (Split data '\n'),
    (order.iter (restMapOf data mountFlags)).map kvLine,
    patchedLines_eq order data mountFlags mountUUID hfl (fun _ => hu),
    outLines_length _ _ _, ?_, ?_, ?_⟩
  · intro k v hv hk
    have hg : (restMapOf data mountFlags).get k = some v := by
      rw [restMapOf_get, if_neg hk, configMapOf_get, hv]
    unfold textKey
    rw [filter_kvLine _ k hnoeq]
    have hf := filter_key_of_get _ k v (restMapOf_nodup data mountFlags) hg
    have hp := hperm.filter (fun e => decide (e.1 = k))
    rw [hf] at hp
    rw [List.perm_singleton.1 hp]
    rfl
  · intro k hk
    have hg : (restMapOf data mountFlags).get k = none := by
      rw [restMapOf_get, if_pos hk]
    unfold textKey
    rw [filter_kvLine _ k hnoeq]
    have hf := filter_key_of_get_none _ k hg
    have hp := hperm.filter (fun e => decide (e.1 = k))
    rw [hf] at hp
    rw [List.perm_nil.1 hp]
    rfl
  · intro hd k
    rw [patchedLines_eq order data mountFlags mountUUID hfl (fun _ => hu)]
    rw [List.filterMap_append, List.filterMap_append, filterMap_lineKey_outLines,
      List.countP_append, List.countP_append]
    have hlast : List.countP (fun x => decide (x = k)) (List.filterMap lineKey [([] : Str)])
        = 0 := by
      have : lineKey ([] : Str) = none := by decide
      simp [List.filterMap_cons, this]
    have hbase := countP_key_le_one _ k hd
    have hsub := (filterMap_lineKey_kvLine_sublist _ hnoeq).countP_le (fun x => decide (x = k))
    have hpk : (List.map Prod.fst (order.iter (restMapOf data mountFlags))).Perm
        (restMapOf data mountFlags).keys := hperm.map Prod.fst
    rw [hpk.countP_eq] at hsub
    have hrest := countP_key_le_one _ k (restMapOf_nodup data mountFlags)
    by_cases hk : k ∈ baseKeys data
    · have hg : (restMapOf data mountFlags).get k = none := by
        rw [restMapOf_get, if_pos hk]
      have hz := countP_key_eq_zero _ k ((GoMap.get_none_iff _ k).1 hg)
      unfold restMapOf baseKeys at *
      omega
    · have hz := countP_key_eq_zero _ k hk
      unfold restMapOf baseKeys at *
      omega

theorem unmatched_overrides_appended_witness :
    ∃ baseOut appended,
      patchedLines MapOrder.reversed "a=1\n#c".toList ["z=9".toList, "a=2".toList, "y=8".toList]
        "u1".toList = baseOut ++ appended ++ [[]] ∧
      baseOut.length = 2 ∧
      appended.filter (fun l => decide (textKey l = some "z".toList)) = ["z=9".toList] :=
  match unmatched_overrides_appended MapOrder.reversed "a=1\n#c".toList
      ["z=9".toList, "a=2".toList, "y=8".toList] "u1".toList (by decide) (by decide) with
  | ⟨baseOut, appended, h1, h2, h3, _, _⟩ =>
    ⟨baseOut, appended, h1, h2, h3 "z".toList "9".toList (by decide) (by decide)⟩

/-- C6 (as stated) fails: an unmatched mount flag whose value contains a
newline is appended over two lines, so no line of the patched content is its
`key=value`. -/
theorem unmatched_override_with_newline_not_a_line :
    lastValue (flagEntries ["k=a\nb".toList]) "k".toList = some "a\nb".toList ∧
    "k".toList ∉ baseKeys [] ∧
    patchedLines MapOrder.stored [] ["k=a\nb".toList] "u1".toList =
      [[], "k=a".toList, "b".toList, []] ∧
    kvLine ("k".toList, "a\nb".toList) ∉
      patchedLines MapOrder.stored [] ["k=a\nb".toList] "u1".toList := by
  decide

/-! ## The cache directory rewrite -/

theorem cacheDirWithUUID_eq (u entry : Str) : cacheDirWithUUID u entry = namespacedEntry u entry := by
  unfold cacheDirWithUUID namespacedEntry SplitN2
  cases h : cutAt ':' entry with
  | none => simp
  | some p => simp

theorem rewriteCacheDirs_eq (u value : Str) : rewriteCacheDirs u value = namespacedDirs u value := by
  unfold rewriteCacheDirs namespacedDirs
  congr 1
  exact List.map_congr_left (fun e _ => cacheDirWithUUID_eq u e)

/-! ## A second pass over the patched content -/

theorem GoMap.get_append (xs ys : GoMap) (k : Str) :
    GoMap.get (xs ++ ys) k = match GoMap.get xs k with
      | some v => some v
      | none => GoMap.get ys k := by
  induction xs with
  | nil => simp [GoMap.get]
  | cons x rest ih =>
    obtain ⟨a, b⟩ := x
    simp only [List.cons_append, GoMap.get]
    by_cases hk : a = k
    · simp [hk]
    · simp only [hk, if_false]; exact ih

theorem GoMap.get_perm (xs ys : GoMap) (hp : xs.Perm ys) (hn : ys.keys.Nodup) (k : Str) :
    GoMap.get xs k = GoMap.get ys k := by
  have hnx : xs.keys.Nodup := ((hp.map Prod.fst).nodup_iff).2 hn
  apply Option.ext
  intro v
  constructor
  · intro h
    exact GoMap.get_of_mem ys k v hn ((hp.mem_iff).1 (GoMap.mem_of_get xs k v h))
  · intro h
    exact GoMap.get_of_mem xs k v hnx ((hp.mem_iff).2 (GoMap.mem_of_get ys k v h))

theorem lastValue_of_mem (es : List (Str × Str)) (k v : Str) (hn : GoMap.keys es |>.Nodup)
    (h : (k, v) ∈ es) : lastValue es k = some v := by
  induction es with
  | nil => simp at h
  | cons e rest ih =>
    obtain ⟨a, b⟩ := e
    simp only [GoMap.keys, List.map_cons, List.nodup_cons] at hn
    rw [lastValue]
    rcases List.mem_cons.1 h with he | he
    · simp only [Prod.mk.injEq] at he
      have : lastValue rest k = none := by
        rw [lastValue_none]
        intro e hmem hek
        exact hn.1 (List.mem_map.2 ⟨e, hmem, by rw [hek, he.1]⟩)
      rw [this]
      simp [he.1, he.2]
    · rw [ih hn.2 he]

theorem lastValue_eq_get (es : List (Str × Str)) (k : Str) (hn : GoMap.keys es |>.Nodup) :
    lastValue es k = GoMap.get es k := by
  apply Option.ext
  intro v
  constructor
  · intro h
    exact GoMap.get_of_mem es k v hn (lastValue_mem es k v h)
  · intro h
    exact lastValue_of_mem es k v hn (GoMap.mem_of_get es k v h)

theorem GoMap.eq_nil_of_get (m : GoMap) (h : ∀ k, m.get k = none) : m = [] := by
  cases m with
  | nil => rfl
  | cons e rest =>
    have := h e.1
    simp [GoMap.get] at this

theorem filterMap_lineKey_eq (lines : List Str) :
    lines.filterMap lineKey = GoMap.keys (lines.filterMap lineEntry) := by
  unfold GoMap.keys
  rw [List.map_filterMap]
  rfl

theorem get_entries_none (lines : List Str) (k : Str) :
    GoMap.get (lines.filterMap lineEntry) k = none ↔ k ∉ lines.filterMap lineKey := by
  rw [filterMap_lineKey_eq]
  exact GoMap.get_none_iff _ k

/-- A pass of step 4 leaves lines without the key `disk_cache.cache_dir`
unchanged when, for every key, the mapping holds either nothing or the value
of the first line with that key. -/
theorem outLines_fixed (mountUUID : Str) (lines : List Str) (m : GoMap)
    (hcd : ∀ l ∈ lines, lineKey l ≠ some "disk_cache.cache_dir".toList)
    (hm : ∀ k v, GoMap.get (lines.filterMap lineEntry) k = some v →
      m.get k = none ∨ m.get k = some v) :
    outLines mountUUID m lines = lines := by
  induction lines generalizing m with
  | nil => simp [outLines]
  | cons l ls ih =>
    simp only [outLines, List.cons.injEq]
    constructor
    · cases he : lineEntry l with
      | none => exact outLine_entry_none _ _ _ he
      | some p =>
        obtain ⟨k, v⟩ := p
        have hk : k ≠ "disk_cache.cache_dir".toList := by
          intro hk
          exact hcd l (by simp) (by simp [lineKey, he, hk])
        rcases hm k v (by simp [List.filterMap_cons, he, GoMap.get]) with hg | hg
        · exact outLine_get_none _ _ _ k v he hg
        · rw [outLine_get_some _ _ _ k v v he hk hg]
          exact kvLine_of_lineEntry l k v he
    · apply ih _ (fun x hx => hcd x (List.mem_cons_of_mem _ hx))
      intro k v hg
      rw [outMap_get]
      by_cases hk : lineKey l = some k
      · simp [hk]
      · simp only [hk, if_false]
        apply hm k v
        rw [List.filterMap_cons]
        cases he : lineEntry l with
        | none => exact hg
        | some p =>
          obtain ⟨a, b⟩ := p
          have hak : a ≠ k := by
            intro hak
            exact hk (by simp [lineKey, he, hak])
          simp only [GoMap.get, hak, if_false]
          exact hg

/-- The entry of the text written for a `key=value` line. -/
theorem lineEntry_outLine (mountUUID : Str) (m : GoMap) (line k v : Str)
    (he : lineEntry line = some (k, v)) (hk : k ≠ "disk_cache.cache_dir".toList) :
    lineEntry (outLine mountUUID m line) = some (k, (m.get k).getD v) := by
  cases hg : m.get k with
  | none => rw [outLine_get_none _ _ _ k v he hg]; simpa using he
  | some w =>
    rw [outLine_get_some _ _ _ k v w he hk hg]
    obtain ⟨_, h1, h2⟩ := lineEntry_eq line k v he
    simpa using lineEntry_kvLine k w h1 h2

/-- The first entry with key `k` among the texts written by step 4. -/
theorem get_entries_outLines (mountUUID : Str) (lines : List Str) (m : GoMap) (k : Str)
    (hcd : ∀ l ∈ lines, lineKey l ≠ some "disk_cache.cache_dir".toList) :
    GoMap.get ((outLines mountUUID m lines).filterMap lineEntry) k =
      match GoMap.get (lines.filterMap lineEntry) k with
      | none => none
      | some v => some ((m.get k).getD v) := by
  induction lines generalizing m with
  | nil => simp [outLines, GoMap.get]
  | cons l ls ih =>
    have ih' := ih (outMap m l) (fun x hx => hcd x (List.mem_cons_of_mem _ hx))
    simp only [outLines, List.filterMap_cons]
    cases he : lineEntry l with
    | none =>
      rw [outLine_entry_none _ _ _ he, he]
      simp only []
      rw [ih', outMap_get]
      simp [lineKey, he]
    | some p =>
      obtain ⟨a, b⟩ := p
      have ha : a ≠ "disk_cache.cache_dir".toList := by
        intro ha
        exact hcd l (by simp) (by simp [lineKey, he, ha])
      rw [lineEntry_outLine _ _ _ a b he ha]
      simp only [GoMap.get]
      by_cases hak : a = k
      · subst hak; simp
      · simp only [hak, if_false]
        rw [ih', outMap_get]
        have : ¬ lineKey l = some k := by simp [lineKey, he, hak]
        simp [this]

/-- The last entry with key `k` among the texts written by step 4, when the
mapping holds nothing for `k` or the value of the last line with key `k`. -/
theorem lastValue_entries_outLines (mountUUID : Str) (lines : List Str) (m : GoMap) (k : Str)
    (hcd : ∀ l ∈ lines, lineKey l ≠ some "disk_cache.cache_dir".toList)
    (hm : m.get k = none ∨ m.get k = lastValue (lines.filterMap lineEntry) k) :
    lastValue ((outLines mountUUID m lines).filterMap lineEntry) k =
      lastValue (lines.filterMap lineEntry) k := by
  induction lines generalizing m with
  | nil => simp [outLines]
  | cons l ls ih =>
    have hcd' : ∀ x ∈ ls, lineKey x ≠ some "disk_cache.cache_dir".toList :=
      fun x hx => hcd x (List.mem_cons_of_mem _ hx)
    simp only [outLines, List.filterMap_cons]
    cases he : lineEntry l with
    | none =>
      rw [outLine_entry_none _ _ _ he, he]
      simp only []
      apply ih _ hcd'
      rw [outMap_get]
      simp only [lineKey, he, Option.map_none', if_false]
      simpa [List.filterMap_cons, he] using hm
    | some p =>
      obtain ⟨a, b⟩ := p
      have ha : a ≠ "disk_cache.cache_dir".toList := by
        intro ha
        exact hcd l (by simp) (by simp [lineKey, he, ha])
      rw [lineEntry_outLine _ _ _ a b he ha]
      simp only [lastValue]
      rw [List.filterMap_cons, he] at hm
      simp only [lastValue] at hm
      by_cases hak : a = k
      · subst hak
        have hrec := ih (outMap m l) hcd' (Or.inl (by rw [outMap_get]; simp [lineKey, he]))
        rw [hrec]
        cases hl : lastValue (ls.filterMap lineEntry) a with
        | some w => rfl
        | none =>
          rw [hl] at hm
          simp only [if_true] at hm ⊢
          rcases hm with hg | hg <;> simp [hg]
      · have hrec := ih (outMap m l) hcd' (by
          rw [outMap_get]
          have : ¬ lineKey l = some k := by simp [lineKey, he, hak]
          simp only [this, if_false]
          cases hl : lastValue (ls.filterMap lineEntry) k with
          | some w => rw [hl] at hm; exact hm
          | none => rw [hl] at hm; simpa [hak] using hm)
        rw [hrec]
        simp [hak]

theorem baseEntries_key_mem (data : Str) (e : Str × Str) (h : e ∈ baseEntries data) :
    e.1 ∈ baseKeys data := by
  unfold baseKeys baseEntries at *
  rw [filterMap_lineKey_eq]
  exact List.mem_map.2 ⟨e, h, rfl⟩

theorem lastValue_baseEntries_none (data : Str) (k : Str) (h : k ∉ baseKeys data) :
    lastValue (baseEntries data) k = none := by
  rw [lastValue_none]
  intro e he hek
  exact h (hek ▸ baseEntries_key_mem data e he)

theorem lastValue_baseEntries_some (data : Str) (k : Str) (h : k ∈ baseKeys data) :
    ∃ v, lastValue (baseEntries data) k = some v := by
  cases hl : lastValue (baseEntries data) k with
  | some v => exact ⟨v, rfl⟩
  | none =>
    exfalso
    unfold baseKeys at h
    rw [filterMap_lineKey_eq] at h
    obtain ⟨e, he, hek⟩ := List.mem_map.1 h
    exact (lastValue_none _ k).1 hl e he hek

/-- The entries left for appending come from mount flags and have keys that
are the key of no line of the base. -/
theorem restMapOf_mem_flag (data : Str) (mountFlags : List Str) (e : Str × Str)
    (h : e ∈ restMapOf data mountFlags) : e ∈ flagEntries mountFlags ∧ e.1 ∉ baseKeys data := by
  have hg := GoMap.get_of_mem _ e.1 e.2 (restMapOf_nodup data mountFlags) h
  rw [restMapOf_get] at hg
  by_cases hk : e.1 ∈ baseKeys data
  · rw [if_pos hk] at hg; cases hg
  · rw [if_neg hk, configMapOf_get] at hg
    refine ⟨?_, hk⟩
    cases hl : lastValue (flagEntries mountFlags) e.1 with
    | some v =>
      rw [hl] at hg
      simp only [Option.some.injEq] at hg
      subst hg
      exact lastValue_mem _ _ _ hl
    | none =>
      rw [hl] at hg
      simp only [] at hg
      rw [lastValue_baseEntries_none data e.1 hk] at hg
      cases hg

theorem filterMap_map_of_some {α β : Type} (f : β → Option α) (g : α → β) (es : List α)
    (h : ∀ e ∈ es, f (g e) = some e) : (es.map g).filterMap f = es := by
  induction es with
  | nil => simp
  | cons e rest ih =>
    simp only [List.map_cons, List.filterMap_cons, h e (by simp)]
    rw [ih (fun x hx => h x (List.mem_cons_of_mem _ hx))]

/-- C4 (amended): when the base has no `disk_cache.cache_dir` line and no
mount flag contains a newline, has the key `disk_cache.cache_dir` or has a
key starting with `#`, patching the patched content again with the same flags
gives the patched content followed by one more newline. -/
theorem second_pass_adds_newline (order1 order2 : MapOrder) (data : Str)
    (mountFlags : List Str) (mountUUID : Str)
    (hb : "disk_cache.cache_dir".toList ∉ baseKeys data)
    (hfl : ∀ f ∈ mountFlags, '\n' ∉ f)
    (hfk : ∀ e ∈ flagEntries mountFlags,
      e.1 ≠ "disk_cache.cache_dir".toList ∧ HasPrefix e.1 "#".toList = false) :
    (patchConfig order2 (patchConfig order1 data mountFlags mountUUID).1 mountFlags
        mountUUID).1 =
      (patchConfig order1 data mountFlags mountUUID).1 ++ "\n".toList := by
  -- the first pass
  have hL2 := patchedLines_eq order1 data mountFlags mountUUID hfl (fun h => absurd h hb)
  unfold patchedLines at hL2
  have hout1 := patchConfig_fst order1 data mountFlags mountUUID
  obtain ⟨out1, hout⟩ : ∃ x, x = (patchConfig order1 data mountFlags mountUUID).1 := ⟨_, rfl⟩
  rw [← hout] at hL2 hout1 ⊢
  have hcdL : ∀ l ∈ Split data '\n', lineKey l ≠ some "disk_cache.cache_dir".toList := by
    intro l hl hk
    exact hb (List.mem_filterMap.2 ⟨l, hl, hk⟩)
  have hRmem : ∀ e ∈ order1.iter (restMapOf data mountFlags),
      e ∈ flagEntries mountFlags ∧ e.1 ∉ baseKeys data :=
    fun e he => restMapOf_mem_flag data mountFlags e (((order1.perm _).mem_iff).1 he)
  have hA : ((order1.iter (restMapOf data mountFlags)).map kvLine).filterMap lineEntry =
      order1.iter (restMapOf data mountFlags) := by
    apply filterMap_map_of_some
    intro e he
    exact lineEntry_kvLine e.1 e.2 (restMapOf_key_no_eq order1 data mountFlags e he)
      (hfk e (hRmem e he).1).2
  have hempty : lineEntry ([] : Str) = none := by decide
  have hE2 : baseEntries out1 =
      (outLines mountUUID (configMapOf data mountFlags) (Split data '\n')).filterMap lineEntry ++
        order1.iter (restMapOf data mountFlags) := by
    unfold baseEntries
    rw [hL2, List.filterMap_append, List.filterMap_append]
    unfold restMapOf at hA
    rw [hA]
    simp [List.filterMap_cons, hempty, restMapOf]
  have hnodupR : GoMap.keys (order1.iter (restMapOf data mountFlags)) |>.Nodup :=
    (((order1.perm _).map Prod.fst).nodup_iff).2 (restMapOf_nodup data mountFlags)
  have hgetR : ∀ k, GoMap.get (order1.iter (restMapOf data mountFlags)) k =
      if k ∈ baseKeys data then none else (configMapOf data mountFlags).get k := by
    intro k
    rw [GoMap.get_perm _ _ (order1.perm _) (restMapOf_nodup data mountFlags), restMapOf_get]
  -- the mapping of the second pass agrees with that of the first
  have hM2 : ∀ k, (configMapOf out1 mountFlags).get k = (configMapOf data mountFlags).get k := by
    intro k
    rw [configMapOf_get, configMapOf_get]
    cases hl : lastValue (flagEntries mountFlags) k with
    | some w => rfl
    | none =>
      simp only []
      have hMk : (configMapOf data mountFlags).get k = lastValue (baseEntries data) k := by
        rw [configMapOf_get, hl]
      rw [hE2, lastValue_append, lastValue_eq_get _ k hnodupR, hgetR k]
      have hR : (if k ∈ baseKeys data then none else (configMapOf data mountFlags).get k) =
          none := by
        by_cases hk : k ∈ baseKeys data
        · rw [if_pos hk]
        · rw [if_neg hk, hMk, lastValue_baseEntries_none data k hk]
      rw [hR]
      simp only []
      exact lastValue_entries_outLines mountUUID _ _ k hcdL (Or.inr hMk)
  have hfirst : ∀ k, GoMap.get (baseEntries out1) k = (configMapOf data mountFlags).get k := by
    intro k
    rw [hE2, GoMap.get_append, get_entries_outLines mountUUID _ _ k hcdL, hgetR k]
    by_cases hk : k ∈ baseKeys data
    · have hsome : ∃ w, (configMapOf data mountFlags).get k = some w := by
        rw [configMapOf_get]
        cases hl : lastValue (flagEntries mountFlags) k with
        | some w => exact ⟨w, rfl⟩
        | none => exact lastValue_baseEntries_some data k hk
      obtain ⟨w, hw⟩ := hsome
      cases hg : GoMap.get (List.filterMap lineEntry (Split data '\n')) k with
      | none => exact absurd hk ((get_entries_none _ k).1 hg)
      | some v => simp [hw]
    · rw [(get_entries_none _ k).2 hk, if_neg hk]
  -- the second pass
  have hkeys2 : (Split out1 '\n').filterMap lineKey = GoMap.keys (baseEntries out1) := by
    unfold baseEntries; exact filterMap_lineKey_eq _
  have hcd2 : ∀ l ∈ Split out1 '\n', lineKey l ≠ some "disk_cache.cache_dir".toList := by
    intro l hl hk
    have hmem : "disk_cache.cache_dir".toList ∈ (Split out1 '\n').filterMap lineKey :=
      List.mem_filterMap.2 ⟨l, hl, hk⟩
    rw [hkeys2] at hmem
    have hne : GoMap.get (baseEntries out1) "disk_cache.cache_dir".toList ≠ none :=
      fun hn => (GoMap.get_none_iff _ _).1 hn hmem
    rw [hfirst, configMapOf_get] at hne
    cases hl : lastValue (flagEntries mountFlags) "disk_cache.cache_dir".toList with
    | some w => exact (hfk _ (lastValue_mem _ _ _ hl)).1 rfl
    | none =>
      rw [hl] at hne
      exact hne (lastValue_baseEntries_none data _ hb)
  have hG1 : outLines mountUUID (configMapOf out1 mountFlags) (Split out1 '\n') =
      Split out1 '\n' := by
    apply outLines_fixed mountUUID _ _ hcd2
    intro k v hg
    right
    rw [hM2, ← hfirst]
    exact hg
  have hG2 : (Split out1 '\n').foldl outMap (configMapOf out1 mountFlags) = [] := by
    apply GoMap.eq_nil_of_get
    intro k
    rw [foldl_outMap_get]
    by_cases hk : k ∈ (Split out1 '\n').filterMap lineKey
    · rw [if_pos hk]
    · rw [if_neg hk, hM2, ← hfirst]
      rw [hkeys2] at hk
      exact (GoMap.get_none_iff _ k).2 hk
  rw [patchConfig_fst order2 out1 mountFlags mountUUID, hG1, hG2,
    List.Perm.eq_nil (order2.perm [])]
  rw [hL2, hout1]
  simp [terminate_append, terminate]

theorem second_pass_adds_newline_witness :
    (patchConfig MapOrder.reversed
        (patchConfig MapOrder.stored "a=1\n#c".toList ["a=2".toList, "z=9".toList]
          "u1".toList).1 ["a=2".toList, "z=9".toList] "u1".toList).1 =
      (patchConfig MapOrder.stored "a=1\n#c".toList ["a=2".toList, "z=9".toList]
        "u1".toList).1 ++ "\n".toList :=
  second_pass_adds_newline MapOrder.stored MapOrder.reversed "a=1\n#c".toList
    ["a=2".toList, "z=9".toList] "u1".toList (by decide) (by decide) (by decide)

/-- C4 (as stated) fails: the base `a=1` has no `disk_cache.cache_dir` entry,
and without any mount flag the first pass gives `a=1` and a newline while the
second pass gives `a=1` and two newlines.  A mount flag with key
`disk_cache.cache_dir`, with a key starting with `#`, or with a newline makes
the two passes differ by more than that. -/
theorem second_pass_differs :
    "disk_cache.cache_dir".toList ∉ baseKeys "a=1".toList ∧
    (patchConfig MapOrder.stored "a=1".toList [] "u1".toList).1 = "a=1\n".toList ∧
    (patchConfig MapOrder.stored (patchConfig MapOrder.stored "a=1".toList [] "u1".toList).1
      [] "u1".toList).1 = "a=1\n\n".toList ∧
    (patchConfig MapOrder.stored (patchConfig MapOrder.stored "a=1".toList [] "u1".toList).1
      [] "u1".toList).1 ≠ (patchConfig MapOrder.stored "a=1".toList [] "u1".toList).1 ∧
    (patchConfig MapOrder.stored
      (patchConfig MapOrder.stored [] ["disk_cache.cache_dir=/d".toList] "u1".toList).1
      ["disk_cache.cache_dir=/d".toList] "u1".toList).1 =
      "\ndisk_cache.cache_dir=/d/u1\n\n".toList ∧
    (patchConfig MapOrder.stored
      (patchConfig MapOrder.stored [] ["#k=v".toList] "u1".toList).1
      ["#k=v".toList] "u1".toList).1 = "\n#k=v\n\n#k=v\n".toList ∧
    (patchConfig MapOrder.stored
      (patchConfig MapOrder.stored [] ["k=a\nb=c".toList] "u1".toList).1
      ["k=a\nb=c".toList] "u1".toList).1 = "\nk=a\nb=c\nb=c\n\n".toList := by
  decide

/-! ## Comment lines and lines without `=` -/

theorem Split_tail_mem (x s l : Str) (h : l ∈ Split s '\n') :
    l ∈ (Split (x ++ '\n' :: s) '\n').tail := by
  induction x with
  | nil => simpa [Split] using h
  | cons c cs ih =>
    simp only [List.cons_append]
    unfold Split
    by_cases hc : c = '\n'
    · simp only [if_pos hc, List.tail_cons]
      exact List.mem_of_mem_tail ih
    · simp only [if_neg hc]
      cases hs : Split (cs ++ '\n' :: s) '\n' with
      | nil => exact absurd hs (Split_ne_nil _ _)
      | cons y ys =>
        rw [hs] at ih
        simpa using ih

theorem mem_Split_terminate_append (xs : List Str) (s l : Str) (h : l ∈ Split s '\n') :
    l ∈ Split (terminate xs ++ s) '\n' := by
  induction xs with
  | nil => simpa [terminate] using h
  | cons x rest ih =>
    simp only [terminate, List.append_assoc, List.cons_append]
    exact List.mem_of_mem_tail (Split_tail_mem x _ l ih)

/-- A written text without newline is a line of the content. -/
theorem mem_Split_terminate (xs ys : List Str) (c : Str) (h : '\n' ∉ c) :
    c ∈ Split (terminate (xs ++ c :: ys)) '\n' := by
  rw [terminate_append]
  apply mem_Split_terminate_append
  simp only [terminate]
  rw [Split_append_sep c _ '\n' h]
  simp

/-- C11 (amended): a line of the base that starts with `#` or has no `=` is
written unchanged as the text of the write with the same index, whatever the
mount flags are, and is a line of the patched content; it is found at the
same line index when neither the mount id nor a mount flag contains a
newline. -/
theorem verbatim_line_kept (order : MapOrder) (data : Str) (mountFlags : List Str)
    (mountUUID : Str) (i : Nat) (line : Str)
    (hi : (Split data '\n')[i]? = some line)
    (hv : HasPrefix line "#".toList = true ∨ Contains line '=' = false) :
    (∃ writes, (patchConfig order data mountFlags mountUUID).1 = terminate writes ∧
      writes[i]? = some line) ∧
    line ∈ patchedLines order data mountFlags mountUUID ∧
    ((∀ f ∈ mountFlags, '\n' ∉ f) → '\n' ∉ mountUUID →
      (patchedLines order data mountFlags mountUUID)[i]? = some line) := by
  have hver : isVerbatim line = true := by
    unfold isVerbatim
    rcases hv with h | h
    · rw [h]; rfl
    · rw [h]; simp
  have he : lineEntry line = none := (lineEntry_none line).2 hver
  have hlt : i < (Split data '\n').length := by
    by_contra hge
    rw [List.getElem?_eq_none (by omega)] at hi
    cases hi
  have hw : (outLines mountUUID (configMapOf data mountFlags) (Split data '\n'))[i]? =
      some line := by
    rw [outLines_getElem? mountUUID _ _ i line hi, outLine_entry_none _ _ _ he]
  refine ⟨⟨_, patchConfig_fst order data mountFlags mountUUID, ?_⟩, ?_, ?_⟩
  · rw [List.getElem?_append_left (by rw [outLines_length]; exact hlt)]
    exact hw
  · unfold patchedLines
    rw [patchConfig_fst]
    have hsplit := split_at_index _ i _ hw
    have hnl : '\n' ∉ line :=
      Split_no_sep data '\n' line (List.mem_iff_getElem?.2 ⟨i, hi⟩)
    rw [hsplit, List.append_assoc, List.cons_append]
    exact mem_Split_terminate _ _ line hnl
  · intro hfl hu
    rw [patchedLines_base_index order data mountFlags mountUUID i line hfl hu hi,
      outLine_entry_none _ _ _ he]

theorem verbatim_line_kept_witness :
    (patchedLines MapOrder.stored "a=1\n#k=1\nplain".toList ["#k=v".toList, "k=2".toList]
      "u1".toList)[1]? = some "#k=1".toList :=
  (verbatim_line_kept MapOrder.stored "a=1\n#k=1\nplain".toList ["#k=v".toList, "k=2".toList]
    "u1".toList 1 "#k=1".toList (by decide) (Or.inl (by decide))).2.2 (by decide) (by decide)

/-- C11 (as stated) fails: a mount flag whose value contains a newline
replaces the first line by two lines, so the comment line of index 1 is found
at index 2. -/
theorem verbatim_line_index_shifted :
    (Split "a=1\n#c".toList '\n')[1]? = some "#c".toList ∧
    HasPrefix "#c".toList "#".toList = true ∧
    patchedLines MapOrder.stored "a=1\n#c".toList ["a=x\ny".toList] "u1".toList =
      ["a=x".toList, "y".toList, "#c".toList, []] ∧
    (patchedLines MapOrder.stored "a=1\n#c".toList ["a=x\ny".toList] "u1".toList)[1]? ≠
      some "#c".toList := by
  decide

/-! ## The shape of the patched content -/

theorem terminate_Split (s : Str) : terminate (Split s '\n') = s ++ ['\n'] := by
  induction s with
  | nil => simp [Split, terminate]
  | cons c cs ih =>
    unfold Split
    by_cases hc : c = '\n'
    · simp only [if_pos hc, terminate, ih]
      simp [hc]
    · simp only [if_neg hc]
      cases hs : Split cs '\n' with
      | nil => exact absurd hs (Split_ne_nil _ _)
      | cons h t =>
        rw [hs] at ih
        simp only [terminate] at ih ⊢
        simp [ih]

theorem Split_length (s : Str) :
    (Split s '\n').length = s.countP (fun c => decide (c = '\n')) + 1 := by
  induction s with
  | nil => simp [Split]
  | cons c cs ih =>
    unfold Split
    by_cases hc : c = '\n'
    · simp [hc, ih]
    · simp only [if_neg hc]
      cases hs : Split cs '\n' with
      | nil => exact absurd hs (Split_ne_nil _ _)
      | cons h t =>
        rw [hs] at ih
        simp only [List.length_cons] at ih ⊢
        rw [List.countP_cons_of_neg _ _ (by simpa using hc)]
        exact ih

theorem countP_terminate (ws : List Str) :
    ws.length ≤ (terminate ws).countP (fun c => decide (c = '\n')) := by
  induction ws with
  | nil => simp [terminate]
  | cons w rest ih =>
    simp only [terminate, List.length_cons, List.countP_append, List.countP_cons, decide_True,
      if_true]
    omega

/-! ## Where the mount id is inserted -/

theorem not_mem_keys_take (lines : List Str) (i : Nat) (k : Str)
    (h : ∀ j l, j < i → lines[j]? = some l → lineKey l ≠ some k) :
    k ∉ (lines.take i).filterMap lineKey := by
  intro hmem
  obtain ⟨l, hl, hlk⟩ := List.mem_filterMap.1 hmem
  obtain ⟨n, hn⟩ := List.mem_iff_getElem?.1 hl
  rw [List.getElem?_take] at hn
  split at hn
  · rename_i hlt
    exact h n l hlt hn hlk
  · cases hn

theorem lastValue_at_last_index (lines : List Str) (i : Nat) (line k v : Str)
    (hi : lines[i]? = some line) (he : lineEntry line = some (k, v))
    (hlater : ∀ j l, i < j → lines[j]? = some l → lineKey l ≠ some k) :
    lastValue (lines.filterMap lineEntry) k = some v := by
  have hsplit := split_at_index lines i line hi
  rw [hsplit, List.filterMap_append, List.filterMap_cons, he, lastValue_append, lastValue]
  have hnone : lastValue (List.filterMap lineEntry (lines.drop (i + 1))) k = none := by
    rw [lastValue_none]
    intro e hmem hek
    obtain ⟨l, hl, hle⟩ := List.mem_filterMap.1 hmem
    obtain ⟨j, hj, hjl⟩ := mem_drop_index _ i l hl
    exact hlater j l hj hjl (by simp [lineKey, hle, hek])
  rw [hnone]
  simp

/-! ## How the mount flags are read -/

theorem applyFlag_of_no_eq (st : GoMap × Bool) (flag : Str) (h : '=' ∉ flag) :
    applyFlag st flag = st := by
  unfold applyFlag SplitN2
  rw [(cutAt_none '=' flag).2 h]
  simp

theorem outLine_congr (mountUUID : Str) (m1 m2 : GoMap) (line : Str)
    (h : ∀ k, m1.get k = m2.get k) : outLine mountUUID m1 line = outLine mountUUID m2 line := by
  unfold outLine
  cases lineEntry line with
  | none => rfl
  | some p => obtain ⟨k, v⟩ := p; simp only []; rw [h k]

theorem outLines_congr (mountUUID : Str) (lines : List Str) (m1 m2 : GoMap)
    (h : ∀ k, m1.get k = m2.get k) :
    outLines mountUUID m1 lines = outLines mountUUID m2 lines := by
  induction lines generalizing m1 m2 with
  | nil => rfl
  | cons l ls ih =>
    simp only [outLines]
    rw [outLine_congr mountUUID m1 m2 l h]
    rw [ih (outMap m1 l) (outMap m2 l) (fun k => by rw [outMap_get, outMap_get, h k])]

theorem GoMap.perm_of_get_eq (m1 m2 : GoMap) (h1 : m1.keys.Nodup) (h2 : m2.keys.Nodup)
    (h : ∀ k, m1.get k = m2.get k) : m1.Perm m2 := by
  rw [List.perm_ext_iff_of_nodup (List.Nodup.of_map _ h1) (List.Nodup.of_map _ h2)]
  intro e
  constructor
  · intro he
    have := GoMap.get_of_mem m1 e.1 e.2 h1 he
    rw [h] at this
    exact GoMap.mem_of_get m2 e.1 e.2 this
  · intro he
    have := GoMap.get_of_mem m2 e.1 e.2 h2 he
    rw [← h] at this
    exact GoMap.mem_of_get m1 e.1 e.2 this

/-- C19: a mount flag without `=` changes nothing; a flag is cut at its
first `=` only, so its value may contain `=`; the last flag of a key gives
the value of the key; and two lists of flags with the same last-wins mapping
give the same content up to the order of the appended texts. -/
theorem override_parsing (order : MapOrder) (data : Str) (mountUUID : Str) :
    (∀ (before after : List Str) (flag : Str), '=' ∉ flag →
      patchConfig order data (before ++ flag :: after) mountUUID =
        patchConfig order data (before ++ after) mountUUID) ∧
    (∀ (k v : Str), '=' ∉ k → flagEntry (k ++ "=".toList ++ v) = some (k, v)) ∧
    (∀ (mountFlags : List Str) (k v : Str), '=' ∉ k →
      (configMapOf data (mountFlags ++ [k ++ "=".toList ++ v])).get k = some v) ∧
    (∀ (mountFlags : List Str) (k : Str),
      (configMapOf data mountFlags).get k =
        match lastValue (flagEntries mountFlags) k with
        | some v => some v
        | none => lastValue (baseEntries data) k) ∧
    (∀ (order' : MapOrder) (mountFlags mountFlags' : List Str),
      (∀ k, lastValue (flagEntries mountFlags) k = lastValue (flagEntries mountFlags') k) →
      ∃ writes appended appended',
        (patchConfig order data mountFlags mountUUID).1 = terminate (writes ++ appended) ∧
        (patchConfig order' data mountFlags' mountUUID).1 = terminate (writes ++ appended') ∧
        writes.length = (Split data '\n').length ∧
        appended.Perm appended') := by
  have hentry : ∀ (k v : Str), '=' ∉ k → flagEntry (k ++ "=".toList ++ v) = some (k, v) := by
    intro k v hk
    unfold flagEntry
    rw [cutAt_some]
    exact ⟨by simp, hk⟩
  refine ⟨?_, hentry, ?_, fun mountFlags k => configMapOf_get data mountFlags k, ?_⟩
  · intro before after flag hflag
    have hfold : ∀ st, List.foldl applyFlag st (before ++ flag :: after) =
        List.foldl applyFlag st (before ++ after) := by
      intro st
      rw [List.foldl_append, List.foldl_cons, applyFlag_of_no_eq _ flag hflag,
        ← List.foldl_append]
    unfold patchConfig
    simp only [hfold]
  · intro mountFlags k v hk
    rw [configMapOf_get]
    unfold flagEntries
    rw [List.filterMap_append, lastValue_append, List.filterMap_cons, hentry k v hk]
    simp [lastValue]
  · intro order' mountFlags mountFlags' hsame
    have hM : ∀ k, (configMapOf data mountFlags).get k = (configMapOf data mountFlags').get k := by
      intro k
      rw [configMapOf_get, configMapOf_get, hsame k]
    have hR : ∀ k, (restMapOf data mountFlags).get k = (restMapOf data mountFlags').get k := by
      intro k
      rw [restMapOf_get, restMapOf_get, hM k]
    have hperm := GoMap.perm_of_get_eq _ _ (restMapOf_nodup data mountFlags)
      (restMapOf_nodup data mountFlags') hR
    refine ⟨outLines mountUUID (configMapOf data mountFlags) (Split data '\n'),
      (order.iter (restMapOf data mountFlags)).map kvLine,
      (order'.iter (restMapOf data mountFlags')).map kvLine,
      patchConfig_fst order data mountFlags mountUUID, ?_, outLines_length _ _ _, ?_⟩
    · rw [patchConfig_fst, outLines_congr mountUUID _ _ _ hM]
      rfl
    · exact (((order.perm _).trans hperm).trans (order'.perm _).symm).map kvLine

theorem override_parsing_witness :
    patchConfig MapOrder.stored "a=1".toList ["a=2".toList, "noequals".toList, "z=9".toList]
        "u1".toList =
      patchConfig MapOrder.stored "a=1".toList ["a=2".toList, "z=9".toList] "u1".toList ∧
    (configMapOf "a=1".toList (["a=2".toList] ++ ["a".toList ++ "=".toList ++ "b=c".toList])).get
      "a".toList = some "b=c".toList :=
  ⟨(override_parsing MapOrder.stored "a=1".toList "u1".toList).1 ["a=2".toList] ["z=9".toList]
      "noequals".toList (by decide),
    (override_parsing MapOrder.stored "a=1".toList "u1".toList).2.2.1 ["a=2".toList]
      "a".toList "b=c".toList (by decide)⟩

/-! ## The command lines -/

theorem foldl_flagArg (dashes : Str) (es : GoMap) (init : List Str) :
    es.foldl (fun args kv => args ++ [flagArg dashes kv]) init =
      init ++ es.map (flagArg dashes) := by
  induction es generalizing init with
  | nil => simp
  | cons e rest ih => rw [List.foldl_cons, ih]; simp

theorem CreateFs_of_valid (env : Env) (ct : curvefsTool) (volumeID : Str) (params : GoMap)
    (h1 : (validateCommonParams ct params).2 = none)
    (h2 : (validateCreateFsParams (validateCommonParams ct params).1 params).2 = none) :
    (CreateFs env ct volumeID params).state =
      ⟨(validateCreateFsParams (validateCommonParams ct params).1 params).1.toolParams.set
        "fsName".toList volumeID⟩ ∧
    (CreateFs env ct volumeID params).trace =
      [.exec toolPath ("create-fs".toList ::
        (env.order.iter
          ((validateCreateFsParams (validateCommonParams ct params).1 params).1.toolParams.set
            "fsName".toList volumeID)).map (flagArg "-".toList))] := by
  unfold CreateFs
  generalize validateCommonParams ct params = r1 at h1 h2 ⊢
  obtain ⟨ct1, e1⟩ := r1
  simp only [] at h1 h2
  subst h1
  simp only []
  generalize validateCreateFsParams ct1 params = r2 at h2 ⊢
  obtain ⟨ct2, e2⟩ := r2
  simp only [] at h2
  subst h2
  simp only [foldl_flagArg]
  split <;> simp

theorem DeleteFs_of_valid (env : Env) (ct : curvefsTool) (volumeID : Str) (params : GoMap)
    (h1 : (validateCommonParams ct params).2 = none) :
    (DeleteFs env ct volumeID params).state =
      ⟨((validateCommonParams ct params).1.toolParams.set "fsName".toList volumeID).set
        "noconfirm".toList "1".toList⟩ ∧
    (DeleteFs env ct volumeID params).trace =
      [.exec toolPath ("delete-fs".toList ::
        (env.order.iter
          (((validateCommonParams ct params).1.toolParams.set "fsName".toList volumeID).set
            "noconfirm".toList "1".toList)).map (flagArg "-".toList))] := by
  unfold DeleteFs
  generalize validateCommonParams ct params = r1 at h1 ⊢
  obtain ⟨ct1, e1⟩ := r1
  simp only [] at h1
  subst h1
  simp only [foldl_flagArg]
  split <;> simp

theorem GoMap.keys_set_eq (m : GoMap) (k v : Str) :
    (m.set k v).keys = if k ∈ m.keys then m.keys else m.keys ++ [k] := by
  induction m with
  | nil => simp [GoMap.set, GoMap.keys]
  | cons e rest ih =>
    obtain ⟨a, b⟩ := e
    unfold GoMap.keys at ih ⊢
    simp only [GoMap.set]
    by_cases hk : a = k
    · simp [hk]
    · have hk' : ¬ k = a := fun h => hk h.symm
      simp only [hk, if_false, List.map_cons, List.mem_cons, hk', false_or, ih]
      split <;> simp

theorem validateCommonParams_ok (ct : curvefsTool) (params : GoMap)
    (h : (validateCommonParams ct params).2 = none) :
    ∃ mdsAddr, params.get "mdsAddr".toList = some mdsAddr ∧
      (validateCommonParams ct params).1 =
        ⟨(ct.toolParams.set "mdsAddr".toList mdsAddr).set "confPath".toList
          ((params.get "toolConfPath".toList).getD defaultToolExampleConfPath)⟩ := by
  unfold validateCommonParams at h ⊢
  cases h1 : params.get "mdsAddr".toList with
  | none => rw [h1] at h; simp at h
  | some m =>
    refine ⟨m, rfl, ?_⟩
    cases h2 : params.get "toolConfPath".toList <;> simp

theorem validateCreateFsParams_s3_ok (ct : curvefsTool) (params : GoMap)
    (hfs : params.get "fsType".toList = some "s3".toList)
    (h : (validateCreateFsParams ct params).2 = none) :
    ∃ e a s b, params.get "s3Endpoint".toList = some e ∧
      params.get "s3AccessKey".toList = some a ∧ params.get "s3SecretKey".toList = some s ∧
      params.get "s3Bucket".toList = some b ∧
      (validateCreateFsParams ct params).1 =
        ⟨((((((ct.toolParams.set "fsType".toList "s3".toList).set "enableSumInDir".toList
          ((params.get "enableSumInDir".toList).getD "0".toList)).set "s3_endpoint".toList e).set
          "s3_ak".toList a).set "s3_sk".toList s).set "s3_bucket_name".toList b)⟩ := by
  unfold validateCreateFsParams at h ⊢
  rw [hfs] at h ⊢
  simp only [if_true] at h ⊢
  cases h1 : params.get "s3Endpoint".toList <;> cases h2 : params.get "s3AccessKey".toList <;>
    cases h3 : params.get "s3SecretKey".toList <;> cases h4 : params.get "s3Bucket".toList <;>
    rw [h1, h2, h3, h4] at h <;> simp at h
  refine ⟨_, _, _, _, rfl, rfl, rfl, rfl, ?_⟩
  cases h5 : params.get "enableSumInDir".toList <;> simp

/-- C12: when validation passes, `CreateFs` runs the tool with `create-fs`
followed by a permutation of one argument `-k=v` per entry of the flag
mapping, in which `fsName` is the volume id; `DeleteFs` does the same with
`delete-fs`, `fsName` the volume id and `noconfirm` equal to `1`.  On a
freshly constructed tool with `fsType` equal to `s3` the keys of the flag
mapping of `CreateFs` are mdsAddr, confPath, fsType, enableSumInDir,
s3_endpoint, s3_ak, s3_sk, s3_bucket_name, fsName. -/
theorem tool_command_line (env : Env) (ct : curvefsTool) (volumeID : Str) (params : GoMap) :
    ((validateCommonParams ct params).2 = none →
      (validateCreateFsParams (validateCommonParams ct params).1 params).2 = none →
      ∃ rest,
        (CreateFs env ct volumeID params).trace =
          [.exec toolPath ("create-fs".toList :: rest)] ∧
        rest.Perm ((CreateFs env ct volumeID params).state.toolParams.map
          (fun kv => "-".toList ++ kv.1 ++ "=".toList ++ kv.2)) ∧
        (CreateFs env ct volumeID params).state.toolParams.get "fsName".toList =
          some volumeID) ∧
    ((validateCommonParams ct params).2 = none →
      ∃ rest,
        (DeleteFs env ct volumeID params).trace =
          [.exec toolPath ("delete-fs".toList :: rest)] ∧
        rest.Perm ((DeleteFs env ct volumeID params).state.toolParams.map
          (fun kv => "-".toList ++ kv.1 ++ "=".toList ++ kv.2)) ∧
        (DeleteFs env ct volumeID params).state.toolParams.get "fsName".toList =
          some volumeID ∧
        (DeleteFs env ct volumeID params).state.toolParams.get "noconfirm".toList =
          some "1".toList) ∧
    (params.get "fsType".toList = some "s3".toList →
      (validateCommonParams NewCurvefsTool params).2 = none →
      (validateCreateFsParams (validateCommonParams NewCurvefsTool params).1 params).2 = none →
      (CreateFs env NewCurvefsTool volumeID params).state.toolParams.keys =
        ["mdsAddr".toList, "confPath".toList, "fsType".toList, "enableSumInDir".toList,
          "s3_endpoint".toList, "s3_ak".toList, "s3_sk".toList, "s3_bucket_name".toList,
          "fsName".toList]) := by
  refine ⟨?_, ?_, ?_⟩
  · intro h1 h2
    obtain ⟨hs, ht⟩ := CreateFs_of_valid env ct volumeID params h1 h2
    refine ⟨_, ht, ?_, ?_⟩
    · rw [hs]
      exact (env.order.perm _).map _
    · rw [hs]
      exact GoMap.get_set_self _ _ _
  · intro h1
    obtain ⟨hs, ht⟩ := DeleteFs_of_valid env ct volumeID params h1
    refine ⟨_, ht, ?_, ?_, ?_⟩
    · rw [hs]
      exact (env.order.perm _).map _
    · rw [hs]
      simp [GoMap.get_set]
    · rw [hs]
      exact GoMap.get_set_self _ _ _
  · intro hfs h1 h2
    rw [(CreateFs_of_valid env NewCurvefsTool volumeID params h1 h2).1]
    obtain ⟨m, _, hc⟩ := validateCommonParams_ok NewCurvefsTool params h1
    rw [hc] at h2 ⊢
    obtain ⟨e, a, s, b, _, _, _, _, hv⟩ := validateCreateFsParams_s3_ok _ params hfs h2
    rw [hv]
    simp only [GoMap.keys_set_eq, NewCurvefsTool]
    simp [GoMap.keys]

theorem tool_command_line_witness :
    ∃ rest,
      (CreateFs (Env.allOk []) NewCurvefsTool "vol1".toList
        [("mdsAddr".toList, "1.1.1.1:6700".toList), ("fsType".toList, "s3".toList),
          ("s3Endpoint".toList, "http://s3".toList), ("s3AccessKey".toList, "ak".toList),
          ("s3SecretKey".toList, "sk".toList), ("s3Bucket".toList, "b".toList)]).trace =
        [.exec toolPath ("create-fs".toList :: rest)] :=
  match (tool_command_line (Env.allOk []) NewCurvefsTool "vol1".toList
      [("mdsAddr".toList, "1.1.1.1:6700".toList), ("fsType".toList, "s3".toList),
        ("s3Endpoint".toList, "http://s3".toList), ("s3AccessKey".toList, "ak".toList),
        ("s3SecretKey".toList, "sk".toList), ("s3Bucket".toList, "b".toList)]).1
      (by decide) (by decide) with
  | ⟨rest, h, _, _⟩ => ⟨rest, h⟩

theorem foldl_mountBlock (es : GoMap) (init : List Str) :
    es.foldl (fun args kv =>
        if (GoMap.get [("mdsaddr".toList, [])] kv.1).isSome then
          args ++ [flagArg "--".toList kv]
        else args ++ ["-o".toList] ++ [flagArg [] kv]) init =
      init ++ (es.map mountBlock).flatten := by
  induction es generalizing init with
  | nil => simp
  | cons e rest ih =>
    rw [List.foldl_cons, ih]
    by_cases hc : (GoMap.get [("mdsaddr".toList, [])] e.1).isSome = true
    · simp only [List.map_cons, List.flatten_cons, mountBlock, if_pos hc]
      simp
    · simp only [List.map_cons, List.flatten_cons, mountBlock, if_neg hc]
      simp

theorem mountFsArgs_eq (order : MapOrder) (mounterParams : GoMap) (mountPath : Str) :
    mountFsArgs order mounterParams mountPath =
      ["-o".toList, "default_permissions".toList, "-o".toList, "allow_other".toList] ++
        ((order.iter mounterParams).map mountBlock).flatten ++ [mountPath] := by
  unfold mountFsArgs
  simp only [foldl_mountBlock]
  simp

theorem validateMountFsParams_ok (cm : curvefsMounter) (params : GoMap)
    (h : (validateMountFsParams cm params).2 = none) :
    ∃ mdsAddr fsType, params.get "mdsAddr".toList = some mdsAddr ∧
      params.get "fsType".toList = some fsType ∧
      (validateMountFsParams cm params).1 =
        ⟨((cm.mounterParams.set "mdsaddr".toList mdsAddr).set "conf".toList
          ((params.get "clientConfPath".toList).getD defaultClientExampleConfPath)).set
          "fstype".toList fsType⟩ := by
  unfold validateMountFsParams at h ⊢
  cases h1 : params.get "mdsAddr".toList with
  | none => rw [h1] at h; simp at h
  | some m =>
    rw [h1] at h
    cases h2 : params.get "fsType".toList with
    | none => rw [h2] at h; simp at h
    | some t =>
      refine ⟨m, t, rfl, rfl, ?_⟩
      cases h3 : params.get "clientConfPath".toList <;> simp

theorem MountFs_no_option (env : Env) (cm : curvefsMounter) (fsname mountPath : Str)
    (params : GoMap) (mountUUID : Str) (h : (validateMountFsParams cm params).2 = none) :
    (MountFs env cm fsname mountPath params none mountUUID).state =
      ⟨(validateMountFsParams cm params).1.mounterParams.set "fsname".toList fsname⟩ ∧
    (MountFs env cm fsname mountPath params none mountUUID).trace =
      [.exec clientPath (mountFsArgs env.order
        ((validateMountFsParams cm params).1.mounterParams.set "fsname".toList fsname)
        mountPath)] := by
  unfold MountFs
  generalize validateMountFsParams cm params = r at h ⊢
  obtain ⟨cm1, e1⟩ := r
  simp only [] at h
  subst h
  simp only []
  split <;> simp

/-- C13: on a freshly constructed mounter and without mount options, when
validation passes, `MountFs` runs the client with `-o`, `default_permissions`,
`-o`, `allow_other`, then, in some order, the single argument
`--mdsaddr=<mdsAddr>` and the pairs `-o`, `conf=..`, `-o`, `fstype=..` and
`-o`, `fsname=..`, and last the mount path; no pair `-o`, `mdsaddr=..` is
built. -/
theorem fuse_command_line (env : Env) (fsname mountPath : Str) (params : GoMap)
    (mountUUID : Str) (h : (validateMountFsParams NewCurvefsMounter params).2 = none) :
    ∃ (mdsAddr fsType : Str) (blocks : List (List Str)),
      params.get "mdsAddr".toList = some mdsAddr ∧
      params.get "fsType".toList = some fsType ∧
      (MountFs env NewCurvefsMounter fsname mountPath params none mountUUID).trace =
        [.exec clientPath
          (["-o".toList, "default_permissions".toList, "-o".toList, "allow_other".toList] ++
            blocks.flatten ++ [mountPath])] ∧
      blocks.Perm
        [["--mdsaddr=".toList ++ mdsAddr],
          ["-o".toList, "conf=".toList ++
            (params.get "clientConfPath".toList).getD defaultClientExampleConfPath],
          ["-o".toList, "fstype=".toList ++ fsType],
          ["-o".toList, "fsname=".toList ++ fsname]] ∧
      (∀ v, ["-o".toList, "mdsaddr=".toList ++ v] ∉ blocks) := by
  obtain ⟨mds, t, hm, ht, hv⟩ := validateMountFsParams_ok NewCurvefsMounter params h
  obtain ⟨_, htr⟩ := MountFs_no_option env NewCurvefsMounter fsname mountPath params mountUUID h
  rw [hv, mountFsArgs_eq] at htr
  have hblocks : List.map mountBlock
      ((((NewCurvefsMounter.mounterParams.set "mdsaddr".toList mds).set "conf".toList
        ((params.get "clientConfPath".toList).getD defaultClientExampleConfPath)).set
        "fstype".toList t).set "fsname".toList fsname) =
      [["--mdsaddr=".toList ++ mds],
        ["-o".toList, "conf=".toList ++
          (params.get "clientConfPath".toList).getD defaultClientExampleConfPath],
        ["-o".toList, "fstype=".toList ++ t],
        ["-o".toList, "fsname=".toList ++ fsname]] := by
    simp [NewCurvefsMounter, GoMap.set, mountBlock, GoMap.get, flagArg]
  have hperm : (List.map mountBlock (env.order.iter
      ((((NewCurvefsMounter.mounterParams.set "mdsaddr".toList mds).set "conf".toList
        ((params.get "clientConfPath".toList).getD defaultClientExampleConfPath)).set
        "fstype".toList t).set "fsname".toList fsname))).Perm _ :=
    (env.order.perm _).map mountBlock
  rw [hblocks] at hperm
  refine ⟨mds, t, _, hm, ht, htr, hperm, ?_⟩
  intro v hmem
  have := (hperm.mem_iff).1 hmem
  simp at this

theorem fuse_command_line_witness :
    ∃ (mdsAddr fsType : Str) (blocks : List (List Str)),
      GoMap.get [("mdsAddr".toList, "1.1.1.1:6700".toList), ("fsType".toList, "s3".toList)]
        "mdsAddr".toList = some mdsAddr ∧
      GoMap.get [("mdsAddr".toList, "1.1.1.1:6700".toList), ("fsType".toList, "s3".toList)]
        "fsType".toList = some fsType ∧
      (MountFs (Env.allOk []) NewCurvefsMounter "fs1".toList "/mnt".toList
        [("mdsAddr".toList, "1.1.1.1:6700".toList), ("fsType".toList, "s3".toList)] none
        "u1".toList).trace =
        [.exec clientPath
          (["-o".toList, "default_permissions".toList, "-o".toList, "allow_other".toList] ++
            blocks.flatten ++ ["/mnt".toList])] :=
  match fuse_command_line (Env.allOk []) "fs1".toList "/mnt".toList
      [("mdsAddr".toList, "1.1.1.1:6700".toList), ("fsType".toList, "s3".toList)] "u1".toList
      (by decide) with
  | ⟨m, t, blocks, h1, h2, h3, _, _⟩ => ⟨m, t, blocks, h1, h2, h3⟩

/-! ## Per-mount paths -/

/-- C14: whatever the original config path, `applyMountFlags` reads it,
copies it to `/curvefs/conf/client.conf.` + mount id as soon as the read
succeeds, and when the two reads and the two writes succeed it performs, in
order, the read of the original, the write of the copy, the read of the copy
and the write of the patched content to that same path, followed by the
creation of `/curvefs/client/data/cache/` + mount id when the cache is
enabled; it then returns that path unless the creation fails.  No other path
is written and no other directory is created.  `UmountFs` starts the removal
of exactly these two paths when `umount` succeeds and the mount id is not
empty, and starts no removal when the mount id is empty or `umount` fails. -/
theorem per_mount_paths (env : Env) (cm : curvefsMounter)
    (origConfPath targetPath mountUUID : Str) (mountFlags : List Str) :
    (∀ data, env.readOrig origConfPath = .ok data →
      Event.writeFile ("/curvefs/conf/client.conf.".toList ++ mountUUID) data ∈
        (applyMountFlags env origConfPath mountFlags mountUUID).trace) ∧
    (∀ data data', env.readOrig origConfPath = .ok data →
      env.writeCopy ("/curvefs/conf/client.conf.".toList ++ mountUUID) data = none →
      env.readCopy ("/curvefs/conf/client.conf.".toList ++ mountUUID) = .ok data' →
      env.writeNew ("/curvefs/conf/client.conf.".toList ++ mountUUID)
        (patchConfig env.order data' mountFlags mountUUID).1 = none →
      (applyMountFlags env origConfPath mountFlags mountUUID).trace =
        [.readFile origConfPath,
          .writeFile ("/curvefs/conf/client.conf.".toList ++ mountUUID) data,
          .readFile ("/curvefs/conf/client.conf.".toList ++ mountUUID),
          .writeFile ("/curvefs/conf/client.conf.".toList ++ mountUUID)
            (patchConfig env.order data' mountFlags mountUUID).1] ++
          (if (patchConfig env.order data' mountFlags mountUUID).2 = true then
            [.mkdirAll ("/curvefs/client/data/cache/".toList ++ mountUUID)]
          else []) ∧
      (((patchConfig env.order data' mountFlags mountUUID).2 = false ∨
          env.mkdirAll ("/curvefs/client/data/cache/".toList ++ mountUUID) = none) →
        (applyMountFlags env origConfPath mountFlags mountUUID).err = none ∧
        (applyMountFlags env origConfPath mountFlags mountUUID).confPath =
          "/curvefs/conf/client.conf.".toList ++ mountUUID)) ∧
    (∀ p d, Event.writeFile p d ∈ (applyMountFlags env origConfPath mountFlags mountUUID).trace →
      p = "/curvefs/conf/client.conf.".toList ++ mountUUID) ∧
    ((applyMountFlags env origConfPath mountFlags mountUUID).err = none →
      (applyMountFlags env origConfPath mountFlags mountUUID).confPath =
        "/curvefs/conf/client.conf.".toList ++ mountUUID) ∧
    (∀ p, Event.mkdirAll p ∈ (applyMountFlags env origConfPath mountFlags mountUUID).trace →
      p = "/curvefs/client/data/cache/".toList ++ mountUUID) ∧
    ((env.exec "umount".toList [targetPath]).err = none → mountUUID ≠ [] →
      (UmountFs env cm targetPath mountUUID).err = none ∧
      (UmountFs env cm targetPath mountUUID).trace =
        [.exec "umount".toList [targetPath],
          .goRemove ("/curvefs/conf/client.conf.".toList ++ mountUUID),
          .goRemoveAll ("/curvefs/client/data/cache/".toList ++ mountUUID)]) ∧
    ((mountUUID = [] ∨ (env.exec "umount".toList [targetPath]).err ≠ none) →
      (UmountFs env cm targetPath mountUUID).trace = [.exec "umount".toList [targetPath]]) := by
  have hconf : defaultClientExampleConfPath ++ ".".toList ++ mountUUID =
      "/curvefs/conf/client.conf.".toList ++ mountUUID := by
    simp [defaultClientExampleConfPath]
  have hcache : cacheDirPrefix ++ mountUUID =
      "/curvefs/client/data/cache/".toList ++ mountUUID := rfl
  have hcopy : ∀ data, env.readOrig origConfPath = .ok data →
      Event.writeFile (defaultClientExampleConfPath ++ ".".toList ++ mountUUID) data ∈
        (applyMountFlags env origConfPath mountFlags mountUUID).trace := by
    intro data h1
    unfold applyMountFlags
    simp only [h1]
    cases h2 : env.writeCopy (defaultClientExampleConfPath ++ ".".toList ++ mountUUID) data with
    | some msg => simp
    | none =>
      cases h3 : env.readCopy (defaultClientExampleConfPath ++ ".".toList ++ mountUUID) with
      | error msg => simp
      | ok data' =>
        simp only []
        generalize patchConfig env.order data' mountFlags mountUUID = r
        obtain ⟨newData, cacheEnabled⟩ := r
        simp only []
        cases h4 : env.writeNew (defaultClientExampleConfPath ++ ".".toList ++ mountUUID)
            newData with
        | some msg => simp
        | none =>
          cases cacheEnabled with
          | false => simp
          | true =>
            cases h5 : env.mkdirAll (cacheDirPrefix ++ mountUUID) with
            | none => simp
            | some msg => simp
  have hfull : ∀ data data', env.readOrig origConfPath = .ok data →
      env.writeCopy (defaultClientExampleConfPath ++ ".".toList ++ mountUUID) data = none →
      env.readCopy (defaultClientExampleConfPath ++ ".".toList ++ mountUUID) = .ok data' →
      env.writeNew (defaultClientExampleConfPath ++ ".".toList ++ mountUUID)
        (patchConfig env.order data' mountFlags mountUUID).1 = none →
      (applyMountFlags env origConfPath mountFlags mountUUID).trace =
        [.readFile origConfPath,
          .writeFile (defaultClientExampleConfPath ++ ".".toList ++ mountUUID) data,
          .readFile (defaultClientExampleConfPath ++ ".".toList ++ mountUUID),
          .writeFile (defaultClientExampleConfPath ++ ".".toList ++ mountUUID)
            (patchConfig env.order data' mountFlags mountUUID).1] ++
          (if (patchConfig env.order data' mountFlags mountUUID).2 = true then
            [.mkdirAll (cacheDirPrefix ++ mountUUID)]
          else []) ∧
      (((patchConfig env.order data' mountFlags mountUUID).2 = false ∨
          env.mkdirAll (cacheDirPrefix ++ mountUUID) = none) →
        (applyMountFlags env origConfPath mountFlags mountUUID).err = none ∧
        (applyMountFlags env origConfPath mountFlags mountUUID).confPath =
          defaultClientExampleConfPath ++ ".".toList ++ mountUUID) := by
    intro data data' h1 h2 h3 h4
    unfold applyMountFlags
    simp only [h1, h2, h3]
    generalize patchConfig env.order data' mountFlags mountUUID = r at h4 ⊢
    obtain ⟨newData, cacheEnabled⟩ := r
    simp only [] at h4 ⊢
    rw [h4]
    cases cacheEnabled with
    | false => simp
    | true =>
      cases h5 : env.mkdirAll (cacheDirPrefix ++ mountUUID) with
      | none => simp
      | some msg => simp
  have happly : (∀ p d, Event.writeFile p d ∈
        (applyMountFlags env origConfPath mountFlags mountUUID).trace →
        p = defaultClientExampleConfPath ++ ".".toList ++ mountUUID) ∧
      ((applyMountFlags env origConfPath mountFlags mountUUID).err = none →
        (applyMountFlags env origConfPath mountFlags mountUUID).confPath =
          defaultClientExampleConfPath ++ ".".toList ++ mountUUID) ∧
      (∀ p, Event.mkdirAll p ∈ (applyMountFlags env origConfPath mountFlags mountUUID).trace →
        p = cacheDirPrefix ++ mountUUID) := by
    unfold applyMountFlags
    cases h1 : env.readOrig origConfPath with
    | error msg => simp only [h1]; simp
    | ok data =>
      cases h2 : env.writeCopy (defaultClientExampleConfPath ++ ".".toList ++ mountUUID) data with
      | some msg => simp only [h1, h2]; simp
      | none =>
        cases h3 : env.readCopy (defaultClientExampleConfPath ++ ".".toList ++ mountUUID) with
        | error msg => simp only [h1, h2, h3]; simp
        | ok data' =>
          simp only [h1, h2, h3]
          generalize patchConfig env.order data' mountFlags mountUUID = r
          obtain ⟨newData, cacheEnabled⟩ := r
          simp only []
          cases h4 : env.writeNew (defaultClientExampleConfPath ++ ".".toList ++ mountUUID)
              newData with
          | some msg => simp only [h4]; simp; rintro p d (h | h) <;> exact h.1
          | none =>
            simp only [h4]
            cases cacheEnabled with
            | false => simp; rintro p d (h | h) <;> exact h.1
            | true =>
              cases h5 : env.mkdirAll (cacheDirPrefix ++ mountUUID) with
              | none => simp only [h5]; simp; rintro p d (h | h) <;> exact h.1
              | some msg => simp only [h5]; simp; rintro p d (h | h) <;> exact h.1
  rw [hconf, hcache] at happly
  rw [hconf] at hcopy
  rw [hconf, hcache] at hfull
  refine ⟨hcopy, hfull, happly.1, happly.2.1, happly.2.2, ?_, ?_⟩
  · intro hok hne
    unfold UmountFs
    rw [hok]
    simp [hne, defaultClientExampleConfPath, cacheDirPrefix]
  · intro h
    unfold UmountFs
    rcases h with h | h
    · subst h
      cases (env.exec "umount".toList [targetPath]).err <;> simp
    · cases he : (env.exec "umount".toList [targetPath]).err with
      | none => exact absurd he h
      | some msg => simp

theorem per_mount_paths_witness :
    (applyMountFlags (Env.allOk "a=1".toList) "/etc/orig.conf".toList
      ["diskCache.diskCacheType=2".toList] "u1".toList).trace =
      [.readFile "/etc/orig.conf".toList,
        .writeFile "/curvefs/conf/client.conf.u1".toList "a=1".toList,
        .readFile "/curvefs/conf/client.conf.u1".toList,
        .writeFile "/curvefs/conf/client.conf.u1".toList
          "a=1\ndiskCache.diskCacheType=2\n".toList,
        .mkdirAll "/curvefs/client/data/cache/u1".toList] ∧
    (applyMountFlags (Env.allOk "a=1".toList) "/etc/orig.conf".toList
      ["diskCache.diskCacheType=2".toList] "u1".toList).confPath =
      "/curvefs/conf/client.conf.u1".toList ∧
    (UmountFs (Env.allOk []) NewCurvefsMounter "/mnt".toList "u1".toList).trace =
      [.exec "umount".toList ["/mnt".toList],
        .goRemove "/curvefs/conf/client.conf.u1".toList,
        .goRemoveAll "/curvefs/client/data/cache/u1".toList] :=
  ⟨((per_mount_paths (Env.allOk "a=1".toList) NewCurvefsMounter "/etc/orig.conf".toList
      "/mnt".toList "u1".toList ["diskCache.diskCacheType=2".toList]).2.1 "a=1".toList
      "a=1".toList rfl rfl rfl rfl).1,
    (((per_mount_paths (Env.allOk "a=1".toList) NewCurvefsMounter "/etc/orig.conf".toList
      "/mnt".toList "u1".toList ["diskCache.diskCacheType=2".toList]).2.1 "a=1".toList
      "a=1".toList rfl rfl rfl rfl).2 (Or.inr rfl)).2,
    ((per_mount_paths (Env.allOk []) NewCurvefsMounter "/etc/orig.conf".toList "/mnt".toList
      "u1".toList []).2.2.2.2.2.1 rfl (by decide)).2⟩

/-! ## The flag mapping across calls -/

theorem GoMap.isSome_get_set (m : GoMap) (k v k' : Str) (h : (m.get k').isSome) :
    ((m.set k v).get k').isSome := by
  rw [GoMap.get_set]
  split
  · rfl
  · exact h

/-- The keys that `validateCreateFsParams` assigns. -/
theorem validateCreateFsParams_get_other (ct : curvefsTool) (params : GoMap) (k : Str)
    (hk : k ∉ ["fsType".toList, "enableSumInDir".toList, "s3_endpoint".toList, "s3_ak".toList,
      "s3_sk".toList, "s3_bucket_name".toList, "volumeName".toList, "volumeSize".toList]) :
    (validateCreateFsParams ct params).1.toolParams.get k = ct.toolParams.get k := by
  simp only [List.mem_cons, List.mem_singleton, not_or, List.mem_nil_iff, not_false_eq_true,
    and_true] at hk
  obtain ⟨h1, h2, h3, h4, h5, h6, h7, h8⟩ := hk
  have e1 : ¬ "fsType".toList = k := fun h => h1 h.symm
  have e2 : ¬ "enableSumInDir".toList = k := fun h => h2 h.symm
  have e3 : ¬ "s3_endpoint".toList = k := fun h => h3 h.symm
  have e4 : ¬ "s3_ak".toList = k := fun h => h4 h.symm
  have e5 : ¬ "s3_sk".toList = k := fun h => h5 h.symm
  have e6 : ¬ "s3_bucket_name".toList = k := fun h => h6 h.symm
  have e7 : ¬ "volumeName".toList = k := fun h => h7 h.symm
  have e8 : ¬ "volumeSize".toList = k := fun h => h8 h.symm
  unfold validateCreateFsParams
  repeat' split
  all_goals simp only [GoMap.get_set, if_neg e1, if_neg e2, if_neg e3, if_neg e4, if_neg e5,
    if_neg e6, if_neg e7, if_neg e8]

theorem validateCreateFsParams_isSome (ct : curvefsTool) (params : GoMap) (k : Str)
    (h : (ct.toolParams.get k).isSome) :
    ((validateCreateFsParams ct params).1.toolParams.get k).isSome := by
  unfold validateCreateFsParams
  repeat' split
  all_goals first
    | exact h
    | ((repeat' apply GoMap.isSome_get_set); exact h)

theorem validateCreateFsParams_fsType (ct : curvefsTool) (params : GoMap) (t : Str)
    (h : params.get "fsType".toList = some t) :
    (validateCreateFsParams ct params).1.toolParams.get "fsType".toList = some t ∧
    (validateCreateFsParams ct params).1.toolParams.get "enableSumInDir".toList =
      some ((params.get "enableSumInDir".toList).getD "0".toList) := by
  unfold validateCreateFsParams
  rw [h]
  cases params.get "enableSumInDir".toList <;>
  · simp only []
    repeat' split
    all_goals simp [GoMap.get_set]

theorem validateCreateFsParams_ok_fsType (ct : curvefsTool) (params : GoMap)
    (h : (validateCreateFsParams ct params).2 = none) :
    ∃ t, params.get "fsType".toList = some t := by
  cases ht : params.get "fsType".toList with
  | some t => exact ⟨t, rfl⟩
  | none =>
    unfold validateCreateFsParams at h
    rw [ht] at h
    simp at h

/-! ## Required and optional parameters -/

/-- C15: `validateCreateFsParams` fails with `InvalidArgument` when
`fsType` is absent, when it is neither `s3` nor `volume`, and when it is
`volume` without `backendVolName`; so it succeeds only for `s3` and
`volume`.  `validateMountFsParams` fails with `InvalidArgument` when `fsType`
is absent. -/
theorem fsType_required (ct : curvefsTool) (cm : curvefsMounter) (params : GoMap) :
    (params.get "fsType".toList = none →
      ∃ msg, (validateCreateFsParams ct params).2 = some (.status .InvalidArgument msg)) ∧
    (∀ t, params.get "fsType".toList = some t → t ≠ "s3".toList → t ≠ "volume".toList →
      ∃ msg, (validateCreateFsParams ct params).2 = some (.status .InvalidArgument msg)) ∧
    (params.get "fsType".toList = some "volume".toList →
      params.get "backendVolName".toList = none →
      ∃ msg, (validateCreateFsParams ct params).2 = some (.status .InvalidArgument msg)) ∧
    ((validateCreateFsParams ct params).2 = none →
      params.get "fsType".toList = some "s3".toList ∨
        params.get "fsType".toList = some "volume".toList) ∧
    (params.get "fsType".toList = none →
      ∃ msg, (validateMountFsParams cm params).2 = some (.status .InvalidArgument msg)) := by
  refine ⟨?_, ?_, ?_, ?_, ?_⟩
  · intro h
    unfold validateCreateFsParams
    rw [h]
    exact ⟨_, rfl⟩
  · intro t h h1 h2
    unfold validateCreateFsParams
    rw [h]
    simp only [if_neg h1, if_neg h2]
    exact ⟨_, rfl⟩
  · intro h hn
    unfold validateCreateFsParams
    rw [h]
    have hne : ¬ ("volume".toList = "s3".toList) := by decide
    simp only [if_neg hne, if_true]
    rw [hn]
    exact ⟨_, rfl⟩
  · intro h
    unfold validateCreateFsParams at h
    cases ht : params.get "fsType".toList with
    | none => rw [ht] at h; simp at h
    | some t =>
      rw [ht] at h
      by_cases h1 : t = "s3".toList
      · exact Or.inl (by rw [h1])
      · by_cases h2 : t = "volume".toList
        · exact Or.inr (by rw [h2])
        · simp only [if_neg h1, if_neg h2] at h
          simp at h
  · intro h
    unfold validateMountFsParams
    cases hm : params.get "mdsAddr".toList with
    | none => exact ⟨_, rfl⟩
    | some m =>
      simp only []
      rw [h]
      exact ⟨_, rfl⟩

theorem fsType_required_witness :
    ∃ msg, (validateCreateFsParams NewCurvefsTool
      [("mdsAddr".toList, "1.1.1.1:6700".toList), ("fsType".toList, "nfs".toList)]).2 =
        some (.status .InvalidArgument msg) :=
  (fsType_required NewCurvefsTool NewCurvefsMounter
    [("mdsAddr".toList, "1.1.1.1:6700".toList), ("fsType".toList, "nfs".toList)]).2.1
    "nfs".toList (by decide) (by decide) (by decide)

/-- C16: when validation passes, the tool flag `confPath` is the supplied
`toolConfPath`, or `/curvefs/conf/tools.conf` without one; the tool flag
`enableSumInDir` is the supplied `enableSumInDir`, or `0` without one; the
mounter option `conf` is the supplied `clientConfPath`, or
`/curvefs/conf/client.conf` without one. -/
theorem optional_parameters_defaulted (env : Env) (ct : curvefsTool) (cm : curvefsMounter)
    (volumeID : Str) (params : GoMap) :
    ((validateCommonParams ct params).2 = none →
      (validateCommonParams ct params).1.toolParams.get "confPath".toList =
        some ((params.get "toolConfPath".toList).getD "/curvefs/conf/tools.conf".toList)) ∧
    ((validateCommonParams ct params).2 = none →
      (validateCreateFsParams (validateCommonParams ct params).1 params).2 = none →
      (CreateFs env ct volumeID params).state.toolParams.get "confPath".toList =
        some ((params.get "toolConfPath".toList).getD "/curvefs/conf/tools.conf".toList) ∧
      (CreateFs env ct volumeID params).state.toolParams.get "enableSumInDir".toList =
        some ((params.get "enableSumInDir".toList).getD "0".toList)) ∧
    ((validateCommonParams ct params).2 = none →
      (DeleteFs env ct volumeID params).state.toolParams.get "confPath".toList =
        some ((params.get "toolConfPath".toList).getD "/curvefs/conf/tools.conf".toList)) ∧
    ((validateMountFsParams cm params).2 = none →
      (validateMountFsParams cm params).1.mounterParams.get "conf".toList =
        some ((params.get "clientConfPath".toList).getD "/curvefs/conf/client.conf".toList)) := by
  refine ⟨?_, ?_, ?_, ?_⟩
  · intro h1
    obtain ⟨m, _, hc⟩ := validateCommonParams_ok ct params h1
    rw [hc]
    simp only [GoMap.get_set_self]
    rfl
  · intro h1 h2
    rw [(CreateFs_of_valid env ct volumeID params h1 h2).1]
    obtain ⟨m, _, hc⟩ := validateCommonParams_ok ct params h1
    obtain ⟨t, ht⟩ := validateCreateFsParams_ok_fsType _ params h2
    simp only []
    constructor
    · rw [GoMap.get_set, if_neg (by decide),
        validateCreateFsParams_get_other _ params "confPath".toList (by decide), hc]
      simp only [GoMap.get_set_self]
      rfl
    · rw [GoMap.get_set, if_neg (by decide)]
      exact (validateCreateFsParams_fsType _ params t ht).2
  · intro h1
    rw [(DeleteFs_of_valid env ct volumeID params h1).1]
    obtain ⟨m, _, hc⟩ := validateCommonParams_ok ct params h1
    rw [hc]
    simp [GoMap.get_set, defaultToolExampleConfPath]
  · intro h
    obtain ⟨m, t, _, _, hv⟩ := validateMountFsParams_ok cm params h
    rw [hv]
    simp [GoMap.get_set, defaultClientExampleConfPath]

theorem optional_parameters_defaulted_witness :
    (validateMountFsParams NewCurvefsMounter
      [("mdsAddr".toList, "1.1.1.1:6700".toList), ("fsType".toList, "s3".toList)]).1.mounterParams.get
        "conf".toList = some "/curvefs/conf/client.conf".toList ∧
    (CreateFs (Env.allOk []) NewCurvefsTool "vol1".toList
      [("mdsAddr".toList, "1.1.1.1:6700".toList), ("fsType".toList, "volume".toList),
        ("backendVolName".toList, "v".toList), ("backendVolSizeGB".toList, "10".toList),
        ("toolConfPath".toList, "/etc/t.conf".toList)]).state.toolParams.get
        "confPath".toList = some "/etc/t.conf".toList :=
  ⟨(optional_parameters_defaulted (Env.allOk []) NewCurvefsTool NewCurvefsMounter "vol1".toList
      [("mdsAddr".toList, "1.1.1.1:6700".toList), ("fsType".toList, "s3".toList)]).2.2.2
      (by decide),
    ((optional_parameters_defaulted (Env.allOk []) NewCurvefsTool NewCurvefsMounter
      "vol1".toList
      [("mdsAddr".toList, "1.1.1.1:6700".toList), ("fsType".toList, "volume".toList),
        ("backendVolName".toList, "v".toList), ("backendVolSizeGB".toList, "10".toList),
        ("toolConfPath".toList, "/etc/t.conf".toList)]).2.1 (by decide) (by decide)).1⟩

theorem validateCommonParams_isSome (ct : curvefsTool) (params : GoMap) (k : Str)
    (h : (ct.toolParams.get k).isSome) :
    ((validateCommonParams ct params).1.toolParams.get k).isSome := by
  unfold validateCommonParams
  repeat' split
  all_goals first
    | exact h
    | ((repeat' apply GoMap.isSome_get_set); exact h)

theorem validateCommonParams_get_other (ct : curvefsTool) (params : GoMap) (k : Str)
    (hk : k ∉ ["mdsAddr".toList, "confPath".toList]) :
    (validateCommonParams ct params).1.toolParams.get k = ct.toolParams.get k := by
  simp only [List.mem_cons, List.mem_singleton, not_or, List.mem_nil_iff, not_false_eq_true,
    and_true] at hk
  obtain ⟨h1, h2⟩ := hk
  have e1 : ¬ "mdsAddr".toList = k := fun h => h1 h.symm
  have e2 : ¬ "confPath".toList = k := fun h => h2 h.symm
  unfold validateCommonParams
  repeat' split
  all_goals simp only [GoMap.get_set, if_neg e1, if_neg e2]

theorem CreateFs_of_invalid (env : Env) (ct : curvefsTool) (volumeID : Str) (params : GoMap)
    (h1 : (validateCommonParams ct params).2 = none)
    (h2 : (validateCreateFsParams (validateCommonParams ct params).1 params).2 ≠ none) :
    (CreateFs env ct volumeID params).state =
      (validateCreateFsParams (validateCommonParams ct params).1 params).1 ∧
    (CreateFs env ct volumeID params).trace = [] ∧
    (CreateFs env ct volumeID params).err =
      (validateCreateFsParams (validateCommonParams ct params).1 params).2 := by
  unfold CreateFs
  generalize validateCommonParams ct params = r1 at h1 h2 ⊢
  obtain ⟨ct1, e1⟩ := r1
  simp only [] at h1 h2
  subst h1
  simp only []
  generalize validateCreateFsParams ct1 params = r2 at h2 ⊢
  obtain ⟨ct2, e2⟩ := r2
  cases e2 with
  | none => exact absurd rfl h2
  | some e => exact ⟨rfl, rfl, rfl⟩

theorem CreateFs_of_common_invalid (env : Env) (ct : curvefsTool) (volumeID : Str)
    (params : GoMap) (h1 : (validateCommonParams ct params).2 ≠ none) :
    (CreateFs env ct volumeID params).state = (validateCommonParams ct params).1 := by
  unfold CreateFs
  generalize validateCommonParams ct params = r1 at h1 ⊢
  obtain ⟨ct1, e1⟩ := r1
  cases e1 with
  | none => exact absurd rfl h1
  | some e => rfl

theorem DeleteFs_of_common_invalid (env : Env) (ct : curvefsTool) (volumeID : Str)
    (params : GoMap) (h1 : (validateCommonParams ct params).2 ≠ none) :
    (DeleteFs env ct volumeID params).state = (validateCommonParams ct params).1 := by
  unfold DeleteFs
  generalize validateCommonParams ct params = r1 at h1 ⊢
  obtain ⟨ct1, e1⟩ := r1
  cases e1 with
  | none => exact absurd rfl h1
  | some e => rfl

theorem CreateFs_isSome (env : Env) (ct : curvefsTool) (volumeID : Str) (params : GoMap)
    (k : Str) (h : (ct.toolParams.get k).isSome) :
    ((CreateFs env ct volumeID params).state.toolParams.get k).isSome := by
  have hc := validateCommonParams_isSome ct params k h
  by_cases h1 : (validateCommonParams ct params).2 = none
  · have hv := validateCreateFsParams_isSome (validateCommonParams ct params).1 params k hc
    by_cases h2 : (validateCreateFsParams (validateCommonParams ct params).1 params).2 = none
    · rw [(CreateFs_of_valid env ct volumeID params h1 h2).1]
      exact GoMap.isSome_get_set _ _ _ _ hv
    · rw [(CreateFs_of_invalid env ct volumeID params h1 h2).1]
      exact hv
  · rw [CreateFs_of_common_invalid env ct volumeID params h1]
    exact hc

theorem DeleteFs_isSome (env : Env) (ct : curvefsTool) (volumeID : Str) (params : GoMap)
    (k : Str) (h : (ct.toolParams.get k).isSome) :
    ((DeleteFs env ct volumeID params).state.toolParams.get k).isSome := by
  have hc := validateCommonParams_isSome ct params k h
  by_cases h1 : (validateCommonParams ct params).2 = none
  · rw [(DeleteFs_of_valid env ct volumeID params h1).1]
    exact GoMap.isSome_get_set _ _ _ _ (GoMap.isSome_get_set _ _ _ _ hc)
  · rw [DeleteFs_of_common_invalid env ct volumeID params h1]
    exact hc

/-- C20: every key of the flag mapping before a call of `CreateFs` or
`DeleteFs` is still a key afterwards, whether the call succeeds or not.
(a) A `CreateFs` that passes the common validation, reads `fsType` and then
fails leaves `mdsAddr`, `confPath`, `fsType` and `enableSumInDir` set and
`fsName` as it was, and runs nothing.  (b) A `DeleteFs` on the tool left by a
validated `s3` `CreateFs` passes `-s3_ak=..` and `-s3_sk=..` to `delete-fs`;
on a freshly constructed tool its keys are mdsAddr, confPath, fsName,
noconfirm. -/
theorem flag_mapping_grows (env : Env) (ct : curvefsTool) (volumeID : Str) (params : GoMap) :
    (∀ k, (ct.toolParams.get k).isSome →
      ((CreateFs env ct volumeID params).state.toolParams.get k).isSome ∧
      ((DeleteFs env ct volumeID params).state.toolParams.get k).isSome) ∧
    (∀ t, (validateCommonParams ct params).2 = none →
      params.get "fsType".toList = some t →
      (validateCreateFsParams (validateCommonParams ct params).1 params).2 ≠ none →
      (CreateFs env ct volumeID params).err ≠ none ∧
      (CreateFs env ct volumeID params).trace = [] ∧
      (CreateFs env ct volumeID params).state.toolParams.get "mdsAddr".toList =
        params.get "mdsAddr".toList ∧
      ((CreateFs env ct volumeID params).state.toolParams.get "mdsAddr".toList).isSome ∧
      (CreateFs env ct volumeID params).state.toolParams.get "confPath".toList =
        some ((params.get "toolConfPath".toList).getD "/curvefs/conf/tools.conf".toList) ∧
      (CreateFs env ct volumeID params).state.toolParams.get "fsType".toList = some t ∧
      (CreateFs env ct volumeID params).state.toolParams.get "enableSumInDir".toList =
        some ((params.get "enableSumInDir".toList).getD "0".toList) ∧
      (CreateFs env ct volumeID params).state.toolParams.get "fsName".toList =
        ct.toolParams.get "fsName".toList) ∧
    (∀ (env' : Env) (volumeID' : Str) (params' : GoMap) (ak sk : Str),
      params.get "fsType".toList = some "s3".toList →
      params.get "s3AccessKey".toList = some ak →
      params.get "s3SecretKey".toList = some sk →
      (validateCommonParams ct params).2 = none →
      (validateCreateFsParams (validateCommonParams ct params).1 params).2 = none →
      (validateCommonParams (CreateFs env ct volumeID params).state params').2 = none →
      ∃ rest,
        (DeleteFs env' (CreateFs env ct volumeID params).state volumeID' params').trace =
          [.exec toolPath ("delete-fs".toList :: rest)] ∧
        "-s3_ak=".toList ++ ak ∈ rest ∧ "-s3_sk=".toList ++ sk ∈ rest) ∧
    ((validateCommonParams NewCurvefsTool params).2 = none →
      (DeleteFs env NewCurvefsTool volumeID params).state.toolParams.keys =
        ["mdsAddr".toList, "confPath".toList, "fsName".toList, "noconfirm".toList]) := by
  refine ⟨fun k h => ⟨CreateFs_isSome env ct volumeID params k h,
    DeleteFs_isSome env ct volumeID params k h⟩, ?_, ?_, ?_⟩
  · intro t h1 ht h2
    obtain ⟨hs, htr, herr⟩ := CreateFs_of_invalid env ct volumeID params h1 h2
    obtain ⟨m, hm, hc⟩ := validateCommonParams_ok ct params h1
    have hft := validateCreateFsParams_fsType (validateCommonParams ct params).1 params t ht
    have hmds : (CreateFs env ct volumeID params).state.toolParams.get "mdsAddr".toList =
        params.get "mdsAddr".toList := by
      rw [hs, validateCreateFsParams_get_other _ params "mdsAddr".toList (by decide), hc, hm]
      simp [GoMap.get_set]
    refine ⟨by rw [herr]; exact h2, htr, hmds, by rw [hmds, hm]; rfl, ?_, ?_, ?_, ?_⟩
    · rw [hs, validateCreateFsParams_get_other _ params "confPath".toList (by decide), hc]
      simp only [GoMap.get_set_self]
      rfl
    · rw [hs]; exact hft.1
    · rw [hs]; exact hft.2
    · rw [hs, validateCreateFsParams_get_other _ params "fsName".toList (by decide),
        validateCommonParams_get_other _ params "fsName".toList (by decide)]
  · intro env' volumeID' params' ak sk hfs hak hsk h1 h2 h3
    obtain ⟨hs', htr'⟩ := DeleteFs_of_valid env' _ volumeID' params' h3
    have hstate := (CreateFs_of_valid env ct volumeID params h1 h2).1
    obtain ⟨e, a, s, b, _, ha, hs, _, hv⟩ :=
      validateCreateFsParams_s3_ok (validateCommonParams ct params).1 params hfs h2
    rw [hak] at ha
    rw [hsk] at hs
    have hget1 : (CreateFs env ct volumeID params).state.toolParams.get "s3_ak".toList =
        some ak ∧
        (CreateFs env ct volumeID params).state.toolParams.get "s3_sk".toList = some sk := by
      rw [hstate, hv]
      simp only [GoMap.get_set]
      simp [← Option.some.inj ha, ← Option.some.inj hs]
    have hget2 : ∀ k v, k ∉ ["mdsAddr".toList, "confPath".toList] → k ≠ "fsName".toList →
        k ≠ "noconfirm".toList →
        (CreateFs env ct volumeID params).state.toolParams.get k = some v →
        flagArg "-".toList (k, v) ∈ (env'.order.iter
          (((validateCommonParams (CreateFs env ct volumeID params).state
            params').1.toolParams.set "fsName".toList volumeID').set "noconfirm".toList
            "1".toList)).map (flagArg "-".toList) := by
      intro k v hk1 hk2 hk3 hg
      apply List.mem_map.2
      refine ⟨(k, v), ?_, rfl⟩
      apply ((env'.order.perm _).mem_iff).2
      apply GoMap.mem_of_get
      rw [GoMap.get_set, if_neg (fun h => hk3 h.symm), GoMap.get_set,
        if_neg (fun h => hk2 h.symm), validateCommonParams_get_other _ params' k hk1]
      exact hg
    refine ⟨_, htr', ?_, ?_⟩
    · exact hget2 "s3_ak".toList ak (by decide) (by decide) (by decide) hget1.1
    · exact hget2 "s3_sk".toList sk (by decide) (by decide) (by decide) hget1.2
  · intro h1
    rw [(DeleteFs_of_valid env NewCurvefsTool volumeID params h1).1]
    obtain ⟨m, _, hc⟩ := validateCommonParams_ok NewCurvefsTool params h1
    rw [hc]
    simp only [GoMap.keys_set_eq, NewCurvefsTool]
    simp [GoMap.keys]

theorem flag_mapping_grows_witness :
    ∃ rest,
      (DeleteFs (Env.allOk [])
        (CreateFs (Env.allOk []) NewCurvefsTool "vol1".toList
          [("mdsAddr".toList, "1.1.1.1:6700".toList), ("fsType".toList, "s3".toList),
            ("s3Endpoint".toList, "http://s3".toList), ("s3AccessKey".toList, "ak".toList),
            ("s3SecretKey".toList, "sk".toList), ("s3Bucket".toList, "b".toList)]).state
        "vol1".toList [("mdsAddr".toList, "1.1.1.1:6700".toList)]).trace =
        [.exec toolPath ("delete-fs".toList :: rest)] ∧
      "-s3_ak=ak".toList ∈ rest ∧ "-s3_sk=sk".toList ∈ rest :=
  (flag_mapping_grows (Env.allOk []) NewCurvefsTool "vol1".toList
    [("mdsAddr".toList, "1.1.1.1:6700".toList), ("fsType".toList, "s3".toList),
      ("s3Endpoint".toList, "http://s3".toList), ("s3AccessKey".toList, "ak".toList),
      ("s3SecretKey".toList, "sk".toList), ("s3Bucket".toList, "b".toList)]).2.2.1
    (Env.allOk []) "vol1".toList [("mdsAddr".toList, "1.1.1.1:6700".toList)] "ak".toList
    "sk".toList (by decide) (by decide) (by decide) (by decide) (by decide) (by decide)

/-! ## The rewritten cache directory line -/

theorem only_line_with_key (lines : List Str) (i : Nat) (k : Str)
    (h : ∀ j l, lines[j]? = some l → lineKey l = some k → j = i) :
    (∀ j l, j < i → lines[j]? = some l → lineKey l ≠ some k) ∧
    (∀ j l, i < j → lines[j]? = some l → lineKey l ≠ some k) := by
  constructor
  · intro j l hj hjl hk
    have := h j l hjl hk
    omega
  · intro j l hj hjl hk
    have := h j l hjl hk
    omega

/-- The text written for the first line with key `disk_cache.cache_dir`. -/
theorem outLine_first_cache_dir (mountUUID : Str) (data : Str) (mountFlags : List Str)
    (i : Nat) (line v0 W : Str)
    (he : lineEntry line = some ("disk_cache.cache_dir".toList, v0))
    (hfirst : ∀ j l, j < i → (Split data '\n')[j]? = some l →
      lineKey l ≠ some "disk_cache.cache_dir".toList)
    (hW : heldValue data mountFlags "disk_cache.cache_dir".toList = some W) :
    outLine mountUUID (((Split data '\n').take i).foldl outMap (configMapOf data mountFlags))
      line = "disk_cache.cache_dir=".toList ++ namespacedDirs mountUUID W := by
  have hnot := not_mem_keys_take _ i _ hfirst
  have hg : (((Split data '\n').take i).foldl outMap (configMapOf data mountFlags)).get
      "disk_cache.cache_dir".toList = some W := by
    rw [foldl_outMap_get, if_neg hnot, configMapOf_get]
    exact hW
  unfold outLine
  rw [he]
  simp only []
  rw [hg]
  simp [kvLine, rewriteCacheDirs_eq]

theorem heldValue_of_base (data : Str) (mountFlags : List Str) (i : Nat) (line k V : Str)
    (hi : (Split data '\n')[i]? = some line) (he : lineEntry line = some (k, V))
    (hflag : ∀ e ∈ flagEntries mountFlags, e.1 ≠ k)
    (hlater : ∀ j l, i < j → (Split data '\n')[j]? = some l → lineKey l ≠ some k) :
    heldValue data mountFlags k = some V := by
  unfold heldValue
  rw [(lastValue_none _ _).2 hflag]
  exact lastValue_at_last_index _ i line k V hi he hlater

theorem heldValue_isSome_of_base (data : Str) (mountFlags : List Str) (k : Str)
    (h : k ∈ baseKeys data) : ∃ W, heldValue data mountFlags k = some W := by
  unfold heldValue
  cases hl : lastValue (flagEntries mountFlags) k with
  | some w => exact ⟨w, rfl⟩
  | none => exact lastValue_baseEntries_some data k h

theorem heldValue_no_newline (data : Str) (mountFlags : List Str) (k W : Str)
    (hfl : ∀ f ∈ mountFlags, '\n' ∉ f) (h : heldValue data mountFlags k = some W) :
    '\n' ∉ W := by
  have hg : (configMapOf data mountFlags).get k = some W := by
    rw [configMapOf_get]; exact h
  exact (configMapOf_no_newline data mountFlags hfl k W (GoMap.mem_of_get _ k W hg)).2

theorem namespaced_line_no_newline (u W : Str) (hu : '\n' ∉ u) (hW : '\n' ∉ W) :
    '\n' ∉ "disk_cache.cache_dir=".toList ++ namespacedDirs u W := by
  rw [← rewriteCacheDirs_eq]
  have h := rewriteCacheDirs_not_mem '\n' u W hu hW (by decide) (by decide) (by decide)
  simp only [List.mem_append, not_or]
  exact ⟨by decide, h⟩

/-- A write of index below the number of lines of the base is a line of the
patched content when it contains no newline. -/
theorem write_mem_patchedLines (order : MapOrder) (data : Str) (mountFlags : List Str)
    (mountUUID : Str) (i : Nat) (line : Str) (hi : (Split data '\n')[i]? = some line)
    (hnl : '\n' ∉ outLine mountUUID
      (((Split data '\n').take i).foldl outMap (configMapOf data mountFlags)) line) :
    outLine mountUUID (((Split data '\n').take i).foldl outMap (configMapOf data mountFlags))
      line ∈ patchedLines order data mountFlags mountUUID := by
  have hw := outLines_getElem? mountUUID (Split data '\n') (configMapOf data mountFlags) i line hi
  unfold patchedLines
  rw [patchConfig_fst, split_at_index _ i _ hw, List.append_assoc, List.cons_append]
  exact mem_Split_terminate _ _ _ hnl

theorem write_at_index (order : MapOrder) (data : Str) (mountFlags : List Str)
    (mountUUID : Str) (i : Nat) (line : Str) (hi : (Split data '\n')[i]? = some line) :
    ∃ writes, (patchConfig order data mountFlags mountUUID).1 = terminate writes ∧
      writes[i]? = some (outLine mountUUID
        (((Split data '\n').take i).foldl outMap (configMapOf data mountFlags)) line) := by
  have hlt : i < (Split data '\n').length := by
    by_contra hge
    rw [List.getElem?_eq_none (by omega)] at hi
    cases hi
  refine ⟨_, patchConfig_fst order data mountFlags mountUUID, ?_⟩
  rw [List.getElem?_append_left (by rw [outLines_length]; exact hlt)]
  exact outLines_getElem? mountUUID _ _ i line hi

/-- C2 (amended): for a `disk_cache.cache_dir` line of the base with value
`V`, at index `i`, when no mount flag has that key and no other line of the
base has it, the text written for the line (the write of index `i`) is
`disk_cache.cache_dir=` followed by `V` split on `;`, with every entry
`p:extra` turned into `p/u:extra` and every entry `p` without colon into
`p/u`, joined with `;` (same number of entries, same order).  This text is a
line of the patched content when the mount id contains no newline, and the
line of index `i` when in addition no mount flag contains a newline.  The
value `/data/cache:100GB;/data2/cache` with mount id `abc` gives
`/data/cache/abc:100GB;/data2/cache/abc`. -/
theorem cache_dir_rewrite (order : MapOrder) (data : Str) (mountFlags : List Str) (u : Str)
    (i : Nat) (line V : Str)
    (hi : (Split data '\n')[i]? = some line)
    (he : lineEntry line = some ("disk_cache.cache_dir".toList, V))
    (hflag : ∀ e ∈ flagEntries mountFlags, e.1 ≠ "disk_cache.cache_dir".toList)
    (hother : ∀ j l, (Split data '\n')[j]? = some l →
      lineKey l = some "disk_cache.cache_dir".toList → j = i) :
    (∃ writes, (patchConfig order data mountFlags u).1 = terminate writes ∧
      writes[i]? = some ("disk_cache.cache_dir=".toList ++ namespacedDirs u V)) ∧
    ('\n' ∉ u →
      "disk_cache.cache_dir=".toList ++ namespacedDirs u V ∈
        patchedLines order data mountFlags u) ∧
    ((∀ f ∈ mountFlags, '\n' ∉ f) → '\n' ∉ u →
      (patchedLines order data mountFlags u)[i]? =
        some ("disk_cache.cache_dir=".toList ++ namespacedDirs u V)) ∧
    namespacedDirs u V = Join ((Split V ';').map (namespacedEntry u)) ";".toList ∧
    ((Split V ';').map (namespacedEntry u)).length = (Split V ';').length ∧
    (∀ p extra, ':' ∉ p → namespacedEntry u (p ++ ":".toList ++ extra) =
      p ++ "/".toList ++ u ++ ":".toList ++ extra) ∧
    (∀ p, ':' ∉ p → namespacedEntry u p = p ++ "/".toList ++ u) ∧
    namespacedDirs "abc".toList "/data/cache:100GB;/data2/cache".toList =
      "/data/cache/abc:100GB;/data2/cache/abc".toList := by
  obtain ⟨hfirst, hlater⟩ := only_line_with_key _ i _ hother
  have hW := heldValue_of_base data mountFlags i line _ V hi he hflag hlater
  have hout := outLine_first_cache_dir u data mountFlags i line V V he hfirst hW
  have hV : '\n' ∉ V := by
    have := Split_no_sep data '\n' line (List.mem_iff_getElem?.2 ⟨i, hi⟩)
    rw [(lineEntry_eq line _ V he).1] at this
    simp only [List.mem_append, List.mem_cons, not_or] at this
    exact this.2.2
  refine ⟨?_, ?_, ?_, rfl, by simp, ?_, ?_, by decide⟩
  · rw [← hout]
    exact write_at_index order data mountFlags u i line hi
  · intro hu
    rw [← hout]
    apply write_mem_patchedLines order data mountFlags u i line hi
    rw [hout]
    exact namespaced_line_no_newline u V hu hV
  · intro hfl hu
    rw [patchedLines_base_index order data mountFlags u i line hfl hu hi, hout]
  · intro p extra hp
    unfold namespacedEntry
    rw [(cutAt_some ':' _ p extra).2 ⟨by simp, hp⟩]
  · intro p hp
    unfold namespacedEntry
    rw [(cutAt_none ':' p).2 hp]

theorem cache_dir_rewrite_witness :
    (patchedLines MapOrder.stored
      "#c\ndisk_cache.cache_dir=/data/cache:100GB;/data2/cache".toList ["a=1".toList]
      "abc".toList)[1]? =
      some "disk_cache.cache_dir=/data/cache/abc:100GB;/data2/cache/abc".toList :=
  (cache_dir_rewrite MapOrder.stored
    "#c\ndisk_cache.cache_dir=/data/cache:100GB;/data2/cache".toList ["a=1".toList]
    "abc".toList 1 "disk_cache.cache_dir=/data/cache:100GB;/data2/cache".toList
    "/data/cache:100GB;/data2/cache".toList (by decide) (by decide) (by decide)
    (by
      intro j l hj hk
      have hlen : j < (Split
          "#c\ndisk_cache.cache_dir=/data/cache:100GB;/data2/cache".toList '\n').length := by
        by_contra hge
        rw [List.getElem?_eq_none (by omega)] at hj
        cases hj
      have h2 : (Split
          "#c\ndisk_cache.cache_dir=/data/cache:100GB;/data2/cache".toList '\n').length = 2 := by
        decide
      have hj' : j = 0 ∨ j = 1 := by omega
      rcases hj' with rfl | rfl
      · have h0 : (Split
            "#c\ndisk_cache.cache_dir=/data/cache:100GB;/data2/cache".toList '\n')[0]? =
            some "#c".toList := by decide
        rw [h0] at hj
        simp only [Option.some.injEq] at hj
        subst hj
        have : lineKey "#c".toList = none := by decide
        rw [this] at hk
        cases hk
      · rfl)).2.2.1 (by decide) (by decide)

/-- C2 (as stated) fails: with the base line `disk_cache.cache_dir=/d` and
the mount flag `disk_cache.cache_dir=/x`, the value written is the rewrite of
the flag's value `/x`, not of the line's value `/d`. -/
theorem cache_dir_rewrite_uses_flag_value :
    (Split "disk_cache.cache_dir=/d".toList '\n')[0]? = some "disk_cache.cache_dir=/d".toList ∧
    lineEntry "disk_cache.cache_dir=/d".toList =
      some ("disk_cache.cache_dir".toList, "/d".toList) ∧
    namespacedDirs "abc".toList "/d".toList = "/d/abc".toList ∧
    (patchConfig MapOrder.stored "disk_cache.cache_dir=/d".toList
      ["disk_cache.cache_dir=/x".toList] "abc".toList).1 =
      "disk_cache.cache_dir=/x/abc\n".toList ∧
    "disk_cache.cache_dir=/d/abc".toList ∉
      patchedLines MapOrder.stored "disk_cache.cache_dir=/d".toList
        ["disk_cache.cache_dir=/x".toList] "abc".toList := by
  decide

/-! ## The mount id in the cache directory line -/

/-- C18 (amended): (1) when neither the mount id nor a mount flag contains a
newline, the first `disk_cache.cache_dir` line of the base, of index `i`, is
the line of index `i` of the patched content in the form
`disk_cache.cache_dir=` followed by `W` with the mount id inserted (`W` split
on `;`, every entry `p:extra` turned into `p/u:extra` and every entry `p`
into `p/u`, joined with `;`), where `W` is the value of the last mount flag
with that key, and without such a flag the value of the last line of the base
with that key; when no mount flag has the key and no later line has it, `W`
is the value of the line itself.  (2) When the base has no such line and `V`
is the value of the last mount flag with that key, `disk_cache.cache_dir=V`
is a line of the patched content provided `V` contains no newline, and when
neither the mount id nor a mount flag contains a newline it is the only
appended line with that key. -/
theorem cache_dir_namespacing (order : MapOrder) (data : Str) (mountFlags : List Str)
    (u : Str) :
    (∀ (i : Nat) (line v0 : Str), (Split data '\n')[i]? = some line →
      lineEntry line = some ("disk_cache.cache_dir".toList, v0) →
      (∀ j l, j < i → (Split data '\n')[j]? = some l →
        lineKey l ≠ some "disk_cache.cache_dir".toList) →
      (∀ f ∈ mountFlags, '\n' ∉ f) → '\n' ∉ u →
      ∃ W, heldValue data mountFlags "disk_cache.cache_dir".toList = some W ∧
        (patchedLines order data mountFlags u)[i]? =
          some ("disk_cache.cache_dir=".toList ++ namespacedDirs u W) ∧
        ((∀ e ∈ flagEntries mountFlags, e.1 ≠ "disk_cache.cache_dir".toList) →
          (∀ j l, i < j → (Split data '\n')[j]? = some l →
            lineKey l ≠ some "disk_cache.cache_dir".toList) → W = v0)) ∧
    (∀ V, "disk_cache.cache_dir".toList ∉ baseKeys data →
      lastValue (flagEntries mountFlags) "disk_cache.cache_dir".toList = some V →
      ('\n' ∉ V →
        "disk_cache.cache_dir=".toList ++ V ∈ patchedLines order data mountFlags u) ∧
      ((∀ f ∈ mountFlags, '\n' ∉ f) → '\n' ∉ u →
        ∃ baseOut appended,
          patchedLines order data mountFlags u = baseOut ++ appended ++ [[]] ∧
          baseOut.length = (Split data '\n').length ∧
          appended.filter
            (fun l => decide (textKey l = some "disk_cache.cache_dir".toList)) =
            ["disk_cache.cache_dir=".toList ++ V])) ∧
    (∀ W, namespacedDirs u W = Join ((Split W ';').map (namespacedEntry u)) ";".toList) ∧
    (∀ p extra, ':' ∉ p → namespacedEntry u (p ++ ":".toList ++ extra) =
      p ++ "/".toList ++ u ++ ":".toList ++ extra) ∧
    (∀ p, ':' ∉ p → namespacedEntry u p = p ++ "/".toList ++ u) := by
  refine ⟨?_, ?_, fun _ => rfl, ?_, ?_⟩
  · intro i line v0 hi he hfirst hfl hu
    have hin : "disk_cache.cache_dir".toList ∈ baseKeys data :=
      List.mem_filterMap.2 ⟨line, List.mem_iff_getElem?.2 ⟨i, hi⟩, by simp [lineKey, he]⟩
    obtain ⟨W, hW⟩ := heldValue_isSome_of_base data mountFlags _ hin
    have hout := outLine_first_cache_dir u data mountFlags i line v0 W he hfirst hW
    refine ⟨W, hW, ?_, ?_⟩
    · rw [patchedLines_base_index order data mountFlags u i line hfl hu hi, hout]
    · intro hflag hlater
      have := heldValue_of_base data mountFlags i line _ v0 hi he hflag hlater
      rw [hW] at this
      exact Option.some.inj this
  · intro V hcd hV
    have hg : (restMapOf data mountFlags).get "disk_cache.cache_dir".toList = some V := by
      rw [restMapOf_get, if_neg hcd, configMapOf_get, hV]
    have hnoeq := restMapOf_key_no_eq order data mountFlags
    have hperm := order.perm (restMapOf data mountFlags)
    constructor
    · intro hnl
      have hmem : kvLine ("disk_cache.cache_dir".toList, V) ∈
          (order.iter (restMapOf data mountFlags)).map kvLine :=
        List.mem_map.2 ⟨_, (hperm.mem_iff).2 (GoMap.mem_of_get _ _ _ hg), rfl⟩
      obtain ⟨a1, a2, ha⟩ := List.append_of_mem hmem
      unfold patchedLines
      rw [patchConfig_fst]
      unfold restMapOf at ha
      rw [ha, ← List.append_assoc]
      have hkv : '\n' ∉ kvLine ("disk_cache.cache_dir".toList, V) := by
        rw [mem_kvLine]
        simp only [not_or]
        exact ⟨by decide, by decide, hnl⟩
      exact mem_Split_terminate _ _ _ hkv
    · intro hfl hu
      refine ⟨outLines u (configMapOf data mountFlags) (Split data '\n'),
        (order.iter (restMapOf data mountFlags)).map kvLine,
        patchedLines_eq order data mountFlags u hfl (fun _ => hu), outLines_length _ _ _, ?_⟩
      unfold textKey
      rw [filter_kvLine _ _ hnoeq]
      have hf := filter_key_of_get _ _ V (restMapOf_nodup data mountFlags) hg
      have hp := hperm.filter (fun e => decide (e.1 = "disk_cache.cache_dir".toList))
      rw [hf] at hp
      rw [List.perm_singleton.1 hp]
      rfl
  · intro p extra hp
    unfold namespacedEntry
    rw [(cutAt_some ':' _ p extra).2 ⟨by simp, hp⟩]
  · intro p hp
    unfold namespacedEntry
    rw [(cutAt_none ':' p).2 hp]

theorem cache_dir_namespacing_witness :
    (∃ W, heldValue "x=1\ndisk_cache.cache_dir=/d:1GB".toList ["x=2".toList]
        "disk_cache.cache_dir".toList = some W ∧
      (patchedLines MapOrder.stored "x=1\ndisk_cache.cache_dir=/d:1GB".toList ["x=2".toList]
        "u1".toList)[1]? = some ("disk_cache.cache_dir=".toList ++ namespacedDirs "u1".toList W) ∧
      W = "/d:1GB".toList) ∧
    "disk_cache.cache_dir=/d:1GB".toList ∈
      patchedLines MapOrder.stored "x=1".toList ["disk_cache.cache_dir=/d:1GB".toList]
        "u1".toList :=
  have hlines : ∀ j l, (Split "x=1\ndisk_cache.cache_dir=/d:1GB".toList '\n')[j]? = some l →
      j < 2 := by
    intro j l hjl
    by_contra hge
    have h2 : (Split "x=1\ndisk_cache.cache_dir=/d:1GB".toList '\n').length = 2 := by decide
    rw [List.getElem?_eq_none (by omega)] at hjl
    cases hjl
  ⟨match (cache_dir_namespacing MapOrder.stored "x=1\ndisk_cache.cache_dir=/d:1GB".toList
      ["x=2".toList] "u1".toList).1 1 "disk_cache.cache_dir=/d:1GB".toList "/d:1GB".toList
      (by decide) (by decide)
      (by
        intro j l hj hjl
        have hj0 : j = 0 := by omega
        subst hj0
        have h0 : (Split "x=1\ndisk_cache.cache_dir=/d:1GB".toList '\n')[0]? =
            some "x=1".toList := by decide
        rw [h0] at hjl
        rw [← Option.some.inj hjl]
        decide)
      (by decide) (by decide) with
    | ⟨W, h1, h2, h3⟩ =>
      ⟨W, h1, h2, h3 (by decide) (by
        intro j l hj hjl
        have := hlines j l hjl
        omega)⟩,
  ((cache_dir_namespacing MapOrder.stored "x=1".toList ["disk_cache.cache_dir=/d:1GB".toList]
      "u1".toList).2.1 "/d:1GB".toList (by decide) (by decide)).1 (by decide)⟩

/-- C18 (as stated) fails: (1) of two `disk_cache.cache_dir` lines of the
base only the first is written with the mount id, and with the value of the
second; (2) of two mount flags with that key against a base without such a
line only the last is appended, and a value with a newline is appended over
two lines; a mount flag with a newline on an earlier line moves the rewritten
line to another index. -/
theorem cache_dir_namespacing_exceptions :
    patchedLines MapOrder.stored "disk_cache.cache_dir=/a\ndisk_cache.cache_dir=/b".toList []
      "u1".toList =
      ["disk_cache.cache_dir=/b/u1".toList, "disk_cache.cache_dir=/b".toList, []] ∧
    patchedLines MapOrder.stored [] ["disk_cache.cache_dir=/a".toList,
      "disk_cache.cache_dir=/b".toList] "u1".toList =
      [[], "disk_cache.cache_dir=/b".toList, []] ∧
    "disk_cache.cache_dir=/a".toList ∉
      patchedLines MapOrder.stored [] ["disk_cache.cache_dir=/a".toList,
        "disk_cache.cache_dir=/b".toList] "u1".toList ∧
    patchedLines MapOrder.stored [] ["disk_cache.cache_dir=/a\n/b".toList] "u1".toList =
      [[], "disk_cache.cache_dir=/a".toList, "/b".toList, []] ∧
    patchedLines MapOrder.stored "a=1\ndisk_cache.cache_dir=/d".toList ["a=x\ny".toList]
      "u1".toList =
      ["a=x".toList, "y".toList, "disk_cache.cache_dir=/d/u1".toList, []] := by
  decide

/-! ## The lines of the patched content -/

theorem restMapOf_mem_iff (data : Str) (mountFlags : List Str) (k v : Str) :
    (k, v) ∈ restMapOf data mountFlags ↔
      (k ∉ baseKeys data ∧ lastValue (flagEntries mountFlags) k = some v) := by
  constructor
  · intro h
    have hg := GoMap.get_of_mem _ k v (restMapOf_nodup data mountFlags) h
    rw [restMapOf_get] at hg
    by_cases hk : k ∈ baseKeys data
    · rw [if_pos hk] at hg; cases hg
    · rw [if_neg hk, configMapOf_get] at hg
      refine ⟨hk, ?_⟩
      cases hl : lastValue (flagEntries mountFlags) k with
      | some w => rw [hl] at hg; exact hg
      | none =>
        rw [hl] at hg
        simp only [] at hg
        rw [lastValue_baseEntries_none data k hk] at hg
        cases hg
  · rintro ⟨hk, hv⟩
    apply GoMap.mem_of_get
    rw [restMapOf_get, if_neg hk, configMapOf_get, hv]

/-- C17 (amended): with pairwise distinct keys, none of them
`disk_cache.cache_dir`, and no mount flag, the patched content is the base
content followed by one newline.  When neither the mount id nor a mount flag
contains a newline, the lines of the patched content are one line per
element of the base split on newline, followed by one line `key=value` per
flag key that is the key of no line of the base (with the value of the last
flag of that key), followed by the empty remainder after the last newline.
For every input the patched content has at least one newline more than the
base. -/
theorem patched_content_shape (order : MapOrder) (data : Str) (mountFlags : List Str)
    (mountUUID : Str) :
    ((baseKeys data).Nodup → "disk_cache.cache_dir".toList ∉ baseKeys data →
      patchConfig order data [] mountUUID = (data ++ "\n".toList, false)) ∧
    ((∀ f ∈ mountFlags, '\n' ∉ f) → '\n' ∉ mountUUID →
      ∃ (writes : List Str) (entries : GoMap),
        patchedLines order data mountFlags mountUUID =
          writes ++ entries.map (fun kv => kv.1 ++ "=".toList ++ kv.2) ++ [[]] ∧
        (patchConfig order data mountFlags mountUUID).1 =
          terminate (writes ++ entries.map (fun kv => kv.1 ++ "=".toList ++ kv.2)) ∧
        writes.length = (Split data '\n').length ∧
        entries.keys.Nodup ∧
        (∀ k v, (k, v) ∈ entries ↔
          (k ∉ baseKeys data ∧ lastValue (flagEntries mountFlags) k = some v))) ∧
    data.countP (fun c => decide (c = '\n')) + 1 ≤
      (patchConfig order data mountFlags mountUUID).1.countP (fun c => decide (c = '\n')) := by
  refine ⟨?_, ?_, ?_⟩
  · intro hd hcd
    have hM : ∀ k, (configMapOf data []).get k = lastValue (baseEntries data) k := by
      intro k
      rw [configMapOf_get]
      rfl
    have hkeys : GoMap.keys (baseEntries data) |>.Nodup := by
      unfold baseEntries
      rw [← filterMap_lineKey_eq]
      exact hd
    have hfix : outLines mountUUID (configMapOf data []) (Split data '\n') = Split data '\n' := by
      apply outLines_fixed
      · intro l hl hk
        exact hcd (List.mem_filterMap.2 ⟨l, hl, hk⟩)
      · intro k v hg
        right
        rw [hM, lastValue_eq_get _ k hkeys]
        exact hg
    have hrest : restMapOf data [] = [] := by
      apply GoMap.eq_nil_of_get
      intro k
      rw [restMapOf_get]
      by_cases hk : k ∈ baseKeys data
      · rw [if_pos hk]
      · rw [if_neg hk, hM, lastValue_baseEntries_none data k hk]
    apply Prod.ext
    · rw [patchConfig_fst, hfix]
      unfold restMapOf at hrest
      rw [hrest, List.Perm.eq_nil (order.perm [])]
      simp [terminate_Split]
    · rw [patchConfig_snd]
      rfl
  · intro hfl hu
    have hperm := order.perm (restMapOf data mountFlags)
    refine ⟨outLines mountUUID (configMapOf data mountFlags) (Split data '\n'),
      order.iter (restMapOf data mountFlags),
      patchedLines_eq order data mountFlags mountUUID hfl (fun _ => hu),
      patchConfig_fst order data mountFlags mountUUID, outLines_length _ _ _, ?_, ?_⟩
    · exact ((hperm.map Prod.fst).nodup_iff).2 (restMapOf_nodup data mountFlags)
    · intro k v
      rw [hperm.mem_iff]
      exact restMapOf_mem_iff data mountFlags k v
  · rw [patchConfig_fst, ← Split_length]
    have h1 := countP_terminate
      (outLines mountUUID (configMapOf data mountFlags) (Split data '\n') ++
        (order.iter ((Split data '\n').foldl outMap (configMapOf data mountFlags))).map kvLine)
    rw [List.length_append, outLines_length] at h1
    omega

theorem patched_content_shape_witness :
    patchConfig MapOrder.stored "a=1\n#c\n\nb=2".toList [] "u1".toList =
      ("a=1\n#c\n\nb=2\n".toList, false) ∧
    ∃ (writes : List Str) (entries : GoMap),
      patchedLines MapOrder.reversed "a=1\n#c".toList ["z=9".toList, "a=2".toList, "z=8".toList]
        "u1".toList = writes ++ entries.map (fun kv => kv.1 ++ "=".toList ++ kv.2) ++ [[]] ∧
      writes.length = 2 ∧
      (("z".toList, "8".toList) ∈ entries) :=
  ⟨(patched_content_shape MapOrder.stored "a=1\n#c\n\nb=2".toList [] "u1".toList).1
      (by decide) (by decide),
    match (patched_content_shape MapOrder.reversed "a=1\n#c".toList
        ["z=9".toList, "a=2".toList, "z=8".toList] "u1".toList).2.1 (by decide) (by decide) with
    | ⟨writes, entries, h1, _, h3, _, h5⟩ =>
      ⟨writes, entries, h1, h3, (h5 "z".toList "8".toList).2 ⟨by decide, by decide⟩⟩⟩

/-- C17 (as stated) fails: the base `a=1` has one element and the mount flag
`a=x` with a newline and `y` after it is appended nowhere, yet the patched
content has two newline-terminated lines. -/
theorem patched_content_two_lines_for_one :
    (Split "a=1".toList '\n').length = 1 ∧
    restMapOf "a=1".toList ["a=x\ny".toList] = [] ∧
    (patchConfig MapOrder.stored "a=1".toList ["a=x\ny".toList] "u1".toList).1 =
      "a=x\ny\n".toList ∧
    patchedLines MapOrder.stored "a=1".toList ["a=x\ny".toList] "u1".toList =
      ["a=x".toList, "y".toList, []] := by
  decide

end CurveFs
